import Mathlib

/-! Copy-trading engine: sizing strategies and the signal pipeline.

A shallow embedding of `apps/copy-engine/internal` (models, services, database).

Conventions of the embedding:

* Go `float64` quantities (sizes, fees, percentages, exposures) are rationals `ℚ` and
  their arithmetic is exact, with two exceptions. calculateSharpeRatio tests a computed
  variance against zero, so it takes the rounding `fl` of each operation as a parameter
  (`roundToFloat64`, or the identity for exact arithmetic). The configuration floats
  come out of `strconv.ParseFloat` and are of type `Float64`, which has the infinities
  and NaN.
* A Go `error` result is `Option String` (`none` is `nil`); a `(T, error)` result is
  `Except String T`.
* A nullable pointer field (`*string`, `*Trade`, ...) is an `Option`.
* Timestamps (`time.Now()`) and log output are not part of the state.
-/

namespace CopyEngine

deriving instance DecidableEq for Except

/-! ## models/copy_relationship.go -/

/-- CopyRelationship: a subscription from a follower to a trader. -/
structure CopyRelationship where
  ID : String
  FollowerID : String
  TraderID : String
  AllocationPercent : ℚ
  MaxAllocation : ℚ
  MinAllocation : ℚ
  IsActive : Bool
  AutoRebalance : Bool
  StopLossPercent : Option ℚ
  deriving DecidableEq, Repr

/-- StrategyType is a string tag in the source. -/
abbrev StrategyType := String

def StrategyProportional : StrategyType := "proportional"
def StrategyFixed : StrategyType := "fixed"
def StrategyAdaptive : StrategyType := "adaptive"

/-- TradeSide: the side of a trade. -/
inductive TradeSide where
  | TradeBuy
  | TradeSell
  deriving DecidableEq, Repr

/-- Trade: a trade execution, leader-origin or derived. -/
structure Trade where
  ID : String
  UserID : Option String
  TraderID : Option String
  PositionID : Option String
  TokenSymbol : String
  Side : TradeSide
  Size : ℚ
  Price : ℚ
  Fee : ℚ
  RealizedPnL : ℚ
  TransactionHash : Option String
  BlockNumber : Option Int
  IsCopyTrade : Bool
  CopyRelationshipID : Option String
  deriving DecidableEq, Repr

/-- SignalType: the kind of a copy signal. -/
inductive SignalType where
  | SignalOpenPosition
  | SignalClosePosition
  | SignalModifySize
  | SignalStopLoss
  | SignalTakeProfit
  deriving DecidableEq, Repr

/-- CopySignal: the in-flight derivation for one (relationship, leader trade) pair.
The `Parameters` map is created empty and never written, so it is a list of pairs. -/
structure CopySignal where
  ID : String
  Relationship : CopyRelationship
  OriginalTrade : Trade
  SignalType : SignalType
  Parameters : List (String × ℚ)
  deriving DecidableEq, Repr

/-- ExecutionStatus: the status of a copy execution. -/
inductive ExecutionStatus where
  | StatusPending
  | StatusExecuting
  | StatusCompleted
  | StatusFailed
  | StatusCancelled
  deriving DecidableEq, Repr

/-- CopyExecution: the record of the execution of a copy signal. `Trade` is a nullable
pointer in the source. -/
structure CopyExecution where
  ID : String
  SignalID : String
  Relationship : CopyRelationship
  Trade : Option Trade
  Status : ExecutionStatus
  ErrorMessage : Option String
  Parameters : List (String × ℚ)
  deriving DecidableEq, Repr

/-- RiskMetrics: risk metrics of one relationship. -/
structure RiskMetrics where
  RelationshipID : String
  CurrentExposure : ℚ
  MaxExposure : ℚ
  VaR : ℚ
  LeverageRatio : ℚ
  ConcentrationRisk : ℚ
  LiquidityRisk : ℚ
  deriving DecidableEq, Repr

/-- PositionSide: the side of a position. -/
inductive PositionSide where
  | PositionLong
  | PositionShort
  deriving DecidableEq, Repr

/-- Position: a trading position. `CurrentPrice`, `FundingRate` and `LiquidationPrice` are
nullable pointers in the source. -/
structure Position where
  ID : String
  UserID : Option String
  TraderID : Option String
  TokenSymbol : String
  TokenAddress : String
  Side : PositionSide
  Size : ℚ
  EntryPrice : ℚ
  CurrentPrice : Option ℚ
  UnrealizedPnL : ℚ
  Leverage : ℚ
  FundingRate : Option ℚ
  LiquidationPrice : Option ℚ
  IsCopyTrade : Bool
  CopyRelationshipID : Option String
  deriving DecidableEq, Repr

/-- PerformanceMetrics: performance metrics of one relationship. -/
structure PerformanceMetrics where
  RelationshipID : String
  TotalPnL : ℚ
  WinRate : ℚ
  TotalTrades : ℤ
  WinningTrades : ℤ
  LosingTrades : ℤ
  AvgWinSize : ℚ
  AvgLossSize : ℚ
  MaxDrawdown : ℚ
  SharpeRatio : ℚ
  deriving DecidableEq, Repr

/-! ## services/strategies.go -/

/-- ProportionalStrategy.CalculatePositionSize (strategies.go 20-39). -/
def ProportionalStrategy.CalculatePositionSize (signal : CopySignal) (originalTrade : Trade) :
    Except String ℚ :=
  let allocationPercent := signal.Relationship.AllocationPercent / 100
  let calculatedSize := originalTrade.Size * allocationPercent
  let calculatedSize :=
    if calculatedSize < signal.Relationship.MinAllocation then
      signal.Relationship.MinAllocation
    else calculatedSize
  let calculatedSize :=
    if signal.Relationship.MaxAllocation > 0 ∧
        calculatedSize > signal.Relationship.MaxAllocation then
      signal.Relationship.MaxAllocation
    else calculatedSize
  .ok calculatedSize

/-- ProportionalStrategy.ShouldExecute (strategies.go 41-45). -/
def ProportionalStrategy.ShouldExecute (_signal : CopySignal) (_originalTrade : Trade) :
    Except String Bool :=
  .ok true

/-- FixedStrategy.CalculatePositionSize (strategies.go 60-75). -/
def FixedStrategy.CalculatePositionSize (signal : CopySignal) (originalTrade : Trade) :
    Except String ℚ :=
  let fixedSize := signal.Relationship.MaxAllocation
  let fixedSize :=
    if fixedSize = 0 then
      originalTrade.Size * (signal.Relationship.AllocationPercent / 100)
    else fixedSize
  let fixedSize :=
    if fixedSize < signal.Relationship.MinAllocation then
      signal.Relationship.MinAllocation
    else fixedSize
  .ok fixedSize

/-- FixedStrategy.ShouldExecute (strategies.go 77-80). -/
def FixedStrategy.ShouldExecute (signal : CopySignal) (originalTrade : Trade) :
    Except String Bool :=
  .ok (decide (originalTrade.Size ≥ signal.Relationship.MinAllocation))

/-- AdaptiveStrategy.CalculatePositionSize (strategies.go 95-128); the win rate is the
constant placeholder of the source. -/
def AdaptiveStrategy.CalculatePositionSize (signal : CopySignal) (originalTrade : Trade) :
    Except String ℚ :=
  let baseSize := originalTrade.Size * (signal.Relationship.AllocationPercent / 100)
  let winRate : ℚ := 1 / 2
  let adaptiveMultiplier : ℚ :=
    if winRate > 7 / 10 then 12 / 10
    else if winRate < 3 / 10 then 7 / 10
    else 1
  let calculatedSize := baseSize * adaptiveMultiplier
  let calculatedSize :=
    if calculatedSize < signal.Relationship.MinAllocation then
      signal.Relationship.MinAllocation
    else calculatedSize
  let calculatedSize :=
    if signal.Relationship.MaxAllocation > 0 ∧
        calculatedSize > signal.Relationship.MaxAllocation then
      signal.Relationship.MaxAllocation
    else calculatedSize
  .ok calculatedSize

/-- AdaptiveStrategy.ShouldExecute (strategies.go 130-137). -/
def AdaptiveStrategy.ShouldExecute (signal : CopySignal) (originalTrade : Trade) :
    Except String Bool :=
  .ok (decide (originalTrade.Size ≥ signal.Relationship.MinAllocation))

/-- RiskBasedStrategy.CalculatePositionSize (strategies.go 152-184). -/
def RiskBasedStrategy.CalculatePositionSize (signal : CopySignal) (originalTrade : Trade) :
    Except String ℚ :=
  let baseSize := originalTrade.Size * (signal.Relationship.AllocationPercent / 100)
  let volatilityAdjustment : ℚ := 8 / 10
  let concentrationAdjustment : ℚ := 1
  let leverageAdjustment : ℚ := 1
  let riskAdjustedSize :=
    baseSize * volatilityAdjustment * concentrationAdjustment * leverageAdjustment
  let riskAdjustedSize :=
    match signal.Relationship.StopLossPercent with
    | some stopLossPercent =>
      let stopLossAdjustment := min 1 (stopLossPercent / 2)
      riskAdjustedSize * stopLossAdjustment
    | none => riskAdjustedSize
  let riskAdjustedSize :=
    if riskAdjustedSize < signal.Relationship.MinAllocation then
      signal.Relationship.MinAllocation
    else riskAdjustedSize
  let riskAdjustedSize :=
    if signal.Relationship.MaxAllocation > 0 ∧
        riskAdjustedSize > signal.Relationship.MaxAllocation then
      signal.Relationship.MaxAllocation
    else riskAdjustedSize
  .ok riskAdjustedSize

/-- MartingaleStrategy.CalculatePositionSize (strategies.go 215-246); the loss streak is
the constant placeholder of the source. -/
def MartingaleStrategy.CalculatePositionSize (signal : CopySignal) (originalTrade : Trade) :
    Except String ℚ :=
  let baseSize := originalTrade.Size * (signal.Relationship.AllocationPercent / 100)
  let consecutiveLosses : ℕ := 0
  let multiplier : ℚ := 2 ^ consecutiveLosses
  let calculatedSize := baseSize * multiplier
  let maxMultiplier : ℚ := 4
  let calculatedSize :=
    if multiplier > maxMultiplier then baseSize * maxMultiplier else calculatedSize
  let calculatedSize :=
    if calculatedSize < signal.Relationship.MinAllocation then
      signal.Relationship.MinAllocation
    else calculatedSize
  let calculatedSize :=
    if signal.Relationship.MaxAllocation > 0 ∧
        calculatedSize > signal.Relationship.MaxAllocation then
      signal.Relationship.MaxAllocation
    else calculatedSize
  .ok calculatedSize

/-- AntiMartingaleStrategy.CalculatePositionSize (strategies.go 277-311); the win streak
is the constant placeholder of the source. -/
def AntiMartingaleStrategy.CalculatePositionSize (signal : CopySignal)
    (originalTrade : Trade) : Except String ℚ :=
  let baseSize := originalTrade.Size * (signal.Relationship.AllocationPercent / 100)
  let consecutiveWins : ℕ := 0
  let multiplier : ℚ := (3 / 2) ^ consecutiveWins
  let calculatedSize := baseSize * multiplier
  let maxMultiplier : ℚ := 3
  let calculatedSize :=
    if multiplier > maxMultiplier then baseSize * maxMultiplier else calculatedSize
  let calculatedSize :=
    if consecutiveWins = 0 then baseSize * (8 / 10) else calculatedSize
  let calculatedSize :=
    if calculatedSize < signal.Relationship.MinAllocation then
      signal.Relationship.MinAllocation
    else calculatedSize
  let calculatedSize :=
    if signal.Relationship.MaxAllocation > 0 ∧
        calculatedSize > signal.Relationship.MaxAllocation then
      signal.Relationship.MaxAllocation
    else calculatedSize
  .ok calculatedSize

/-- The six built-in sizers of strategies.go, by the tag each `GetStrategyType` returns. -/
def builtinSizers : List (StrategyType × (CopySignal → Trade → Except String ℚ)) :=
  [ ("proportional", ProportionalStrategy.CalculatePositionSize),
    ("fixed", FixedStrategy.CalculatePositionSize),
    ("adaptive", AdaptiveStrategy.CalculatePositionSize),
    ("risk_based", RiskBasedStrategy.CalculatePositionSize),
    ("martingale", MartingaleStrategy.CalculatePositionSize),
    ("anti_martingale", AntiMartingaleStrategy.CalculatePositionSize) ]

/-! ## The two stores

`database/postgres.go` (persistent store) and `database/redis.go` (fast store) are modelled
as tables inside one `World`, together with the log of store calls made so far. Whether
a round trip to a store fails is decided by the environment, per call. -/

/-- A row of the `copy_executions` table, as written by the INSERT of
`postgresql.CreateCopyExecution`. -/
structure ExecutionRow where
  id : String
  signal_id : String
  relationship_id : String
  trade_id : String
  status : ExecutionStatus
  error_message : Option String
  parameters : List (String × ℚ)
  deriving DecidableEq, Repr

/-- One call on a store interface, with its arguments. -/
inductive Call where
  | GetCopyRelationshipsByTrader (traderID : String)
  | CreateCopyExecution (execution : CopyExecution)
  | UpdateCopyExecution (execution : CopyExecution)
  | CreateTrade (trade : Trade)
  | PgGetRiskMetrics (relationshipID : String)
  | RedisGetRiskMetrics (relationshipID : String)
  | RedisSetRiskMetrics (relationshipID : String) (metrics : RiskMetrics)
  | SetCopySignal (signal : CopySignal)
  | SetLock (key : String)
  | GetFollowerPositions (followerID : String)
  | PgGetPerformanceMetrics (relationshipID : String)
  | RedisGetPerformanceMetrics (relationshipID : String)
  | RedisSetPerformanceMetrics (relationshipID : String) (metrics : PerformanceMetrics)
  deriving DecidableEq, Repr

/-- Whether a call writes to the persistent store. -/
def Call.isPersistentWrite : Call → Bool
  | .CreateCopyExecution _ => true
  | .UpdateCopyExecution _ => true
  | .CreateTrade _ => true
  | _ => false

/-- Whether a call is a lock acquisition. -/
def Call.isSetLock : Call → Bool
  | .SetLock _ => true
  | _ => false

/-- The state of both stores, the log of calls (oldest first) and the number of
identifiers drawn from `uuid.New()`. -/
structure World where
  copy_relationships : List CopyRelationship
  copy_executions : List ExecutionRow
  trades : List Trade
  risk_metrics : List RiskMetrics
  cache_risk_metrics : List (String × RiskMetrics)
  cache_copy_signals : List (String × CopySignal)
  locks : List String
  calls : List Call
  uuids : ℕ
  positions : List Position
  performance_metrics : List PerformanceMetrics
  cache_performance_metrics : List (String × PerformanceMetrics)
  deriving DecidableEq, Repr

/-- What the program does not control: `ioFails n` says that the store round trip made
when `n` calls have been logged fails with a transient error; `uuid n` is the `n`-th
identifier returned by `uuid.New().String()`. -/
structure Env where
  ioFails : ℕ → Bool
  uuid : ℕ → String

/-- The result of running a piece of the engine: it returns a value, or the goroutine
panics (which terminates the process). -/
inductive Outcome (α : Type) where
  | returned (value : α) (world : World)
  | panicked (message : String) (world : World)
  deriving DecidableEq, Repr

/-- The world an outcome leaves behind. -/
def Outcome.world {α : Type} : Outcome α → World
  | .returned _ w => w
  | .panicked _ w => w

/-- Whether the run finished normally. -/
def Outcome.isReturned {α : Type} : Outcome α → Bool
  | .returned _ _ => true
  | .panicked _ _ => false

/-- The returned value, if the run finished normally. -/
def Outcome.value? {α : Type} : Outcome α → Option α
  | .returned a _ => some a
  | .panicked _ _ => none

/-- Log a call and ask the environment whether its round trip fails. -/
def roundTrip (env : Env) (w : World) (c : Call) : Bool × World :=
  (env.ioFails w.calls.length, { w with calls := w.calls ++ [c] })

/-- The text of a transient I/O error. -/
def transientError : String := "connection error"

/-- Draw a fresh identifier: `uuid.New().String()`. -/
def newUUID (env : Env) (w : World) : String × World :=
  (env.uuid w.uuids, { w with uuids := w.uuids + 1 })

/-- Redis `SET key value`: insert or replace. -/
def cacheSet {α : Type} (key : String) (value : α) (m : List (String × α)) :
    List (String × α) :=
  (key, value) :: m.filter (fun kv => kv.1 ≠ key)

/-- Redis `GET key`. -/
def cacheGet {α : Type} (key : String) (m : List (String × α)) : Option α :=
  (m.find? (fun kv => kv.1 = key)).map Prod.snd

/-- postgresql.GetCopyRelationshipsByTrader with scanCopyRelationships (postgres.go 168-215):
the rows `WHERE trader_id = $1 AND is_active = true`, in table order. -/
def postgresql.GetCopyRelationshipsByTrader (env : Env) (w : World) (traderID : String) :
    Except String (List CopyRelationship) × World :=
  let (failed, w) := roundTrip env w (.GetCopyRelationshipsByTrader traderID)
  if failed then
    (.error ("failed to query copy relationships: " ++ transientError), w)
  else
    (.ok (w.copy_relationships.filter
      (fun rel => rel.TraderID = traderID ∧ rel.IsActive = true)), w)

/-- postgresql.CreateCopyExecution (postgres.go 217-246). The call is logged on entry. The
argument list of the INSERT reads `execution.Trade.ID` through the nullable `Trade`
pointer before the statement is sent; on a nil pointer that read panics. -/
def postgresql.CreateCopyExecution (env : Env) (w : World) (execution : CopyExecution) :
    Outcome (Option String) :=
  let (failed, w) := roundTrip env w (.CreateCopyExecution execution)
  match execution.Trade with
  | none =>
    .panicked "runtime error: invalid memory address or nil pointer dereference" w
  | some trade =>
    if failed then
      .returned (some ("failed to create copy execution: " ++ transientError)) w
    else
      let row : ExecutionRow :=
        { id := execution.ID
          signal_id := execution.SignalID
          relationship_id := execution.Relationship.ID
          trade_id := trade.ID
          status := execution.Status
          error_message := execution.ErrorMessage
          parameters := execution.Parameters }
      .returned none { w with copy_executions := w.copy_executions ++ [row] }

/-- postgresql.UpdateCopyExecution (postgres.go 248-267): `UPDATE copy_executions SET status,
error_message WHERE id = $1`; a statement that matches no row is not an error. -/
def postgresql.UpdateCopyExecution (env : Env) (w : World) (execution : CopyExecution) :
    Option String × World :=
  let (failed, w) := roundTrip env w (.UpdateCopyExecution execution)
  if failed then
    (some ("failed to update copy execution: " ++ transientError), w)
  else
    (none, { w with copy_executions := w.copy_executions.map (fun row =>
      if row.id = execution.ID then
        { row with status := execution.Status, error_message := execution.ErrorMessage }
      else row) })

/-- postgresql.CreateTrade (postgres.go 398-429): INSERT INTO trades. -/
def postgresql.CreateTrade (env : Env) (w : World) (trade : Trade) : Option String × World :=
  let (failed, w) := roundTrip env w (.CreateTrade trade)
  if failed then
    (some ("failed to create trade: " ++ transientError), w)
  else
    (none, { w with trades := w.trades ++ [trade] })

/-- postgresql.GetRiskMetrics (postgres.go 591-620): the row of `risk_metrics` with the
given `relationship_id`. -/
def postgresql.GetRiskMetrics (env : Env) (w : World) (relationshipID : String) :
    Except String RiskMetrics × World :=
  let (failed, w) := roundTrip env w (.PgGetRiskMetrics relationshipID)
  if failed then
    (.error ("failed to get risk metrics: " ++ transientError), w)
  else
    match w.risk_metrics.find? (fun m => m.RelationshipID = relationshipID) with
    | none => (.error ("risk metrics not found for relationship: " ++ relationshipID), w)
    | some metrics => (.ok metrics, w)

/-- redisClient.GetRiskMetrics (redis.go 173-190): key `risk_metrics:<id>`. -/
def redisClient.GetRiskMetrics (env : Env) (w : World) (relationshipID : String) :
    Except String RiskMetrics × World :=
  let key := "risk_metrics:" ++ relationshipID
  let (failed, w) := roundTrip env w (.RedisGetRiskMetrics relationshipID)
  if failed then
    (.error ("failed to get risk metrics: " ++ transientError), w)
  else
    match cacheGet key w.cache_risk_metrics with
    | none => (.error ("risk metrics not found for relationship: " ++ relationshipID), w)
    | some metrics => (.ok metrics, w)

/-- redisClient.SetRiskMetrics (redis.go 161-171). -/
def redisClient.SetRiskMetrics (env : Env) (w : World) (relationshipID : String)
    (metrics : RiskMetrics) : Option String × World :=
  let key := "risk_metrics:" ++ relationshipID
  let (failed, w) := roundTrip env w (.RedisSetRiskMetrics relationshipID metrics)
  if failed then
    (some transientError, w)
  else
    (none, { w with cache_risk_metrics := cacheSet key metrics w.cache_risk_metrics })

/-- redisClient.SetCopySignal (redis.go 79-89): key `copy_signals:<relationship id>`. -/
def redisClient.SetCopySignal (env : Env) (w : World) (signal : CopySignal) :
    Option String × World :=
  let key := "copy_signals:" ++ signal.Relationship.ID
  let (failed, w) := roundTrip env w (.SetCopySignal signal)
  if failed then
    (some transientError, w)
  else
    (none, { w with cache_copy_signals := cacheSet key signal w.cache_copy_signals })

/-- redisClient.SetLock (redis.go 217-227): `SET lock:<key> NX`; true when the key was
absent and is now held. -/
def redisClient.SetLock (env : Env) (w : World) (key : String) : Except String Bool × World :=
  let fullKey := "lock:" ++ key
  let (failed, w) := roundTrip env w (.SetLock key)
  if failed then
    (.error ("failed to set lock: " ++ transientError), w)
  else if fullKey ∈ w.locks then
    (.ok false, w)
  else
    (.ok true, { w with locks := fullKey :: w.locks })

/-- postgresql.GetFollowerPositions with scanPositions (postgres.go 282-335): the rows
`WHERE user_id = $1 AND is_copy_trade = true AND size > 0`, in table order. -/
def postgresql.GetFollowerPositions (env : Env) (w : World) (followerID : String) :
    Except String (List Position) × World :=
  let (failed, w) := roundTrip env w (.GetFollowerPositions followerID)
  if failed then
    (.error ("failed to query positions: " ++ transientError), w)
  else
    (.ok (w.positions.filter
      (fun pos => pos.UserID = some followerID ∧ pos.IsCopyTrade = true ∧ pos.Size > 0)), w)

/-- postgresql.GetPerformanceMetrics (postgres.go 525-556): the row of
`performance_metrics` with the given `relationship_id`. -/
def postgresql.GetPerformanceMetrics (env : Env) (w : World) (relationshipID : String) :
    Except String PerformanceMetrics × World :=
  let (failed, w) := roundTrip env w (.PgGetPerformanceMetrics relationshipID)
  if failed then
    (.error ("failed to get performance metrics: " ++ transientError), w)
  else
    match w.performance_metrics.find? (fun m => m.RelationshipID = relationshipID) with
    | none =>
      (.error ("performance metrics not found for relationship: " ++ relationshipID), w)
    | some metrics => (.ok metrics, w)

/-- redisClient.GetPerformanceMetrics (redis.go 142-159): key `performance_metrics:<id>`. -/
def redisClient.GetPerformanceMetrics (env : Env) (w : World) (relationshipID : String) :
    Except String PerformanceMetrics × World :=
  let key := "performance_metrics:" ++ relationshipID
  let (failed, w) := roundTrip env w (.RedisGetPerformanceMetrics relationshipID)
  if failed then
    (.error ("failed to get performance metrics: " ++ transientError), w)
  else
    match cacheGet key w.cache_performance_metrics with
    | none =>
      (.error ("performance metrics not found for relationship: " ++ relationshipID), w)
    | some metrics => (.ok metrics, w)

/-- redisClient.SetPerformanceMetrics (redis.go 130-140). -/
def redisClient.SetPerformanceMetrics (env : Env) (w : World) (relationshipID : String)
    (metrics : PerformanceMetrics) : Option String × World :=
  let key := "performance_metrics:" ++ relationshipID
  let (failed, w) := roundTrip env w (.RedisSetPerformanceMetrics relationshipID metrics)
  if failed then
    (some transientError, w)
  else
    (none, { w with
      cache_performance_metrics := cacheSet key metrics w.cache_performance_metrics })

/-! ## services/copy_engine.go -/

/-- CopyStrategy: the strategy interface (copy_engine.go 47-51). -/
structure CopyStrategy where
  CalculatePositionSize : CopySignal → Trade → Except String ℚ
  ShouldExecute : CopySignal → Trade → Except String Bool
  GetStrategyType : StrategyType

def NewProportionalStrategy : CopyStrategy :=
  { CalculatePositionSize := ProportionalStrategy.CalculatePositionSize
    ShouldExecute := ProportionalStrategy.ShouldExecute
    GetStrategyType := StrategyProportional }

def NewFixedStrategy : CopyStrategy :=
  { CalculatePositionSize := FixedStrategy.CalculatePositionSize
    ShouldExecute := FixedStrategy.ShouldExecute
    GetStrategyType := StrategyFixed }

def NewAdaptiveStrategy : CopyStrategy :=
  { CalculatePositionSize := AdaptiveStrategy.CalculatePositionSize
    ShouldExecute := AdaptiveStrategy.ShouldExecute
    GetStrategyType := StrategyAdaptive }

/-- The part of the `copyEngine` struct the trade pipeline reads: the strategy registry
(a Go map, here an association list). -/
structure copyEngine where
  strategies : List (StrategyType × CopyStrategy)

/-- Go map lookup `ce.strategies[key]`. -/
def copyEngine.strategy (ce : copyEngine) (key : StrategyType) : Option CopyStrategy :=
  (ce.strategies.find? (fun kv => kv.1 = key)).map Prod.snd

/-- NewCopyEngine (copy_engine.go 54-69): registers the three built-in strategies. -/
def NewCopyEngine : copyEngine :=
  { strategies :=
      [ (StrategyProportional, NewProportionalStrategy),
        (StrategyFixed, NewFixedStrategy),
        (StrategyAdaptive, NewAdaptiveStrategy) ] }

/-- copyEngine.GetRiskMetrics (copy_engine.go 168-187): cache first, then the persistent
store, then a best-effort cache write. -/
def copyEngine.GetRiskMetrics (env : Env) (w : World) (relationshipID : String) :
    Except String RiskMetrics × World :=
  match redisClient.GetRiskMetrics env w relationshipID with
  | (.ok metrics, w) => (.ok metrics, w)
  | (.error _, w) =>
    match postgresql.GetRiskMetrics env w relationshipID with
    | (.error err, w) => (.error ("failed to get risk metrics: " ++ err), w)
    | (.ok metrics, w) =>
      let (_, w) := redisClient.SetRiskMetrics env w relationshipID metrics
      (.ok metrics, w)

/-- copyEngine.shouldExecuteCopy (copy_engine.go 324-354). -/
def copyEngine.shouldExecuteCopy (env : Env) (w : World) (relationship : CopyRelationship)
    (trade : Trade) : Except String Bool × World :=
  if !relationship.IsActive then
    (.ok false, w)
  else if trade.Size < relationship.MinAllocation then
    (.ok false, w)
  else if relationship.MaxAllocation > 0 ∧ trade.Size > relationship.MaxAllocation then
    (.ok false, w)
  else
    match copyEngine.GetRiskMetrics env w relationship.ID with
    | (.error _, w) => (.ok true, w)
    | (.ok riskMetrics, w) =>
      if riskMetrics.CurrentExposure > riskMetrics.MaxExposure then
        (.ok false, w)
      else
        (.ok true, w)

/-- copyEngine.determineSignalType (copy_engine.go 356-369). -/
def copyEngine.determineSignalType (trade : Trade) : SignalType :=
  if trade.PositionID ≠ none then
    .SignalModifySize
  else if trade.Side = .TradeBuy then
    .SignalOpenPosition
  else
    .SignalClosePosition

/-- The `copyTrade` struct literal of executeCopyTrade (copy_engine.go 379-395). -/
def copyEngine.executeCopyTrade.copyTrade (id : String) (execution : CopyExecution)
    (originalTrade : Trade) (copySize : ℚ) : Trade :=
  { ID := id
    UserID := some execution.Relationship.FollowerID
    TraderID := originalTrade.TraderID
    PositionID := originalTrade.PositionID
    TokenSymbol := originalTrade.TokenSymbol
    Side := originalTrade.Side
    Size := copySize
    Price := originalTrade.Price
    Fee := originalTrade.Fee * (copySize / originalTrade.Size)
    RealizedPnL := 0
    TransactionHash := none
    BlockNumber := none
    IsCopyTrade := true
    CopyRelationshipID := some execution.Relationship.ID }

/-- copyEngine.executeCopyTrade (copy_engine.go 371-407). The execution is mutated through
its pointer, so the updated execution is returned next to the error. -/
def copyEngine.executeCopyTrade (env : Env) (w : World) (execution : CopyExecution)
    (originalTrade : Trade) (copySize : ℚ) : Option String × CopyExecution × World :=
  let execution := { execution with Status := .StatusExecuting }
  let (_, w) := postgresql.UpdateCopyExecution env w execution
  let (id, w) := newUUID env w
  let copyTrade := copyEngine.executeCopyTrade.copyTrade id execution originalTrade copySize
  match postgresql.CreateTrade env w copyTrade with
  | (some err, w) => (some ("failed to create copy trade: " ++ err), execution, w)
  | (none, w) => (none, { execution with Trade := some copyTrade }, w)

/-- copyEngine.processRelationship (copy_engine.go 240-322). -/
def copyEngine.processRelationship (ce : copyEngine) (env : Env) (w : World)
    (relationship : CopyRelationship) (trade : Trade) : Outcome (Option String) :=
  match copyEngine.shouldExecuteCopy env w relationship trade with
  | (.error err, w) => .returned (some ("failed to check execution criteria: " ++ err)) w
  | (.ok false, w) => .returned none w
  | (.ok true, w) =>
    let (signalID, w) := newUUID env w
    let signal : CopySignal :=
      { ID := signalID
        Relationship := relationship
        OriginalTrade := trade
        SignalType := copyEngine.determineSignalType trade
        Parameters := [] }
    match ce.strategy StrategyProportional with
    | none => .returned (some ("strategy not found: " ++ StrategyProportional)) w
    | some strategy =>
      match strategy.ShouldExecute signal trade with
      | .error err => .returned (some ("failed to check strategy execution: " ++ err)) w
      | .ok false => .returned none w
      | .ok true =>
        match strategy.CalculatePositionSize signal trade with
        | .error err => .returned (some ("failed to calculate position size: " ++ err)) w
        | .ok positionSize =>
          let (executionID, w) := newUUID env w
          let execution : CopyExecution :=
            { ID := executionID
              SignalID := signal.ID
              Relationship := relationship
              Trade := none
              Status := .StatusPending
              ErrorMessage := none
              Parameters :=
                [ ("calculated_size", positionSize),
                  ("original_size", trade.Size),
                  ("allocation_pct", relationship.AllocationPercent) ] }
          let (_, w) := redisClient.SetCopySignal env w signal
          let (err, execution, w) :=
            copyEngine.executeCopyTrade env w execution trade positionSize
          let execution :=
            match err with
            | some msg =>
              { execution with Status := .StatusFailed, ErrorMessage := some msg }
            | none => { execution with Status := .StatusCompleted }
          match postgresql.CreateCopyExecution env w execution with
          | .panicked msg w => .panicked msg w
          | .returned _ w => .returned none w

/-- The fan-out loop of processTrade (copy_engine.go 222-236): one task per relationship.
The tasks are run one after the other in list order (one schedule of the goroutines); a
panic in a task terminates the process. -/
def copyEngine.processTrade.fanOut (ce : copyEngine) (env : Env) (trade : Trade) :
    World → List CopyRelationship → Outcome Unit
  | w, [] => .returned () w
  | w, rel :: rest =>
    match copyEngine.processRelationship ce env w rel trade with
    | .panicked msg w => .panicked msg w
    | .returned _ w => copyEngine.processTrade.fanOut ce env trade w rest

/-- copyEngine.processTrade (copy_engine.go 208-238). -/
def copyEngine.processTrade (ce : copyEngine) (env : Env) (w : World) (trade : Trade) :
    Outcome (Option String) :=
  match trade.TraderID with
  | none => .returned (some "trade has no trader ID") w
  | some traderID =>
    match postgresql.GetCopyRelationshipsByTrader env w traderID with
    | (.error err, w) => .returned (some ("failed to get copy relationships: " ++ err)) w
    | (.ok relationships, w) =>
      match copyEngine.processTrade.fanOut ce env trade w relationships with
      | .panicked msg w => .panicked msg w
      | .returned _ w => .returned none w

/-- copyEngine.tradeProcessor (copy_engine.go 189-206): the worker loop, run on the trades
queued on the ingress channel until the channel is closed. The value returned is the
list of results of processTrade, one per trade, in order (the source logs the errors). -/
def copyEngine.tradeProcessor (ce : copyEngine) (env : Env) :
    World → List Trade → Outcome (List (Option String))
  | w, [] => .returned [] w
  | w, trade :: rest =>
    match copyEngine.processTrade ce env w trade with
    | .panicked msg w => .panicked msg w
    | .returned err w =>
      match copyEngine.tradeProcessor ce env w rest with
      | .panicked msg w => .panicked msg w
      | .returned errs w => .returned (err :: errs) w

/-- copyEngine.GetPerformanceMetrics (copy_engine.go 147-166): cache first, then the
persistent store, then a best-effort cache write. -/
def copyEngine.GetPerformanceMetrics (env : Env) (w : World) (relationshipID : String) :
    Except String PerformanceMetrics × World :=
  match redisClient.GetPerformanceMetrics env w relationshipID with
  | (.ok metrics, w) => (.ok metrics, w)
  | (.error _, w) =>
    match postgresql.GetPerformanceMetrics env w relationshipID with
    | (.error err, w) => (.error ("failed to get performance metrics: " ++ err), w)
    | (.ok metrics, w) =>
      let (_, w) := redisClient.SetPerformanceMetrics env w relationshipID metrics
      (.ok metrics, w)

/-- The body of the loop of calculateMaxDrawdown (copy_engine.go 599-608), on the loop
state `(peak, maxDrawdown, runningPnL)`. -/
def copyEngine.calculateMaxDrawdown.step (state : ℚ × ℚ × ℚ) (trade : Trade) : ℚ × ℚ × ℚ :=
  let (peak, maxDrawdown, runningPnL) := state
  let runningPnL := runningPnL + trade.RealizedPnL
  let peak := if runningPnL > peak then runningPnL else peak
  let drawdown := peak - runningPnL
  let maxDrawdown := if drawdown > maxDrawdown then drawdown else maxDrawdown
  (peak, maxDrawdown, runningPnL)

/-- copyEngine.calculateMaxDrawdown (copy_engine.go 591-611). -/
def copyEngine.calculateMaxDrawdown (trades : List Trade) : ℚ :=
  if trades.length = 0 then
    0
  else
    (trades.foldl copyEngine.calculateMaxDrawdown.step (0, 0, 0)).2.1

/-- The number of binary digits of `n`, for `n < 2 ^ fuel`. -/
def bitLengthAux : ℕ → ℕ → ℕ
  | 0, _ => 0
  | fuel + 1, n => if n = 0 then 0 else bitLengthAux fuel (n / 2) + 1

/-- The number of binary digits of `n` (for `n < 2 ^ 4096`). -/
def bitLength (n : ℕ) : ℕ := bitLengthAux 4096 n

/-- The integer nearest to `n / d`, a tie going to the even neighbour. -/
def roundNearestEven (n d : ℕ) : ℕ :=
  let q := n / d
  let r := n % d
  if 2 * r < d then q
  else if 2 * r > d then q + 1
  else if q % 2 = 0 then q else q + 1

/-- The positive rational `n / d` rounded to 53 significant binary digits: with `e` the
exponent for which `2 ^ 52 ≤ (n / d) / 2 ^ e < 2 ^ 53`, the value `m × 2 ^ e` where `m`
is the integer nearest to `(n / d) / 2 ^ e`, ties to even. -/
def roundPositive (n d : ℕ) : ℚ :=
  let k : ℤ := (bitLength n : ℤ) - (bitLength d : ℤ)
  let atLeast : Bool :=
    if 0 ≤ k then decide (d * 2 ^ k.toNat ≤ n) else decide (d ≤ n * 2 ^ (-k).toNat)
  let e : ℤ := if atLeast then k - 52 else k - 53
  let m : ℕ :=
    if 0 ≤ e then roundNearestEven n (d * 2 ^ e.toNat)
    else roundNearestEven (n * 2 ^ (-e).toNat) d
  mkRat ((m * 2 ^ e.toNat : ℕ) : ℤ) (2 ^ (-e).toNat)

/-- The rounding of Go `float64` arithmetic (IEEE 754 binary64, round to nearest, ties to
even): the `float64` nearest to the exact result `x` of an operation. The exponent range
is not bounded: overflow to an infinity and the subnormal numbers are not modelled. -/
def roundToFloat64 (x : ℚ) : ℚ :=
  if x = 0 then 0
  else if 0 < x then roundPositive x.num.natAbs x.den
  else - roundPositive x.num.natAbs x.den

/-- The first loop of calculateSharpeRatio (copy_engine.go 619-624): the per-trade returns
of the trades with `Size > 0`. The parameter `fl` is the rounding applied to the exact
result of each `float64` operation: `roundToFloat64` for the arithmetic of the program,
the identity for arithmetic without rounding. -/
def copyEngine.calculateSharpeRatio.returns (fl : ℚ → ℚ) (trades : List Trade) : List ℚ :=
  trades.foldl
    (fun returns trade =>
      if trade.Size > 0 then returns ++ [fl (trade.RealizedPnL / trade.Size)] else returns)
    []

/-- The second loop of calculateSharpeRatio and the division after it (copy_engine.go
630-634): `mean`. -/
def copyEngine.calculateSharpeRatio.mean (fl : ℚ → ℚ) (returns : List ℚ) : ℚ :=
  let mean := returns.foldl (fun mean r => fl (mean + r)) 0
  fl (mean / (returns.length : ℚ))

/-- The third loop of calculateSharpeRatio and the division after it (copy_engine.go
636-641): `variance`. Each of `r - mean`, `diff * diff` and `variance + …` is rounded (no
fused multiply-add, as on amd64). -/
def copyEngine.calculateSharpeRatio.variance (fl : ℚ → ℚ) (returns : List ℚ) (mean : ℚ) :
    ℚ :=
  let variance := returns.foldl
    (fun variance r =>
      let diff := fl (r - mean)
      fl (variance + fl (diff * diff)))
    0
  fl (variance / (returns.length : ℚ))

/-- copyEngine.calculateSharpeRatio (copy_engine.go 613-648). `math.Sqrt` is a library
function outside the repository and is taken as the parameter `sqrt`; `fl` is the
rounding of `float64` arithmetic. -/
def copyEngine.calculateSharpeRatio (fl : ℚ → ℚ) (sqrt : ℚ → ℚ) (trades : List Trade) : ℚ :=
  if trades.length < 2 then
    0
  else
    let returns := copyEngine.calculateSharpeRatio.returns fl trades
    if returns.length < 2 then
      0
    else
      let mean := copyEngine.calculateSharpeRatio.mean fl returns
      let variance := copyEngine.calculateSharpeRatio.variance fl returns mean
      if variance = 0 then
        0
      else
        fl (mean / sqrt variance)

/-- copyEngine.calculateVaR (copy_engine.go 650-665). -/
def copyEngine.calculateVaR (positions : List Position) : ℚ :=
  if positions.length = 0 then
    0
  else
    let totalValue := positions.foldl
      (fun totalValue position =>
        match position.CurrentPrice with
        | some price => totalValue + position.Size * price
        | none => totalValue)
      0
    totalValue * (2 / 100)

/-- Go `m[key] += value` on a `map[string]float64`, the map being an association list
with one entry per key: a missing key reads as zero. -/
def mapAdd : List (String × ℚ) → String → ℚ → List (String × ℚ)
  | [], key, value => [(key, value)]
  | (k, x) :: rest, key, value =>
    if k = key then (k, x + value) :: rest else (k, x) :: mapAdd rest key value

/-- Go `m[key]` on a `map[string]float64`: a missing key reads as zero. -/
def mapGet : List (String × ℚ) → String → ℚ
  | [], _ => 0
  | (k, x) :: rest, key => if k = key then x else mapGet rest key

/-- The body of the first loop of calculateConcentrationRisk (copy_engine.go 676-682), on
the loop state `(totalValue, symbolValues)`. -/
def copyEngine.calculateConcentrationRisk.step (state : ℚ × List (String × ℚ))
    (position : Position) : ℚ × List (String × ℚ) :=
  match position.CurrentPrice with
  | some price =>
    let value := position.Size * price
    (state.1 + value, mapAdd state.2 position.TokenSymbol value)
  | none => state

/-- copyEngine.calculateConcentrationRisk (copy_engine.go 667-695). The second loop ranges
over the map; the entries are visited in insertion order (the sum of rationals does not
depend on the order). -/
def copyEngine.calculateConcentrationRisk (positions : List Position) : ℚ :=
  if positions.length = 0 then
    0
  else
    let (totalValue, symbolValues) :=
      positions.foldl copyEngine.calculateConcentrationRisk.step (0, [])
    if totalValue = 0 then
      0
    else
      symbolValues.foldl
        (fun hhi entry =>
          let share := entry.2 / totalValue
          hhi + share * share)
        0

/-- The body of the loop of calculateRiskMetrics (copy_engine.go 560-566), on the loop
state `(currentExposure, totalValue)`. -/
def copyEngine.calculateRiskMetrics.step (state : ℚ × ℚ) (position : Position) : ℚ × ℚ :=
  match position.CurrentPrice with
  | some price =>
    let value := position.Size * price
    (state.1 + value, state.2 + value)
  | none => state

/-- copyEngine.calculateRiskMetrics (copy_engine.go 550-589). -/
def copyEngine.calculateRiskMetrics (env : Env) (w : World) (relationship : CopyRelationship) :
    Except String RiskMetrics × World :=
  match postgresql.GetFollowerPositions env w relationship.FollowerID with
  | (.error err, w) => (.error ("failed to get follower positions: " ++ err), w)
  | (.ok positions, w) =>
    let (currentExposure, totalValue) :=
      positions.foldl copyEngine.calculateRiskMetrics.step (0, 0)
    let maxExposure := relationship.MaxAllocation
    let maxExposure := if maxExposure = 0 then totalValue * (1 / 10) else maxExposure
    let leverageRatio : ℚ := if totalValue > 0 then currentExposure / totalValue else 0
    (.ok
      { RelationshipID := relationship.ID
        CurrentExposure := currentExposure
        MaxExposure := maxExposure
        VaR := copyEngine.calculateVaR positions
        LeverageRatio := leverageRatio
        ConcentrationRisk := copyEngine.calculateConcentrationRisk positions
        LiquidityRisk := 1 / 10 }, w)

/-- The body of the first loop of calculatePerformanceMetrics (copy_engine.go 503-512),
on the loop state `(totalPnL, winningTrades, losingTrades, winSizes, lossSizes)`. -/
def copyEngine.calculatePerformanceMetrics.step
    (state : ℚ × ℤ × ℤ × List ℚ × List ℚ) (trade : Trade) : ℚ × ℤ × ℤ × List ℚ × List ℚ :=
  let (totalPnL, winningTrades, losingTrades, winSizes, lossSizes) := state
  let totalPnL := totalPnL + trade.RealizedPnL
  if trade.RealizedPnL > 0 then
    (totalPnL, winningTrades + 1, losingTrades, winSizes ++ [trade.RealizedPnL], lossSizes)
  else if trade.RealizedPnL < 0 then
    (totalPnL, winningTrades, losingTrades + 1, winSizes, lossSizes ++ [|trade.RealizedPnL|])
  else
    (totalPnL, winningTrades, losingTrades, winSizes, lossSizes)

/-- copyEngine.calculatePerformanceMetrics (copy_engine.go 482-548); `fl` and `sqrt` stand
for the rounding of `float64` arithmetic and for `math.Sqrt`, both used by
calculateSharpeRatio. -/
def copyEngine.calculatePerformanceMetrics (fl : ℚ → ℚ) (sqrt : ℚ → ℚ)
    (relationshipID : String)
    (trades : List Trade) : PerformanceMetrics :=
  if trades.length = 0 then
    { RelationshipID := relationshipID
      TotalPnL := 0
      WinRate := 0
      TotalTrades := 0
      WinningTrades := 0
      LosingTrades := 0
      AvgWinSize := 0
      AvgLossSize := 0
      MaxDrawdown := 0
      SharpeRatio := 0 }
  else
    let (totalPnL, winningTrades, losingTrades, winSizes, lossSizes) :=
      trades.foldl copyEngine.calculatePerformanceMetrics.step (0, 0, 0, [], [])
    let avgWinSize : ℚ :=
      if winSizes.length > 0 then
        winSizes.foldl (fun avgWinSize size => avgWinSize + size) 0 / (winSizes.length : ℚ)
      else 0
    let avgLossSize : ℚ :=
      if lossSizes.length > 0 then
        lossSizes.foldl (fun avgLossSize size => avgLossSize + size) 0 / (lossSizes.length : ℚ)
      else 0
    let winRate : ℚ :=
      if trades.length > 0 then (winningTrades : ℚ) / (trades.length : ℚ) else 0
    { RelationshipID := relationshipID
      TotalPnL := totalPnL
      WinRate := winRate
      TotalTrades := (trades.length : ℤ)
      WinningTrades := winningTrades
      LosingTrades := losingTrades
      AvgWinSize := avgWinSize
      AvgLossSize := avgLossSize
      MaxDrawdown := copyEngine.calculateMaxDrawdown trades
      SharpeRatio := copyEngine.calculateSharpeRatio fl sqrt trades }

/-! ## services/copy_engine.go: start, stop and ingress

The control fields of the `copyEngine` struct. What the scheduler and the clock decide
(whether the workers finish before the 30-second timer, which case of a `select` fires)
is an argument of the operation. -/

/-- The control and state fields of the `copyEngine` struct: `running`, the ingress
channel `tradeChan` (its buffer and whether it has been closed), the context made by
Start (numbered in order of creation, 0 before the first Start) and whether its cancel
function has been called, and the number of worker goroutines started and not known to
have finished. -/
structure copyEngineState where
  running : Bool
  tradeChan : List Trade
  tradeChanClosed : Bool
  ctx : ℕ
  cancelled : Bool
  workers : ℕ
  deriving DecidableEq, Repr

/-- The result of a call on the engine: it returns an error value, or it panics. -/
inductive CallResult where
  | returned (err : Option String) (state : copyEngineState)
  | panicked (message : String) (state : copyEngineState)
  deriving DecidableEq, Repr

/-- The state a call leaves behind. -/
def CallResult.state : CallResult → copyEngineState
  | .returned _ st => st
  | .panicked _ st => st

/-- The control fields as NewCopyEngine leaves them (copy_engine.go 54-69): not running,
`tradeChan` made with capacity 1000, no context yet. -/
def NewCopyEngine.state : copyEngineState :=
  { running := false
    tradeChan := []
    tradeChanClosed := false
    ctx := 0
    cancelled := false
    workers := 0 }

/-- The capacity of `tradeChan`. -/
def tradeChanCapacity : ℕ := 1000

/-- copyEngine.Start (copy_engine.go 71-93). -/
def copyEngine.Start (st : copyEngineState) : CallResult :=
  if st.running then
    .returned (some "copy engine is already running") st
  else
    .returned none
      { st with
        ctx := st.ctx + 1
        cancelled := false
        workers := st.workers + 1 + 1
        running := true }

/-- copyEngine.Stop (copy_engine.go 95-122). `workersFinish` says whether `wg.Wait` returns
before the 30-second timer fires. -/
def copyEngine.Stop (workersFinish : Bool) (st : copyEngineState) : CallResult :=
  if !st.running then
    .returned none st
  else
    let st := { st with cancelled := true }
    if st.tradeChanClosed then
      .panicked "close of closed channel" st
    else
      let st := { st with tradeChanClosed := true }
      let st := if workersFinish then { st with workers := 0 } else st
      .returned none { st with running := false }

/-- Which case of the `select` of ProcessTraderTrade fires. -/
inductive SelectCase where
  | send
  | ctxDone (err : String)
  | timeout
  deriving DecidableEq, Repr

/-- copyEngine.ProcessTraderTrade (copy_engine.go 124-137). The send case on a closed
channel panics; on an open channel it needs room in the buffer, and with a full buffer
and no receiver the timer fires instead. -/
def copyEngine.ProcessTraderTrade (fired : SelectCase) (trade : Trade)
    (st : copyEngineState) : CallResult :=
  if !st.running then
    .returned (some "copy engine is not running") st
  else
    match fired with
    | .send =>
      if st.tradeChanClosed then
        .panicked "send on closed channel" st
      else if st.tradeChan.length < tradeChanCapacity then
        .returned none { st with tradeChan := st.tradeChan ++ [trade] }
      else
        .returned (some "trade channel timeout") st
    | .ctxDone err => .returned (some err) st
    | .timeout => .returned (some "trade channel timeout") st

/-- A call on the public interface of the copy engine. -/
inductive EngineCall where
  | Start
  | Stop (workersFinish : Bool)
  | ProcessTraderTrade (fired : SelectCase) (trade : Trade)
  deriving DecidableEq, Repr

/-- Make one call. -/
def copyEngine.call (st : copyEngineState) : EngineCall → CallResult
  | .Start => copyEngine.Start st
  | .Stop workersFinish => copyEngine.Stop workersFinish st
  | .ProcessTraderTrade fired trade => copyEngine.ProcessTraderTrade fired trade st

/-- Make a sequence of calls, one after the other; a panic ends the run. The result is
that of the last call made. -/
def copyEngine.calls : copyEngineState → List EngineCall → CallResult
  | st, [] => .returned none st
  | st, c :: rest =>
    match copyEngine.call st c, rest with
    | .panicked msg st2, _ => .panicked msg st2
    | .returned err st2, [] => .returned err st2
    | .returned _ st2, _ :: _ => copyEngine.calls st2 rest

/-! ## engine/engine.go: Stop -/

/-- StrategyStatus of engine.go. -/
inductive StrategyStatus where
  | StatusActive
  | StatusPaused
  | StatusError
  | StatusTerminated
  deriving DecidableEq, Repr

/-- The fields of the `Engine` struct that Stop touches: the two channels, the strategies
with their status, the active flags, and the worker goroutines not known to have
finished. -/
structure EngineState where
  stopChanClosed : Bool
  commandChanClosed : Bool
  strategies : List (String × StrategyStatus)
  activeStrategies : List (String × Bool)
  workers : ℕ
  deriving DecidableEq, Repr

/-- The result of Engine.Stop: it returns an error value, or it panics. -/
inductive EngineStopResult where
  | returned (err : Option String) (state : EngineState)
  | panicked (message : String) (state : EngineState)
  deriving DecidableEq, Repr

/-- Engine.stopStrategy (engine.go 201-206), for an id that ranges over the keys of
`strategies`. -/
def Engine.stopStrategy (st : EngineState) (strategyID : String) : EngineState :=
  { st with
    activeStrategies :=
      (strategyID, false) :: st.activeStrategies.filter (fun kv => kv.1 ≠ strategyID)
    strategies := st.strategies.map (fun kv =>
      if kv.1 = strategyID then (kv.1, StrategyStatus.StatusTerminated) else kv) }

/-- Engine.Stop (engine.go 128-156). `ctxErr` is the value of `ctx.Err()` when the timer
fires (nil while the context is neither cancelled nor past its deadline); `workersFinish`
says whether `wg.Wait` returns before the 30-second timer fires. -/
def Engine.Stop (ctxErr : Option String) (workersFinish : Bool) (st : EngineState) :
    EngineStopResult :=
  if st.stopChanClosed then
    .panicked "close of closed channel" st
  else
    let st := { st with stopChanClosed := true }
    if st.commandChanClosed then
      .panicked "close of closed channel" st
    else
      let st := { st with commandChanClosed := true }
      let st := (st.strategies.map Prod.fst).foldl Engine.stopStrategy st
      if workersFinish then
        .returned none { st with workers := 0 }
      else
        .returned ctxErr st

/-! ## config/config.go -/

/-- A Go `float64` as `strconv.ParseFloat` hands it to the configuration: a finite
number, an infinity, or NaN (the strings `NaN`, `Inf`, `+Inf` and `-Inf` parse without
error). -/
inductive Float64 where
  | finite (value : ℚ)
  | posInf
  | negInf
  | nan
  deriving DecidableEq, Repr

/-- Go `a <= b` on `float64`: false as soon as one side is NaN. -/
def Float64.le : Float64 → Float64 → Bool
  | .nan, _ => false
  | _, .nan => false
  | .negInf, _ => true
  | _, .posInf => true
  | .finite a, .finite b => decide (a ≤ b)
  | .posInf, .finite _ => false
  | .posInf, .negInf => false
  | .finite _, .negInf => false

/-- Go `a > b` on `float64`: false as soon as one side is NaN. -/
def Float64.gt : Float64 → Float64 → Bool
  | .nan, _ => false
  | _, .nan => false
  | .posInf, .posInf => false
  | .posInf, _ => true
  | _, .posInf => false
  | .negInf, _ => false
  | .finite _, .negInf => true
  | .finite a, .finite b => decide (a > b)

/-- EngineConfig (config.go 20-26). -/
structure EngineConfig where
  MaxConcurrency : ℤ
  ExecutionInterval : ℤ
  AlignmentThreshold : Float64
  RetryAttempts : ℤ
  RetryBackoffBase : ℤ
  deriving DecidableEq, Repr

/-- HyperliquidConfig (config.go 28-33). -/
structure HyperliquidConfig where
  BaseURL : String
  APIKey : String
  SecretKey : String
  TestNet : Bool
  deriving DecidableEq, Repr

/-- RiskConfig (config.go 35-41). -/
structure RiskConfig where
  MaxLeverage : Float64
  MaxPositionSize : Float64
  MaxSlippage : Float64
  MinOrderSize : Float64
  MaxDailyLoss : Float64
  deriving DecidableEq, Repr

/-- Config (config.go 9-14); the server part is a port string. -/
structure Config where
  Port : String
  Engine : EngineConfig
  Hyperliquid : HyperliquidConfig
  Risk : RiskConfig
  deriving DecidableEq, Repr

/-- Config.validate (config.go 78-92). -/
def Config.validate (c : Config) : Option String :=
  if c.Hyperliquid.APIKey = "" then
    some "HYPERLIQUID_API_KEY is required"
  else if c.Hyperliquid.SecretKey = "" then
    some "HYPERLIQUID_SECRET_KEY is required"
  else if c.Engine.MaxConcurrency ≤ 0 then
    some "MAX_CONCURRENCY must be positive"
  else if Float64.le c.Risk.MaxLeverage (.finite 0) ||
      Float64.gt c.Risk.MaxLeverage (.finite 100) then
    some "MAX_LEVERAGE must be between 0 and 100"
  else
    none

/-- getEnvFloatOrDefault (config.go 110-117); `getenv` stands for `os.Getenv` and
`parseFloat` for `strconv.ParseFloat` with bit size 64 (none when it returns an error). -/
def getEnvFloatOrDefault (getenv : String → String) (parseFloat : String → Option Float64)
    (key : String) (defaultValue : Float64) : Float64 :=
  if getenv key ≠ "" then
    match parseFloat (getenv key) with
    | some floatValue => floatValue
    | none => defaultValue
  else
    defaultValue

/-! ## Words of the specification, for comparison with the code -/

/-- The value of a position: `size × current_price`, nothing when there is no current
price. -/
def Position.value (position : Position) : ℚ :=
  match position.CurrentPrice with
  | some price => position.Size * price
  | none => 0

/-- The total value of a list of positions: `Σ size × current_price`. -/
def totalValueOf (positions : List Position) : ℚ :=
  (positions.map Position.value).sum

/-- The total value of the positions on one symbol. -/
def symbolTotal (positions : List Position) (symbol : String) : ℚ :=
  totalValueOf (positions.filter (fun position => position.TokenSymbol = symbol))

/-- The mean of a list of numbers. -/
def meanOf (xs : List ℚ) : ℚ :=
  xs.sum / (xs.length : ℚ)

/-- The population variance of a list of numbers: the mean of the squared deviations. -/
def populationVariance (xs : List ℚ) : ℚ :=
  (xs.map (fun x => (x - meanOf xs) ^ 2)).sum / (xs.length : ℚ)

/-- The running sum `P_j = p_0 + … + p_j` of a list of realized PnLs. -/
def runningSum (pnls : List ℚ) (j : ℕ) : ℚ :=
  (pnls.take (j + 1)).sum

/-- The peak `max(0, max_{i ≤ j} P_i)` of the running sums up to index `j`. -/
def peakUpTo (pnls : List ℚ) (j : ℕ) : ℚ :=
  ((List.range (j + 1)).map (runningSum pnls)).foldl max 0

/-- The drawdown at index `j`: `max(0, max_{i ≤ j} P_i) − P_j`. -/
def drawdownAt (pnls : List ℚ) (j : ℕ) : ℚ :=
  peakUpTo pnls j - runningSum pnls j

/-- The range `0 < max_leverage ≤ 100` of the specification: a number in the range, so
neither an infinity nor NaN. -/
def Float64.inLeverageRange : Float64 → Prop
  | .finite value => 0 < value ∧ value ≤ 100
  | _ => False

/-- The per-trade return `realized_pnl / size`. -/
def Trade.perTradeReturn (trade : Trade) : ℚ :=
  trade.RealizedPnL / trade.Size

/-! ## Concrete inputs used in the examples -/

/-- An environment in which no store call fails. -/
def calmEnv : Env :=
  { ioFails := fun _ => false
    uuid := fun n => "uuid-" ++ toString n }

/-- An environment in which only the first store call fails. -/
def firstCallFailsEnv : Env :=
  { ioFails := fun n => n == 0
    uuid := fun n => "uuid-" ++ toString n }

/-- An environment in which only the store call number `k` fails. -/
def failAtEnv (k : ℕ) : Env :=
  { ioFails := fun n => n == k
    uuid := fun n => "uuid-" ++ toString n }

/-- Both stores empty. -/
def emptyWorld : World :=
  { copy_relationships := []
    copy_executions := []
    trades := []
    risk_metrics := []
    cache_risk_metrics := []
    cache_copy_signals := []
    locks := []
    calls := []
    uuids := 0
    positions := []
    performance_metrics := []
    cache_performance_metrics := [] }

/-- The relationship of scenario S1: 25 percent, no bounds. -/
def relS1 : CopyRelationship :=
  { ID := "R1"
    FollowerID := "F1"
    TraderID := "L1"
    AllocationPercent := 25
    MaxAllocation := 0
    MinAllocation := 0
    IsActive := true
    AutoRebalance := false
    StopLossPercent := none }

/-- The relationship of scenario S2: as S1 with `max_allocation = 10`. -/
def relS2 : CopyRelationship := { relS1 with MaxAllocation := 10 }

/-- The leader trade of scenarios S1 and S2. -/
def tradeS1 : Trade :=
  { ID := "T1"
    UserID := none
    TraderID := some "L1"
    PositionID := none
    TokenSymbol := "ETH"
    Side := .TradeBuy
    Size := 100
    Price := 2000
    Fee := 4 / 10
    RealizedPnL := 0
    TransactionHash := none
    BlockNumber := none
    IsCopyTrade := false
    CopyRelationshipID := none }

/-- The signal the pipeline builds for a relationship and the leader trade of S1. -/
def signalFor (relationship : CopyRelationship) : CopySignal :=
  { ID := "S1"
    Relationship := relationship
    OriginalTrade := tradeS1
    SignalType := .SignalOpenPosition
    Parameters := [] }

/-- The relationship of scenario S3: `min_allocation = 1.0`. -/
def relS3 : CopyRelationship := { relS1 with MinAllocation := 1 }

/-- The leader trade of scenario S3: `size = 0.5`. -/
def tradeS3 : Trade := { tradeS1 with Size := 1 / 2 }

/-- The leader trade of scenario S4: no trader id. -/
def tradeS4 : Trade := { tradeS1 with ID := "T4", TraderID := none }

/-- A world in which another pipeline holds the lock `rel:R1:trade:T1`. -/
def lockHeldWorld : World := { emptyWorld with locks := ["lock:rel:R1:trade:T1"] }

/-- A world whose persistent store holds the relationship of S1. -/
def worldS1 : World := { emptyWorld with copy_relationships := [relS1] }

/-- A pending execution for the relationship of S1. -/
def executionS1 : CopyExecution :=
  { ID := "E1"
    SignalID := "S1"
    Relationship := relS1
    Trade := none
    Status := .StatusPending
    ErrorMessage := none
    Parameters := [] }

/-- A leader trade of size 1 with the given realized PnL. -/
def tradeWithPnL (pnl : ℚ) : Trade := { tradeS1 with Size := 1, RealizedPnL := pnl }

/-- The trade list of scenario S6: realized PnLs `[+10, -4, -3, +8, -6]`, size 1 each. -/
def tradesS6 : List Trade := [10, -4, -3, 8, -6].map tradeWithPnL

/-- The `float64` nearest to 0.1: `0x1.999999999999ap-4`. -/
def float64Tenth : ℚ := 3602879701896397 / 36028797018963968

/-- Three trades of size 1 whose realized PnL is the `float64` 0.1 each: three equal
returns. -/
def tradesTenth : List Trade := [float64Tenth, float64Tenth, float64Tenth].map tradeWithPnL

/-- A square root function that is right on `2 ^ -112`. -/
def sqrtOnExample (x : ℚ) : ℚ := if x = 1 / 2 ^ 112 then 1 / 2 ^ 56 else 0

/-- A second relationship on the leader of S1, for another follower. -/
def relS1b : CopyRelationship := { relS1 with ID := "R2", FollowerID := "F2" }

/-- A world whose persistent store holds two relationships on the leader of S1. -/
def worldTwoRelationships : World := { emptyWorld with copy_relationships := [relS1, relS1b] }

/-- The relationship of the fixed-sizer example: no maximum, `min_allocation = 30`. -/
def relMinThirty : CopyRelationship := { relS1 with MinAllocation := 30 }

/-- A relationship with both bounds set: allocation 25 percent, `min_allocation = 30`,
`max_allocation = 200`. -/
def relBounded : CopyRelationship := { relS1 with MinAllocation := 30, MaxAllocation := 200 }

/-- A copy position of follower F1 with the given symbol, size and current price. -/
def positionOf (symbol : String) (size : ℚ) (price : Option ℚ) : Position :=
  { ID := "P-" ++ symbol
    UserID := some "F1"
    TraderID := some "L1"
    TokenSymbol := symbol
    TokenAddress := ""
    Side := .PositionLong
    Size := size
    EntryPrice := 1
    CurrentPrice := price
    UnrealizedPnL := 0
    Leverage := 1
    FundingRate := none
    LiquidationPrice := none
    IsCopyTrade := true
    CopyRelationshipID := some "R1" }

/-- A world whose persistent store holds two positions of follower F1. -/
def worldTwoPositions : World :=
  { emptyWorld with positions := [positionOf "ETH" 2 (some 10), positionOf "BTC" 1 (some 20)] }

/-- Risk metrics of relationship R1 in the persistent store and, with other values, in
the cache. -/
def riskMetricsStored : RiskMetrics :=
  { RelationshipID := "R1", CurrentExposure := 1, MaxExposure := 2, VaR := 0,
    LeverageRatio := 0, ConcentrationRisk := 0, LiquidityRisk := 0 }

/-- Performance metrics of relationship R1 in the persistent store. -/
def performanceMetricsStored : PerformanceMetrics :=
  { RelationshipID := "R1", TotalPnL := 5, WinRate := 1, TotalTrades := 1, WinningTrades := 1,
    LosingTrades := 0, AvgWinSize := 5, AvgLossSize := 0, MaxDrawdown := 0, SharpeRatio := 0 }

/-- A world whose persistent store holds metrics for R1 and whose cache is empty. -/
def worldMetricsStored : World :=
  { emptyWorld with
    risk_metrics := [riskMetricsStored]
    performance_metrics := [performanceMetricsStored] }

/-- The control fields of a copy engine after NewCopyEngine and one Start. -/
def startedState : copyEngineState := (copyEngine.Start NewCopyEngine.state).state

/-- A configuration that passes validation. -/
def configValid : Config :=
  { Port := "8080"
    Engine :=
      { MaxConcurrency := 100, ExecutionInterval := 1, AlignmentThreshold := .finite (2 / 100),
        RetryAttempts := 3, RetryBackoffBase := 1 }
    Hyperliquid :=
      { BaseURL := "https://api.hyperliquid.xyz/info", APIKey := "key", SecretKey := "secret",
        TestNet := false }
    Risk :=
      { MaxLeverage := .finite 5, MaxPositionSize := .finite 100000,
        MaxSlippage := .finite 10, MinOrderSize := .finite 5,
        MaxDailyLoss := .finite 1000 } }

/-- The configuration loaded with `MAX_LEVERAGE=NaN` in the environment, the other
settings as in `configValid`. -/
def configNaNLeverage : Config :=
  { configValid with Risk := { configValid.Risk with MaxLeverage := .nan } }

/-- The state of an engine of engine.go that has been started and holds one active
strategy. -/
def engineStarted : EngineState :=
  { stopChanClosed := false
    commandChanClosed := false
    strategies := [("S1", .StatusActive)]
    activeStrategies := [("S1", true)]
    workers := 2 }

/-! ## Frame properties of the store operations -/

/-- A run from `w` to `w2` that leaves the set of held locks as it was and whose new store
calls include no lock acquisition. -/
def LockFree (w w2 : World) : Prop :=
  w2.locks = w.locks ∧
    ∃ cs : List Call, w2.calls = w.calls ++ cs ∧ ∀ c ∈ cs, c.isSetLock = false

/-- A run from `w` to `w2` that leaves every table of the persistent store as it was. -/
def PersistentUnchanged (w w2 : World) : Prop :=
  w2.copy_relationships = w.copy_relationships ∧ w2.copy_executions = w.copy_executions ∧
    w2.trades = w.trades ∧ w2.risk_metrics = w.risk_metrics

/-- Whether a call reads or caches risk metrics. -/
def Call.isRiskMetricsCall : Call → Bool
  | .PgGetRiskMetrics _ => true
  | .RedisGetRiskMetrics _ => true
  | .RedisSetRiskMetrics _ _ => true
  | _ => false

/-- A run from `w` to `w2` that only adds store calls, each of which satisfies `P`. -/
def CallsExtend (P : Call → Prop) (w w2 : World) : Prop :=
  ∃ cs : List Call, w2.calls = w.calls ++ cs ∧ ∀ c ∈ cs, P c

/-- What the data model asks of an execution handed over for creation: a terminal status,
a trade when completed, an error message when failed. -/
def CopyExecution.WellFormedForCreate (execution : CopyExecution) : Prop :=
  (execution.Status = .StatusCompleted ∨ execution.Status = .StatusFailed) ∧
  (execution.Status = .StatusCompleted → execution.Trade ≠ none) ∧
  (execution.Status = .StatusFailed → execution.ErrorMessage ≠ none)

/-! # Theorems -/

/-! ## Helper lemmas: clamping -/

theorem clampStep_bounds (x lo hi : ℚ) (h : hi > 0 → lo ≤ hi) :
    lo ≤ (if hi > 0 ∧ (if x < lo then lo else x) > hi then hi else (if x < lo then lo else x)) ∧
    (hi > 0 → (if hi > 0 ∧ (if x < lo then lo else x) > hi then hi
      else (if x < lo then lo else x)) ≤ hi) := by
  have hlo : lo ≤ (if x < lo then lo else x) := by
    split_ifs with h1
    · exact le_refl _
    · exact not_lt.mp h1
  generalize (if x < lo then lo else x) = y at hlo ⊢
  by_cases h1 : hi > 0 ∧ y > hi
  · rw [if_pos h1]
    exact ⟨h h1.1, fun _ => le_refl _⟩
  · rw [if_neg h1]
    exact ⟨hlo, fun hpos => not_lt.mp (fun hgt => h1 ⟨hpos, hgt⟩)⟩

/-! ## Helper lemmas: runs that take no lock -/

theorem lockFree_refl (w : World) : LockFree w w :=
  ⟨rfl, [], (List.append_nil _).symm, fun _ h => absurd h (List.not_mem_nil _)⟩

theorem lockFree_trans {a b c : World} (h1 : LockFree a b) (h2 : LockFree b c) :
    LockFree a c := by
  obtain ⟨hl1, cs1, hc1, hp1⟩ := h1
  obtain ⟨hl2, cs2, hc2, hp2⟩ := h2
  refine ⟨hl2.trans hl1, cs1 ++ cs2, ?_, ?_⟩
  · rw [hc2, hc1, List.append_assoc]
  · intro c hc
    rcases List.mem_append.mp hc with h | h
    · exact hp1 c h
    · exact hp2 c h

theorem lockFree_step (w : World) (c : Call) (hc : c.isSetLock = false) (w2 : World)
    (hl : w2.locks = w.locks) (hcalls : w2.calls = w.calls ++ [c]) : LockFree w w2 :=
  ⟨hl, [c], hcalls, fun x hx => by rw [List.mem_singleton.mp hx]; exact hc⟩

theorem newUUID_lockFree (env : Env) (w : World) : LockFree w (newUUID env w).2 :=
  ⟨rfl, [], (List.append_nil _).symm, fun _ h => absurd h (List.not_mem_nil _)⟩

theorem redisGetRiskMetrics_lockFree (env : Env) (w : World) (id : String) :
    LockFree w (redisClient.GetRiskMetrics env w id).2 := by
  apply lockFree_step w (.RedisGetRiskMetrics id) rfl <;>
    (unfold redisClient.GetRiskMetrics roundTrip; dsimp only; split_ifs <;> (try split) <;> rfl)

theorem pgGetRiskMetrics_lockFree (env : Env) (w : World) (id : String) :
    LockFree w (postgresql.GetRiskMetrics env w id).2 := by
  apply lockFree_step w (.PgGetRiskMetrics id) rfl <;>
    (unfold postgresql.GetRiskMetrics roundTrip; dsimp only; split_ifs <;> (try split) <;> rfl)

theorem redisSetRiskMetrics_lockFree (env : Env) (w : World) (id : String)
    (m : RiskMetrics) : LockFree w (redisClient.SetRiskMetrics env w id m).2 := by
  apply lockFree_step w (.RedisSetRiskMetrics id m) rfl <;>
    (unfold redisClient.SetRiskMetrics roundTrip; dsimp only; split_ifs <;> rfl)

theorem setCopySignal_lockFree (env : Env) (w : World) (signal : CopySignal) :
    LockFree w (redisClient.SetCopySignal env w signal).2 := by
  apply lockFree_step w (.SetCopySignal signal) rfl <;>
    (unfold redisClient.SetCopySignal roundTrip; dsimp only; split_ifs <;> rfl)

theorem updateCopyExecution_lockFree (env : Env) (w : World) (execution : CopyExecution) :
    LockFree w (postgresql.UpdateCopyExecution env w execution).2 := by
  apply lockFree_step w (.UpdateCopyExecution execution) rfl <;>
    (unfold postgresql.UpdateCopyExecution roundTrip; dsimp only; split_ifs <;> rfl)

theorem createTrade_lockFree (env : Env) (w : World) (trade : Trade) :
    LockFree w (postgresql.CreateTrade env w trade).2 := by
  apply lockFree_step w (.CreateTrade trade) rfl <;>
    (unfold postgresql.CreateTrade roundTrip; dsimp only; split_ifs <;> rfl)

theorem createCopyExecution_lockFree (env : Env) (w : World) (execution : CopyExecution) :
    LockFree w (postgresql.CreateCopyExecution env w execution).world := by
  apply lockFree_step w (.CreateCopyExecution execution) rfl <;>
    (unfold postgresql.CreateCopyExecution roundTrip; dsimp only; split <;>
      (try split_ifs) <;> rfl)

theorem engineGetRiskMetrics_lockFree (env : Env) (w : World) (id : String) :
    LockFree w (copyEngine.GetRiskMetrics env w id).2 := by
  unfold copyEngine.GetRiskMetrics
  have h1 := redisGetRiskMetrics_lockFree env w id
  split
  · rename_i heq; rw [heq] at h1; exact h1
  · rename_i w1 heq; rw [heq] at h1
    have h2 := pgGetRiskMetrics_lockFree env w1 id
    split
    · rename_i heq2; rw [heq2] at h2; exact lockFree_trans h1 h2
    · rename_i heq2; rw [heq2] at h2
      exact lockFree_trans (lockFree_trans h1 h2) (redisSetRiskMetrics_lockFree env _ id _)

theorem shouldExecuteCopy_lockFree (env : Env) (w : World)
    (relationship : CopyRelationship) (trade : Trade) :
    LockFree w (copyEngine.shouldExecuteCopy env w relationship trade).2 := by
  unfold copyEngine.shouldExecuteCopy
  split_ifs
  · exact lockFree_refl w
  · exact lockFree_refl w
  · exact lockFree_refl w
  · have h1 := engineGetRiskMetrics_lockFree env w relationship.ID
    split
    · rename_i heq; rw [heq] at h1; exact h1
    · rename_i heq; rw [heq] at h1
      split_ifs <;> exact h1

theorem executeCopyTrade_lockFree (env : Env) (w : World)
    (execution : CopyExecution) (originalTrade : Trade) (copySize : ℚ) :
    LockFree w (copyEngine.executeCopyTrade env w execution originalTrade copySize).2.2 := by
  unfold copyEngine.executeCopyTrade
  dsimp only
  have h1 := updateCopyExecution_lockFree env w { execution with Status := .StatusExecuting }
  have h2 := newUUID_lockFree env (postgresql.UpdateCopyExecution env w
    { execution with Status := .StatusExecuting }).2
  have h3 := createTrade_lockFree env (newUUID env (postgresql.UpdateCopyExecution env w
    { execution with Status := .StatusExecuting }).2).2
    (copyEngine.executeCopyTrade.copyTrade (newUUID env (postgresql.UpdateCopyExecution env w
    { execution with Status := .StatusExecuting }).2).1
      { execution with Status := .StatusExecuting } originalTrade copySize)
  split
  · rename_i heq; rw [heq] at h3; exact lockFree_trans (lockFree_trans h1 h2) h3
  · rename_i heq; rw [heq] at h3; exact lockFree_trans (lockFree_trans h1 h2) h3

theorem outcome_world_discard (o : Outcome (Option String)) :
    (match o with
      | .panicked msg w => Outcome.panicked msg w
      | .returned _ w => Outcome.returned (none : Option String) w).world = o.world := by
  cases o <;> rfl

/-! ## Helper lemmas: runs that leave the persistent store alone -/

theorem persistentUnchanged_refl (w : World) : PersistentUnchanged w w :=
  ⟨rfl, rfl, rfl, rfl⟩

theorem persistentUnchanged_trans {a b c : World} (h1 : PersistentUnchanged a b)
    (h2 : PersistentUnchanged b c) : PersistentUnchanged a c :=
  ⟨h2.1.trans h1.1, h2.2.1.trans h1.2.1, h2.2.2.1.trans h1.2.2.1, h2.2.2.2.trans h1.2.2.2⟩

theorem redisGetRiskMetrics_persistentUnchanged (env : Env) (w : World) (id : String) :
    PersistentUnchanged w (redisClient.GetRiskMetrics env w id).2 := by
  unfold redisClient.GetRiskMetrics roundTrip
  dsimp only
  split_ifs <;> (try split) <;> exact ⟨rfl, rfl, rfl, rfl⟩

theorem pgGetRiskMetrics_persistentUnchanged (env : Env) (w : World) (id : String) :
    PersistentUnchanged w (postgresql.GetRiskMetrics env w id).2 := by
  unfold postgresql.GetRiskMetrics roundTrip
  dsimp only
  split_ifs <;> (try split) <;> exact ⟨rfl, rfl, rfl, rfl⟩

theorem redisSetRiskMetrics_persistentUnchanged (env : Env) (w : World) (id : String)
    (m : RiskMetrics) : PersistentUnchanged w (redisClient.SetRiskMetrics env w id m).2 := by
  unfold redisClient.SetRiskMetrics roundTrip
  dsimp only
  split_ifs <;> exact ⟨rfl, rfl, rfl, rfl⟩

theorem engineGetRiskMetrics_persistentUnchanged (env : Env) (w : World) (id : String) :
    PersistentUnchanged w (copyEngine.GetRiskMetrics env w id).2 := by
  unfold copyEngine.GetRiskMetrics
  have h1 := redisGetRiskMetrics_persistentUnchanged env w id
  split
  · rename_i heq; rw [heq] at h1; exact h1
  · rename_i w1 heq; rw [heq] at h1
    have h2 := pgGetRiskMetrics_persistentUnchanged env w1 id
    split
    · rename_i heq2; rw [heq2] at h2; exact persistentUnchanged_trans h1 h2
    · rename_i heq2; rw [heq2] at h2
      exact persistentUnchanged_trans (persistentUnchanged_trans h1 h2)
        (redisSetRiskMetrics_persistentUnchanged env _ id _)

theorem shouldExecuteCopy_persistentUnchanged (env : Env) (w : World)
    (relationship : CopyRelationship) (trade : Trade) :
    PersistentUnchanged w (copyEngine.shouldExecuteCopy env w relationship trade).2 := by
  unfold copyEngine.shouldExecuteCopy
  split_ifs
  · exact persistentUnchanged_refl w
  · exact persistentUnchanged_refl w
  · exact persistentUnchanged_refl w
  · have h1 := engineGetRiskMetrics_persistentUnchanged env w relationship.ID
    split
    · rename_i heq; rw [heq] at h1; exact h1
    · rename_i heq; rw [heq] at h1
      split_ifs <;> exact h1

/-! ## Helper lemmas: the execution step -/

theorem newCopyEngine_strategy_proportional :
    NewCopyEngine.strategy StrategyProportional = some NewProportionalStrategy := by
  rfl

theorem setCopySignal_frame (env : Env) (w : World) (signal : CopySignal) :
    (redisClient.SetCopySignal env w signal).2.calls = w.calls ++ [Call.SetCopySignal signal] ∧
    (redisClient.SetCopySignal env w signal).2.copy_executions = w.copy_executions ∧
    (redisClient.SetCopySignal env w signal).2.trades = w.trades := by
  unfold redisClient.SetCopySignal roundTrip
  dsimp only
  split_ifs <;> exact ⟨rfl, rfl, rfl⟩

theorem newUUID_frame (env : Env) (w : World) (id : String) (w2 : World)
    (h : newUUID env w = (id, w2)) :
    w2.calls = w.calls ∧ w2.copy_executions = w.copy_executions ∧ w2.trades = w.trades := by
  have h2 := congrArg Prod.snd h
  simp only [newUUID] at h2
  rw [← h2]
  exact ⟨rfl, rfl, rfl⟩

theorem executeCopyTrade_createTrade_fails (env : Env) (w : World)
    (execution : CopyExecution) (originalTrade : Trade) (copySize : ℚ)
    (hfail : env.ioFails (w.calls.length + 1) = true) :
    ∃ msg w2, copyEngine.executeCopyTrade env w execution originalTrade copySize =
        (some msg, { execution with Status := .StatusExecuting }, w2) ∧
      w2.copy_executions.length = w.copy_executions.length ∧ w2.trades = w.trades := by
  unfold copyEngine.executeCopyTrade postgresql.UpdateCopyExecution postgresql.CreateTrade
    roundTrip newUUID
  dsimp only
  by_cases h0 : env.ioFails w.calls.length = true
  · simp [h0, hfail]
    exact ⟨_, _, ⟨rfl, rfl⟩, rfl, rfl⟩
  · simp [h0, hfail]
    exact ⟨_, _, ⟨rfl, rfl⟩, by simp, rfl⟩

/-! ## The claims -/

/-- C1: for every leader trade and relationship the proportional sizer returns, without
error, `T.size × allocation_percent / 100` clamped below by `min_allocation` and, when
`max_allocation > 0`, above by `max_allocation`. -/
theorem proportional_size_eq_clamp (signal : CopySignal) (T : Trade) :
    ProportionalStrategy.CalculatePositionSize signal T =
      .ok (if signal.Relationship.MaxAllocation > 0 then
            min (max (T.Size * signal.Relationship.AllocationPercent / 100)
              signal.Relationship.MinAllocation) signal.Relationship.MaxAllocation
          else
            max (T.Size * signal.Relationship.AllocationPercent / 100)
              signal.Relationship.MinAllocation) := by
  unfold ProportionalStrategy.CalculatePositionSize
  simp only [mul_div_assoc]
  congr 1
  by_cases hmax : signal.Relationship.MaxAllocation > 0
  · by_cases hlo : T.Size * (signal.Relationship.AllocationPercent / 100) <
        signal.Relationship.MinAllocation
    · rw [if_pos hlo, if_pos hmax, max_eq_right hlo.le]
      by_cases hhi : signal.Relationship.MinAllocation > signal.Relationship.MaxAllocation
      · rw [if_pos ⟨hmax, hhi⟩, min_eq_right hhi.le]
      · rw [if_neg (fun h => hhi h.2), min_eq_left (not_lt.mp hhi)]
    · rw [if_neg hlo, if_pos hmax, max_eq_left (not_lt.mp hlo)]
      by_cases hhi : T.Size * (signal.Relationship.AllocationPercent / 100) >
          signal.Relationship.MaxAllocation
      · rw [if_pos ⟨hmax, hhi⟩, min_eq_right hhi.le]
      · rw [if_neg (fun h => hhi h.2), min_eq_left (not_lt.mp hhi)]
  · by_cases hlo : T.Size * (signal.Relationship.AllocationPercent / 100) <
        signal.Relationship.MinAllocation
    · rw [if_pos hlo, if_neg (fun h => hmax h.1), if_neg hmax, max_eq_right hlo.le]
    · rw [if_neg hlo, if_neg (fun h => hmax h.1), if_neg hmax, max_eq_left (not_lt.mp hlo)]

/-- The six built-in sizers return, without error, a size `s ≥ min_allocation` and,
whenever `max_allocation > 0`, `s ≤ max_allocation`, for relationships with
`min_allocation ≤ max_allocation` when `max_allocation > 0`. -/
theorem builtinSizers_bounds_positive_max
    (entry : StrategyType × (CopySignal → Trade → Except String ℚ))
    (hentry : entry ∈ builtinSizers) (signal : CopySignal) (originalTrade : Trade)
    (hinv : signal.Relationship.MaxAllocation > 0 →
      signal.Relationship.MinAllocation ≤ signal.Relationship.MaxAllocation) :
    ∃ s, entry.2 signal originalTrade = .ok s ∧
      signal.Relationship.MinAllocation ≤ s ∧
      (signal.Relationship.MaxAllocation > 0 → s ≤ signal.Relationship.MaxAllocation) := by
  simp only [builtinSizers, List.mem_cons, List.mem_singleton, List.not_mem_nil,
    or_false] at hentry
  rcases hentry with h | h | h | h | h | h <;> subst h
  · exact ⟨_, rfl, clampStep_bounds _ _ _ hinv⟩
  · refine ⟨_, rfl, ?_, ?_⟩
    · generalize (if signal.Relationship.MaxAllocation = 0 then
        originalTrade.Size * (signal.Relationship.AllocationPercent / 100)
        else signal.Relationship.MaxAllocation) = y
      by_cases h1 : y < signal.Relationship.MinAllocation
      · rw [if_pos h1]
      · rw [if_neg h1]; exact not_lt.mp h1
    · intro hpos
      rw [if_neg (ne_of_gt hpos), if_neg (not_lt.mpr (hinv hpos))]
  · exact ⟨_, rfl, clampStep_bounds _ _ _ hinv⟩
  · exact ⟨_, rfl, clampStep_bounds _ _ _ hinv⟩
  · exact ⟨_, rfl, clampStep_bounds _ _ _ hinv⟩
  · exact ⟨_, rfl, clampStep_bounds _ _ _ hinv⟩

/-- C2: for every built-in sizer (proportional, fixed, adaptive, risk-based, martingale,
anti-martingale), every leader trade and every relationship of the data model
(`max_allocation` a size bound, so `max_allocation ≥ 0` with 0 meaning unbounded, and
`min_allocation ≤ max_allocation` when `max_allocation > 0`), CalculatePositionSize
returns, without error, a size `s` with `s ≥ min_allocation` and, whenever
`max_allocation` is nonzero, `s ≤ max_allocation`. -/
theorem builtinSizers_within_bounds
    (entry : StrategyType × (CopySignal → Trade → Except String ℚ))
    (hentry : entry ∈ builtinSizers) (signal : CopySignal) (originalTrade : Trade)
    (hbound : 0 ≤ signal.Relationship.MaxAllocation)
    (hinv : signal.Relationship.MaxAllocation > 0 →
      signal.Relationship.MinAllocation ≤ signal.Relationship.MaxAllocation) :
    ∃ s, entry.2 signal originalTrade = .ok s ∧
      signal.Relationship.MinAllocation ≤ s ∧
      (signal.Relationship.MaxAllocation ≠ 0 → s ≤ signal.Relationship.MaxAllocation) := by
  obtain ⟨s, hs, hmin, hmax⟩ :=
    builtinSizers_bounds_positive_max entry hentry signal originalTrade hinv
  exact ⟨s, hs, hmin, fun hne => hmax (lt_of_le_of_ne hbound (Ne.symm hne))⟩

set_option maxRecDepth 100000 in
/-- Witness for C2: the fixed sizer on the relationship of S2 (`min = 0`, `max = 10`) and
the leader trade of S1 (size 100): the size returned is 10. -/
theorem builtinSizers_within_bounds_witness :
    (("fixed", FixedStrategy.CalculatePositionSize) ∈ builtinSizers) ∧
    0 ≤ (signalFor relS2).Relationship.MaxAllocation ∧
    ((signalFor relS2).Relationship.MaxAllocation > 0 →
      (signalFor relS2).Relationship.MinAllocation ≤
        (signalFor relS2).Relationship.MaxAllocation) ∧
    (signalFor relS2).Relationship.MaxAllocation ≠ 0 ∧
    FixedStrategy.CalculatePositionSize (signalFor relS2) tradeS1 = .ok 10 ∧
    ∃ s, FixedStrategy.CalculatePositionSize (signalFor relS2) tradeS1 = .ok s ∧
      (signalFor relS2).Relationship.MinAllocation ≤ s ∧
      ((signalFor relS2).Relationship.MaxAllocation ≠ 0 →
        s ≤ (signalFor relS2).Relationship.MaxAllocation) :=
  ⟨List.mem_cons_of_mem _ (List.mem_cons_self _ _), by decide, by decide, by decide,
    by with_unfolding_all decide,
    builtinSizers_within_bounds ("fixed", FixedStrategy.CalculatePositionSize)
      (List.mem_cons_of_mem _ (List.mem_cons_self _ _)) (signalFor relS2) tradeS1
      (by decide) (by decide)⟩

/-- C3: for a leader trade `T` with `T.size > 0` and a copy size `c`, executeCopyTrade
hands to CreateTrade a derived trade with `size = c` and `fee = T.fee × c / T.size`; when
the write succeeds that trade is attached to the execution and stored. -/
theorem executeCopyTrade_size_and_fee (env : Env) (w : World) (execution : CopyExecution)
    (T : Trade) (c : ℚ) (_hT : T.Size > 0) :
    ∃ t : Trade,
      (copyEngine.executeCopyTrade env w execution T c).2.2.calls =
        w.calls ++ [Call.UpdateCopyExecution { execution with Status := .StatusExecuting },
          Call.CreateTrade t] ∧
      t.Size = c ∧ t.Fee = T.Fee * c / T.Size ∧
      ((copyEngine.executeCopyTrade env w execution T c).1 = none →
        (copyEngine.executeCopyTrade env w execution T c).2.1.Trade = some t ∧
        t ∈ (copyEngine.executeCopyTrade env w execution T c).2.2.trades) := by
  refine ⟨copyEngine.executeCopyTrade.copyTrade (env.uuid w.uuids)
    { execution with Status := .StatusExecuting } T c, ?_, rfl, ?_, ?_⟩
  · unfold copyEngine.executeCopyTrade postgresql.UpdateCopyExecution postgresql.CreateTrade
      roundTrip newUUID
    dsimp only
    split_ifs <;> simp
  · simp only [copyEngine.executeCopyTrade.copyTrade, mul_div_assoc]
  · unfold copyEngine.executeCopyTrade postgresql.UpdateCopyExecution postgresql.CreateTrade
      roundTrip newUUID
    dsimp only
    split_ifs <;> simp

set_option maxRecDepth 100000 in
/-- Witness for C3: the leader trade of S1 (size 100, fee 0.40) copied at size 25. -/
theorem executeCopyTrade_size_and_fee_witness :
    tradeS1.Size > 0 ∧
    ∃ t : Trade,
      (copyEngine.executeCopyTrade calmEnv emptyWorld executionS1 tradeS1 25).2.2.calls =
        emptyWorld.calls ++
          [Call.UpdateCopyExecution { executionS1 with Status := .StatusExecuting },
            Call.CreateTrade t] ∧
      t.Size = 25 ∧ t.Fee = tradeS1.Fee * 25 / tradeS1.Size ∧
      ((copyEngine.executeCopyTrade calmEnv emptyWorld executionS1 tradeS1 25).1 = none →
        (copyEngine.executeCopyTrade calmEnv emptyWorld executionS1 tradeS1 25).2.1.Trade
          = some t ∧
        t ∈ (copyEngine.executeCopyTrade calmEnv emptyWorld executionS1 tradeS1 25).2.2.trades) :=
  ⟨by decide,
    executeCopyTrade_size_and_fee calmEnv emptyWorld executionS1 tradeS1 25 (by decide)⟩

set_option maxRecDepth 100000 in
/-- C4, as stated, fails: on the relationship of S2 and the leader trade of S1, with both
stores empty and no failing call, processRelationship returns without persisting any
derived trade or execution. -/
theorem scenarioS2_persists_nothing :
    copyEngine.processRelationship NewCopyEngine calmEnv emptyWorld relS2 tradeS1 =
      .returned none emptyWorld ∧
    (copyEngine.processRelationship NewCopyEngine calmEnv emptyWorld relS2
      tradeS1).world.trades = [] ∧
    (copyEngine.processRelationship NewCopyEngine calmEnv emptyWorld relS2
      tradeS1).world.copy_executions = [] := by
  decide

/-- C4, amended: on the relationship of S2 (`max_allocation = 10`) and the leader trade
of S1 (`size = 100`), processRelationship returns without error and without any store
call, because admission denies a trade larger than `max_allocation`; the proportional
sizer applied to that pair returns 10, and the derived trade built at size 10 has fee
0.04. -/
theorem scenarioS2_denied_sizer_ten (ce : copyEngine) (env : Env) (w : World) (id : String)
    (execution : CopyExecution) :
    copyEngine.processRelationship ce env w relS2 tradeS1 = .returned none w ∧
    ProportionalStrategy.CalculatePositionSize
      { ID := id, Relationship := relS2, OriginalTrade := tradeS1,
        SignalType := copyEngine.determineSignalType tradeS1, Parameters := [] } tradeS1
      = .ok 10 ∧
    (copyEngine.executeCopyTrade.copyTrade id execution tradeS1 10).Size = 10 ∧
    (copyEngine.executeCopyTrade.copyTrade id execution tradeS1 10).Fee = 4 / 100 := by
  refine ⟨?_, ?_, rfl, ?_⟩
  · have hs : copyEngine.shouldExecuteCopy env w relS2 tradeS1 = (.ok false, w) := by
      unfold copyEngine.shouldExecuteCopy
      norm_num [relS2, relS1, tradeS1]
    unfold copyEngine.processRelationship
    rw [hs]
  · norm_num [ProportionalStrategy.CalculatePositionSize, relS2, relS1, tradeS1]
  · norm_num [copyEngine.executeCopyTrade.copyTrade, tradeS1]

/-- C5: shouldExecuteCopy never returns an error, and returns true exactly when the
relationship is active, `trade.size ≥ min_allocation`, `trade.size ≤ max_allocation` if
`max_allocation > 0`, and, if GetRiskMetrics yields metrics, `current_exposure ≤
max_exposure` (no exposure condition when it yields an error). -/
theorem shouldExecuteCopy_iff (env : Env) (w : World) (relationship : CopyRelationship)
    (trade : Trade) :
    ∃ b : Bool, (copyEngine.shouldExecuteCopy env w relationship trade).1 = .ok b ∧
      (b = true ↔
        relationship.IsActive = true ∧
        trade.Size ≥ relationship.MinAllocation ∧
        (relationship.MaxAllocation > 0 → trade.Size ≤ relationship.MaxAllocation) ∧
        (∀ m, (copyEngine.GetRiskMetrics env w relationship.ID).1 = .ok m →
          m.CurrentExposure ≤ m.MaxExposure)) := by
  unfold copyEngine.shouldExecuteCopy
  by_cases hA : relationship.IsActive = true
  · by_cases hmin : trade.Size < relationship.MinAllocation
    · refine ⟨false, by simp [hA, hmin], ?_⟩
      simp [hmin]
    · by_cases hmax : relationship.MaxAllocation > 0 ∧ trade.Size > relationship.MaxAllocation
      · refine ⟨false, by simp [hA, hmin, hmax], ?_⟩
        simp [hmax.1, hmax.2]
      · have hmax2 : relationship.MaxAllocation > 0 →
            trade.Size ≤ relationship.MaxAllocation :=
          fun hp => not_lt.mp (fun hgt => hmax ⟨hp, hgt⟩)
        rcases hg : copyEngine.GetRiskMetrics env w relationship.ID with ⟨res, w1⟩
        cases res with
        | error e =>
          refine ⟨true, by simp [hA, hmin, hmax, hg], ?_⟩
          exact ⟨fun _ => ⟨hA, not_lt.mp hmin, hmax2, fun m hm => by simp at hm⟩,
            fun _ => rfl⟩
        | ok m =>
          by_cases hexp : m.CurrentExposure > m.MaxExposure
          · refine ⟨false, by simp [hA, hmin, hmax, hg, hexp], ?_⟩
            simp [hexp]
          · refine ⟨true, by simp [hA, hmin, hmax, hg, hexp], ?_⟩
            refine ⟨fun _ => ⟨hA, not_lt.mp hmin, hmax2, fun m2 hm => ?_⟩, fun _ => rfl⟩
            simp only [Except.ok.injEq] at hm
            subst hm
            exact not_lt.mp hexp
  · refine ⟨false, by simp [hA], ?_⟩
    simp [hA]

/-- C6: when `trade.size < min_allocation`, processRelationship returns no error and
leaves both stores exactly as they were: no store call is made, so no execution row is
created or updated and no derived trade is created. -/
theorem processRelationship_below_min_skips (ce : copyEngine) (env : Env) (w : World)
    (relationship : CopyRelationship) (trade : Trade)
    (h : trade.Size < relationship.MinAllocation) :
    copyEngine.processRelationship ce env w relationship trade = .returned none w := by
  have hs : copyEngine.shouldExecuteCopy env w relationship trade = (.ok false, w) := by
    unfold copyEngine.shouldExecuteCopy
    by_cases hA : relationship.IsActive = true <;> simp [hA, h]
  unfold copyEngine.processRelationship
  rw [hs]

set_option maxRecDepth 100000 in
/-- Witness for C6: scenario S3, `size = 0.5` against `min_allocation = 1.0`. -/
theorem processRelationship_below_min_skips_witness :
    tradeS3.Size < relS3.MinAllocation ∧
    copyEngine.processRelationship NewCopyEngine calmEnv emptyWorld relS3 tradeS3 =
      .returned none emptyWorld :=
  ⟨by with_unfolding_all decide,
    processRelationship_below_min_skips NewCopyEngine calmEnv emptyWorld relS3 tradeS3
      (by with_unfolding_all decide)⟩

/-! ## Helper lemmas: a run whose writes succeed -/

theorem outcome_discard_returned (o : Outcome (Option String)) (e : Option String)
    (w : World) (h : o = .returned e w) :
    (match o with
      | .panicked msg w => Outcome.panicked msg w
      | .returned _ w => Outcome.returned (none : Option String) w) = .returned none w := by
  subst h
  rfl

theorem executeCopyTrade_createTrade_succeeds (env : Env) (w : World)
    (execution : CopyExecution) (originalTrade : Trade) (copySize : ℚ)
    (hok : env.ioFails (w.calls.length + 1) = false) :
    ∃ w2, copyEngine.executeCopyTrade env w execution originalTrade copySize =
        (none,
          { execution with
            Status := .StatusExecuting
            Trade := some (copyEngine.executeCopyTrade.copyTrade (env.uuid w.uuids)
              { execution with Status := .StatusExecuting } originalTrade copySize) },
          w2) ∧
      w2.copy_executions.length = w.copy_executions.length ∧
      w2.trades = w.trades ++ [copyEngine.executeCopyTrade.copyTrade (env.uuid w.uuids)
        { execution with Status := .StatusExecuting } originalTrade copySize] ∧
      w2.calls.length = w.calls.length + 2 := by
  unfold copyEngine.executeCopyTrade postgresql.UpdateCopyExecution postgresql.CreateTrade
    roundTrip newUUID
  dsimp only
  by_cases h0 : env.ioFails w.calls.length = true
  · simp [h0, hok]
  · simp [h0, hok]

theorem createCopyExecution_succeeds (env : Env) (w : World) (execution : CopyExecution)
    (trade : Trade) (htrade : execution.Trade = some trade)
    (hok : env.ioFails w.calls.length = false) :
    ∃ w2, postgresql.CreateCopyExecution env w execution = .returned none w2 ∧
      w2.copy_executions.length = w.copy_executions.length + 1 ∧
      w2.trades = w.trades := by
  unfold postgresql.CreateCopyExecution roundTrip
  dsimp only
  rw [htrade]
  simp [hok]

/-- On an admitted pair whose trade write and execution write succeed, the pipeline with
the engine's registry returns having added one execution and one derived trade. -/
theorem processRelationship_admitted_persists (env : Env) (w w1 : World)
    (relationship : CopyRelationship) (trade : Trade)
    (hadm : copyEngine.shouldExecuteCopy env w relationship trade = (.ok true, w1))
    (htrade : env.ioFails (w1.calls.length + 2) = false)
    (hexec : env.ioFails (w1.calls.length + 3) = false) :
    ∃ w2, copyEngine.processRelationship NewCopyEngine env w relationship trade =
        .returned none w2 ∧
      w2.copy_executions.length = w.copy_executions.length + 1 ∧
      w2.trades.length = w.trades.length + 1 := by
  have hfr := shouldExecuteCopy_persistentUnchanged env w relationship trade
  rw [hadm] at hfr
  unfold copyEngine.processRelationship
  split
  · rename_i heq; rw [hadm] at heq; cases heq
  · rename_i heq; rw [hadm] at heq; cases heq
  · rename_i w1b heq
    rw [hadm] at heq
    cases heq
    split
    rename_i signalID w2 hu1
    conv => zeta
    have hw2 := newUUID_frame env w1 signalID w2 hu1
    split
    · rename_i hst; rw [newCopyEngine_strategy_proportional] at hst; cases hst
    · rename_i strategy hst
      rw [newCopyEngine_strategy_proportional] at hst
      cases hst
      split
      · rename_i hse; simp [NewProportionalStrategy, ProportionalStrategy.ShouldExecute] at hse
      · rename_i hse; simp [NewProportionalStrategy, ProportionalStrategy.ShouldExecute] at hse
      · split
        · rename_i hsz
          simp [NewProportionalStrategy, ProportionalStrategy.CalculatePositionSize] at hsz
        · rename_i positionSize hsz
          split
          rename_i executionID w3 hu2
          have hw3 := newUUID_frame env w2 executionID w3 hu2
          conv => zeta
          split
          rename_i serr w4 hs
          have hw4 := setCopySignal_frame env w3
            { ID := signalID, Relationship := relationship, OriginalTrade := trade,
              SignalType := copyEngine.determineSignalType trade, Parameters := [] }
          rw [hs] at hw4
          have hlen : w4.calls.length = w1.calls.length + 1 := by
            rw [hw4.1, hw3.1, hw2.1]
            simp
          obtain ⟨w5, he, hw5e, hw5t, hw5c⟩ := executeCopyTrade_createTrade_succeeds env w4
            { ID := executionID, SignalID := signalID, Relationship := relationship,
              Trade := none, Status := .StatusPending, ErrorMessage := none,
              Parameters := [("calculated_size", positionSize), ("original_size", trade.Size),
                ("allocation_pct", relationship.AllocationPercent)] } trade positionSize
            (by rw [hlen]; exact htrade)
          split
          rename_i err execution2 w5b hex
          have hex2 := he.symm.trans hex
          simp only [Prod.mk.injEq] at hex2
          obtain ⟨rfl, rfl, rfl⟩ := hex2
          obtain ⟨w6, h6, hw6e, hw6t⟩ := createCopyExecution_succeeds env w5
            { ID := executionID, SignalID := signalID, Relationship := relationship,
              Trade := some (copyEngine.executeCopyTrade.copyTrade (env.uuid w4.uuids)
                { ID := executionID, SignalID := signalID, Relationship := relationship,
                  Trade := none, Status := .StatusExecuting, ErrorMessage := none,
                  Parameters := [("calculated_size", positionSize),
                    ("original_size", trade.Size),
                    ("allocation_pct", relationship.AllocationPercent)] }
                trade positionSize),
              Status := .StatusCompleted, ErrorMessage := none,
              Parameters := [("calculated_size", positionSize), ("original_size", trade.Size),
                ("allocation_pct", relationship.AllocationPercent)] } _ rfl
            (by rw [hw5c, hlen]; exact hexec)
          refine ⟨w6, outcome_discard_returned _ _ _ h6, ?_, ?_⟩
          · rw [hw6e, hw5e, hw4.2.1, hw3.2.1, hw2.2.1, hfr.2.1]
          · rw [hw6t, hw5t, List.length_append, hw4.2.2, hw3.2.2, hw2.2.2, hfr.2.2.1]
            rfl

/-- A run of processRelationship takes no lock: whatever the registry, the relationship,
the trade and the outcome of the store calls, the set of held locks is left as it was and
none of the store calls made is a SetLock. -/
theorem processRelationship_lockFree (ce : copyEngine) (env : Env) (w : World)
    (relationship : CopyRelationship) (trade : Trade) :
    LockFree w (copyEngine.processRelationship ce env w relationship trade).world := by
  unfold copyEngine.processRelationship
  have h1 := shouldExecuteCopy_lockFree env w relationship trade
  split
  · rename_i heq; rw [heq] at h1; exact h1
  · rename_i heq; rw [heq] at h1; exact h1
  · rename_i w1 heq; rw [heq] at h1
    have h2 := newUUID_lockFree env w1
    split
    rename_i signalID w2 hu1
    rw [hu1] at h2
    have h12 := lockFree_trans h1 h2
    conv => zeta
    split
    · exact h12
    · split
      · exact h12
      · exact h12
      · split
        · exact h12
        · rename_i positionSize hsz
          have h3 := newUUID_lockFree env w2
          split
          rename_i executionID w3 hu2
          rw [hu2] at h3
          conv => zeta
          have h4 := setCopySignal_lockFree env w3
            { ID := signalID, Relationship := relationship, OriginalTrade := trade,
              SignalType := copyEngine.determineSignalType trade, Parameters := [] }
          split
          rename_i serr w4 hs
          rw [hs] at h4
          have h5 := executeCopyTrade_lockFree env w4
            { ID := executionID, SignalID := signalID, Relationship := relationship,
              Trade := none, Status := .StatusPending, ErrorMessage := none,
              Parameters := [("calculated_size", positionSize), ("original_size", trade.Size),
                ("allocation_pct", relationship.AllocationPercent)] } trade positionSize
          split
          rename_i err execution2 w5 he
          rw [he] at h5
          conv => zeta
          refine lockFree_trans (lockFree_trans (lockFree_trans (lockFree_trans h12 h3) h4) h5) ?_
          rw [outcome_world_discard]
          exact createCopyExecution_lockFree env w5 _

set_option maxRecDepth 100000 in
/-- C7, as stated, fails: while another pipeline holds the lock `rel:R1:trade:T1`,
processRelationship on (R1, T1) does not skip but persists an execution and a derived
trade; and two runs on the same pair, one after the other, persist two executions and
two derived trades. -/
theorem processRelationship_ignores_held_lock :
    lockHeldWorld.locks = ["lock:rel:R1:trade:T1"] ∧
    (copyEngine.processRelationship NewCopyEngine calmEnv lockHeldWorld relS1
      tradeS1).isReturned = true ∧
    (copyEngine.processRelationship NewCopyEngine calmEnv lockHeldWorld relS1
      tradeS1).world.copy_executions.length = 1 ∧
    (copyEngine.processRelationship NewCopyEngine calmEnv lockHeldWorld relS1
      tradeS1).world.trades.length = 1 ∧
    (copyEngine.processRelationship NewCopyEngine calmEnv
      (copyEngine.processRelationship NewCopyEngine calmEnv emptyWorld relS1 tradeS1).world
      relS1 tradeS1).world.copy_executions.length = 2 ∧
    (copyEngine.processRelationship NewCopyEngine calmEnv
      (copyEngine.processRelationship NewCopyEngine calmEnv emptyWorld relS1 tradeS1).world
      relS1 tradeS1).world.trades.length = 2 := by
  decide

/-- C7, amended: processRelationship takes no lock: whatever the registry, none of its
store calls is a SetLock and the set of held locks is left as it was. Whatever locks are
held when it starts, on an admitted pair whose trade write and execution write succeed
the pipeline with the engine's registry does not skip: it returns without error with the
locks as they were, one more execution and one more derived trade persisted. -/
theorem processRelationship_takes_no_lock (env : Env) (w : World)
    (relationship : CopyRelationship) (trade : Trade) :
    (∀ ce : copyEngine,
      LockFree w (copyEngine.processRelationship ce env w relationship trade).world) ∧
    (∀ w1 : World,
      copyEngine.shouldExecuteCopy env w relationship trade = (.ok true, w1) →
      env.ioFails (w1.calls.length + 2) = false →
      env.ioFails (w1.calls.length + 3) = false →
      ∃ w2, copyEngine.processRelationship NewCopyEngine env w relationship trade =
          .returned none w2 ∧
        w2.locks = w.locks ∧
        w2.copy_executions.length = w.copy_executions.length + 1 ∧
        w2.trades.length = w.trades.length + 1) := by
  refine ⟨fun ce => processRelationship_lockFree ce env w relationship trade, ?_⟩
  intro w1 hadm htrade hexec
  obtain ⟨w2, hrun, hexecs, htrades⟩ :=
    processRelationship_admitted_persists env w w1 relationship trade hadm htrade hexec
  have hlock := (processRelationship_lockFree NewCopyEngine env w relationship trade).1
  rw [hrun] at hlock
  exact ⟨w2, hrun, hlock, hexecs, htrades⟩

set_option maxRecDepth 100000 in
/-- Witness for C7 (amended): scenario S1 run while the lock `lock:rel:R1:trade:T1` is
held and no store call fails. -/
theorem processRelationship_takes_no_lock_witness :
    lockHeldWorld.locks = ["lock:rel:R1:trade:T1"] ∧
    copyEngine.shouldExecuteCopy calmEnv lockHeldWorld relS1 tradeS1 =
      (.ok true, { lockHeldWorld with
        calls := [Call.RedisGetRiskMetrics "R1", Call.PgGetRiskMetrics "R1"] }) ∧
    ∃ w2, copyEngine.processRelationship NewCopyEngine calmEnv lockHeldWorld relS1 tradeS1 =
        .returned none w2 ∧
      w2.locks = lockHeldWorld.locks ∧
      w2.copy_executions.length = lockHeldWorld.copy_executions.length + 1 ∧
      w2.trades.length = lockHeldWorld.trades.length + 1 :=
  ⟨by decide, by decide,
    (processRelationship_takes_no_lock calmEnv lockHeldWorld relS1 tradeS1).2
      { lockHeldWorld with
        calls := [Call.RedisGetRiskMetrics "R1", Call.PgGetRiskMetrics "R1"] }
      (by decide) (by decide) (by decide)⟩

/-- C8: on an admitted pair (admission leaves the world `w1`), when the CreateTrade call
(the third store call after admission) fails, processRelationship with the engine's
registry does not finish normally: CreateCopyExecution reads `execution.Trade.ID` through
the nil `Trade` pointer and panics. No execution row has been added and no trade
stored. -/
theorem processRelationship_panics_when_createTrade_fails (env : Env) (w w1 : World)
    (relationship : CopyRelationship) (trade : Trade)
    (hadm : copyEngine.shouldExecuteCopy env w relationship trade = (.ok true, w1))
    (hfail : env.ioFails (w1.calls.length + 2) = true) :
    ∃ w2, copyEngine.processRelationship NewCopyEngine env w relationship trade =
        .panicked "runtime error: invalid memory address or nil pointer dereference" w2 ∧
      w2.copy_executions.length = w.copy_executions.length ∧ w2.trades = w.trades := by
  have hfr := shouldExecuteCopy_persistentUnchanged env w relationship trade
  rw [hadm] at hfr
  unfold copyEngine.processRelationship
  split
  · rename_i heq; rw [hadm] at heq; cases heq
  · rename_i heq; rw [hadm] at heq; cases heq
  · rename_i w1b heq
    rw [hadm] at heq
    cases heq
    split
    rename_i signalID w2 hu1
    conv => zeta
    have hw2 := newUUID_frame env w1 signalID w2 hu1
    split
    · rename_i hst; rw [newCopyEngine_strategy_proportional] at hst; cases hst
    · rename_i strategy hst
      rw [newCopyEngine_strategy_proportional] at hst
      cases hst
      split
      · rename_i hse; simp [NewProportionalStrategy, ProportionalStrategy.ShouldExecute] at hse
      · rename_i hse; simp [NewProportionalStrategy, ProportionalStrategy.ShouldExecute] at hse
      · split
        · rename_i hsz
          simp [NewProportionalStrategy, ProportionalStrategy.CalculatePositionSize] at hsz
        · rename_i positionSize hsz
          split
          rename_i executionID w3 hu2
          have hw3 := newUUID_frame env w2 executionID w3 hu2
          conv => zeta
          split
          rename_i serr w4 hs
          have hw4 := setCopySignal_frame env w3
            { ID := signalID, Relationship := relationship, OriginalTrade := trade,
              SignalType := copyEngine.determineSignalType trade, Parameters := [] }
          rw [hs] at hw4
          have hlen : w4.calls.length + 1 = w1.calls.length + 2 := by
            rw [hw4.1, hw3.1, hw2.1]
            simp
          obtain ⟨msg, w5, he, hw5e, hw5t⟩ := executeCopyTrade_createTrade_fails env w4
            { ID := executionID, SignalID := signalID, Relationship := relationship,
              Trade := none, Status := .StatusPending, ErrorMessage := none,
              Parameters := [("calculated_size", positionSize), ("original_size", trade.Size),
                ("allocation_pct", relationship.AllocationPercent)] } trade positionSize
            (by rw [hlen]; exact hfail)
          split
          rename_i err execution2 w5b hex
          have hex2 := he.symm.trans hex
          simp only [Prod.mk.injEq] at hex2
          obtain ⟨rfl, rfl, rfl⟩ := hex2
          refine ⟨_, rfl, ?_, ?_⟩
          · show w5.copy_executions.length = _
            rw [hw5e, hw4.2.1, hw3.2.1, hw2.2.1, hfr.2.1]
          · show w5.trades = _
            rw [hw5t, hw4.2.2, hw3.2.2, hw2.2.2, hfr.2.2.1]

set_option maxRecDepth 100000 in
/-- Witness for C8: scenario S1 with both stores empty, where the fifth store call (the
CreateTrade) fails. -/
theorem processRelationship_panics_when_createTrade_fails_witness :
    copyEngine.shouldExecuteCopy (failAtEnv 4) emptyWorld relS1 tradeS1 =
      (.ok true, { emptyWorld with
        calls := [Call.RedisGetRiskMetrics "R1", Call.PgGetRiskMetrics "R1"] }) ∧
    (failAtEnv 4).ioFails (({ emptyWorld with
        calls := [Call.RedisGetRiskMetrics "R1", Call.PgGetRiskMetrics "R1"] } :
          World).calls.length + 2) = true ∧
    ∃ w2, copyEngine.processRelationship NewCopyEngine (failAtEnv 4) emptyWorld relS1 tradeS1 =
        .panicked "runtime error: invalid memory address or nil pointer dereference" w2 ∧
      w2.copy_executions.length = emptyWorld.copy_executions.length ∧
      w2.trades = emptyWorld.trades :=
  ⟨by decide, by decide,
    processRelationship_panics_when_createTrade_fails (failAtEnv 4) emptyWorld
      { emptyWorld with calls := [Call.RedisGetRiskMetrics "R1", Call.PgGetRiskMetrics "R1"] }
      relS1 tradeS1 (by decide) (by decide)⟩

/-- C9: for a leader trade without trader id, processTrade returns the invalid-input
error `trade has no trader ID` and leaves both stores untouched (no call is made); the
trade processor loop then takes the next trade of the ingress channel and runs
processTrade on it, from the untouched stores, and goes on with the trades after it. -/
theorem processTrade_without_trader (ce : copyEngine) (env : Env) (w : World) (trade : Trade)
    (next : Trade) (rest : List Trade) (h : trade.TraderID = none) :
    copyEngine.processTrade ce env w trade = .returned (some "trade has no trader ID") w ∧
    copyEngine.tradeProcessor ce env w [trade] =
      .returned [some "trade has no trader ID"] w ∧
    copyEngine.tradeProcessor ce env w (trade :: next :: rest) =
      (match copyEngine.processTrade ce env w next with
       | .panicked msg w2 => .panicked msg w2
       | .returned err w2 =>
         match copyEngine.tradeProcessor ce env w2 rest with
         | .panicked msg w3 => .panicked msg w3
         | .returned errs w3 =>
           .returned (some "trade has no trader ID" :: err :: errs) w3) := by
  have hp : copyEngine.processTrade ce env w trade =
      .returned (some "trade has no trader ID") w := by
    unfold copyEngine.processTrade
    rw [h]
  refine ⟨hp, ?_, ?_⟩
  · rw [copyEngine.tradeProcessor, hp]
    rfl
  · rw [copyEngine.tradeProcessor, hp]
    simp only []
    rw [copyEngine.tradeProcessor]
    cases copyEngine.processTrade ce env w next with
    | panicked msg w2 => rfl
    | returned err w2 =>
      simp only []
      cases copyEngine.tradeProcessor ce env w2 rest with
      | panicked msg w3 => rfl
      | returned errs w3 => rfl

set_option maxRecDepth 100000 in
/-- Witness for C9: scenario S4 followed by the leader trade of S1 on the channel, the
persistent store holding relationship R1: the first trade is rejected, the second is
processed and leaves one execution and one derived trade. -/
theorem processTrade_without_trader_witness :
    tradeS4.TraderID = none ∧
    (copyEngine.tradeProcessor NewCopyEngine calmEnv worldS1 [tradeS4, tradeS1]).value? =
      some [some "trade has no trader ID", none] ∧
    (copyEngine.tradeProcessor NewCopyEngine calmEnv worldS1
      [tradeS4, tradeS1]).world.copy_executions.length = 1 ∧
    (copyEngine.tradeProcessor NewCopyEngine calmEnv worldS1
      [tradeS4, tradeS1]).world.trades.map (fun t => (t.Size, t.IsCopyTrade)) =
      [(25, true)] ∧
    copyEngine.tradeProcessor NewCopyEngine calmEnv worldS1 (tradeS4 :: tradeS1 :: []) =
      (match copyEngine.processTrade NewCopyEngine calmEnv worldS1 tradeS1 with
       | .panicked msg w2 => .panicked msg w2
       | .returned err w2 =>
         match copyEngine.tradeProcessor NewCopyEngine calmEnv w2 [] with
         | .panicked msg w3 => .panicked msg w3
         | .returned errs w3 =>
           .returned (some "trade has no trader ID" :: err :: errs) w3) :=
  ⟨by decide, by decide, by decide, by with_unfolding_all decide,
    (processTrade_without_trader NewCopyEngine calmEnv worldS1 tradeS4 tradeS1 []
      (by decide)).2.2⟩

set_option maxRecDepth 100000 in
/-- C10, as stated, fails: when the first fetch of the subscribers fails and a second
fetch would succeed, processTrade makes the one fetch only and fails the trade; nothing
is fanned out. -/
theorem processTrade_does_not_retry :
    copyEngine.processTrade NewCopyEngine firstCallFailsEnv worldS1 tradeS1 =
      .returned
        (some ("failed to get copy relationships: failed to query copy relationships: "
          ++ transientError))
        { worldS1 with calls := [Call.GetCopyRelationshipsByTrader "L1"] } ∧
    (postgresql.GetCopyRelationshipsByTrader firstCallFailsEnv
      { worldS1 with calls := [Call.GetCopyRelationshipsByTrader "L1"] } "L1").1
      = .ok [relS1] := by
  decide

/-- C10, amended: when the fetch of a leader's subscribers fails, processTrade makes that
one fetch and no other store call, and returns an error wrapping the failure; there is
no retry and the trade is not fanned out. -/
theorem processTrade_fetch_failure (ce : copyEngine) (env : Env) (w : World) (trade : Trade)
    (traderID : String) (hid : trade.TraderID = some traderID)
    (hfail : env.ioFails w.calls.length = true) :
    copyEngine.processTrade ce env w trade =
      .returned
        (some ("failed to get copy relationships: failed to query copy relationships: "
          ++ transientError))
        { w with calls := w.calls ++ [Call.GetCopyRelationshipsByTrader traderID] } := by
  unfold copyEngine.processTrade
  rw [hid]
  simp only [postgresql.GetCopyRelationshipsByTrader, roundTrip, hfail, if_true]
  rfl

set_option maxRecDepth 100000 in
/-- Witness for C10 (amended): the leader trade of S1 when the first store call fails. -/
theorem processTrade_fetch_failure_witness :
    tradeS1.TraderID = some "L1" ∧
    firstCallFailsEnv.ioFails worldS1.calls.length = true ∧
    copyEngine.processTrade NewCopyEngine firstCallFailsEnv worldS1 tradeS1 =
      .returned
        (some ("failed to get copy relationships: failed to query copy relationships: "
          ++ transientError))
        { worldS1 with calls := worldS1.calls ++ [Call.GetCopyRelationshipsByTrader "L1"] } :=
  ⟨by decide, by decide,
    processTrade_fetch_failure NewCopyEngine firstCallFailsEnv worldS1 tradeS1 "L1"
      (by decide) (by decide)⟩

/-! ## Helper lemmas: calls added by a run -/

theorem redisGetPerformanceMetrics_calls (env : Env) (w : World) (id : String) :
    (redisClient.GetPerformanceMetrics env w id).2.calls =
      w.calls ++ [Call.RedisGetPerformanceMetrics id] := by
  unfold redisClient.GetPerformanceMetrics roundTrip
  dsimp only
  split_ifs <;> (try split) <;> rfl

theorem redisGetRiskMetrics_calls (env : Env) (w : World) (id : String) :
    (redisClient.GetRiskMetrics env w id).2.calls =
      w.calls ++ [Call.RedisGetRiskMetrics id] := by
  unfold redisClient.GetRiskMetrics roundTrip
  dsimp only
  split_ifs <;> (try split) <;> rfl


theorem callsExtend_refl (P : Call → Prop) (w : World) : CallsExtend P w w :=
  ⟨[], (List.append_nil _).symm, fun _ h => absurd h (List.not_mem_nil _)⟩

theorem callsExtend_trans {P : Call → Prop} {a b c : World} (h1 : CallsExtend P a b)
    (h2 : CallsExtend P b c) : CallsExtend P a c := by
  obtain ⟨cs1, hc1, hp1⟩ := h1
  obtain ⟨cs2, hc2, hp2⟩ := h2
  refine ⟨cs1 ++ cs2, by rw [hc2, hc1, List.append_assoc], ?_⟩
  intro x hx
  rcases List.mem_append.mp hx with h | h
  · exact hp1 x h
  · exact hp2 x h

theorem callsExtend_mono {P Q : Call → Prop} (hPQ : ∀ c, P c → Q c) {a b : World}
    (h : CallsExtend P a b) : CallsExtend Q a b := by
  obtain ⟨cs, hc, hp⟩ := h
  exact ⟨cs, hc, fun x hx => hPQ x (hp x hx)⟩

theorem callsExtend_step (P : Call → Prop) (w : World) (c : Call) (hc : P c) (w2 : World)
    (hcalls : w2.calls = w.calls ++ [c]) : CallsExtend P w w2 :=
  ⟨[c], hcalls, fun x hx => by rw [List.mem_singleton.mp hx]; exact hc⟩

theorem callsExtend_of_calls_eq (P : Call → Prop) (w w2 : World) (h : w2.calls = w.calls) :
    CallsExtend P w w2 :=
  ⟨[], by rw [h, List.append_nil], fun _ hx => absurd hx (List.not_mem_nil _)⟩

theorem pgGetRiskMetrics_calls (env : Env) (w : World) (id : String) :
    (postgresql.GetRiskMetrics env w id).2.calls = w.calls ++ [Call.PgGetRiskMetrics id] := by
  unfold postgresql.GetRiskMetrics roundTrip
  dsimp only
  split_ifs <;> (try split) <;> rfl

theorem redisSetRiskMetrics_calls (env : Env) (w : World) (id : String) (m : RiskMetrics) :
    (redisClient.SetRiskMetrics env w id m).2.calls =
      w.calls ++ [Call.RedisSetRiskMetrics id m] := by
  unfold redisClient.SetRiskMetrics roundTrip
  dsimp only
  split_ifs <;> rfl

theorem createCopyExecution_calls (env : Env) (w : World) (execution : CopyExecution) :
    (postgresql.CreateCopyExecution env w execution).world.calls =
      w.calls ++ [Call.CreateCopyExecution execution] := by
  unfold postgresql.CreateCopyExecution roundTrip
  dsimp only
  split <;> (try split_ifs) <;> rfl

theorem engineGetRiskMetrics_callsExtend (env : Env) (w : World) (id : String) :
    CallsExtend (fun c => c.isRiskMetricsCall = true) w
      (copyEngine.GetRiskMetrics env w id).2 := by
  unfold copyEngine.GetRiskMetrics
  have h1 := callsExtend_step (fun c => c.isRiskMetricsCall = true) w
    (.RedisGetRiskMetrics id) rfl _ (redisGetRiskMetrics_calls env w id)
  split
  · rename_i heq; rw [heq] at h1; exact h1
  · rename_i w1 heq; rw [heq] at h1
    have h2 := callsExtend_step (fun c => c.isRiskMetricsCall = true) w1
      (.PgGetRiskMetrics id) rfl _ (pgGetRiskMetrics_calls env w1 id)
    split
    · rename_i heq2; rw [heq2] at h2; exact callsExtend_trans h1 h2
    · rename_i m w2 heq2; rw [heq2] at h2
      have h3 := callsExtend_step (fun c => c.isRiskMetricsCall = true) w2
        (.RedisSetRiskMetrics id m) rfl _ (redisSetRiskMetrics_calls env w2 id m)
      exact callsExtend_trans (callsExtend_trans h1 h2) h3

theorem shouldExecuteCopy_callsExtend (env : Env) (w : World)
    (relationship : CopyRelationship) (trade : Trade) :
    CallsExtend (fun c => c.isRiskMetricsCall = true) w
      (copyEngine.shouldExecuteCopy env w relationship trade).2 := by
  unfold copyEngine.shouldExecuteCopy
  split_ifs
  · exact callsExtend_refl _ w
  · exact callsExtend_refl _ w
  · exact callsExtend_refl _ w
  · have h1 := engineGetRiskMetrics_callsExtend env w relationship.ID
    split
    · rename_i heq; rw [heq] at h1; exact h1
    · rename_i heq; rw [heq] at h1
      split_ifs <;> exact h1

theorem executeCopyTrade_result (env : Env) (w : World) (execution : CopyExecution)
    (originalTrade : Trade) (copySize : ℚ) :
    ∃ w2 : World,
      w2.calls = w.calls ++
        [Call.UpdateCopyExecution { execution with Status := .StatusExecuting },
          Call.CreateTrade (copyEngine.executeCopyTrade.copyTrade (env.uuid w.uuids)
            { execution with Status := .StatusExecuting } originalTrade copySize)] ∧
      (copyEngine.executeCopyTrade env w execution originalTrade copySize =
          (none,
            { execution with
              Status := .StatusExecuting
              Trade := some (copyEngine.executeCopyTrade.copyTrade (env.uuid w.uuids)
                { execution with Status := .StatusExecuting } originalTrade copySize) },
            w2) ∨
        ∃ msg, copyEngine.executeCopyTrade env w execution originalTrade copySize =
          (some msg, { execution with Status := .StatusExecuting }, w2)) := by
  unfold copyEngine.executeCopyTrade postgresql.UpdateCopyExecution postgresql.CreateTrade
    roundTrip newUUID
  dsimp only
  by_cases h0 : env.ioFails w.calls.length = true <;>
    by_cases h1 : env.ioFails (w.calls.length + 1) = true <;>
    simp [h0, h1]

theorem riskMetricsCall_not_create (c : Call) (h : c.isRiskMetricsCall = true)
    (e : CopyExecution) : c ≠ Call.CreateCopyExecution e := by
  intro hc
  rw [hc] at h
  simp [Call.isRiskMetricsCall] at h


/-! ## Helper lemmas: metrics computations -/

theorem sharpeReturns_foldl (trades : List Trade) (acc : List ℚ) :
    trades.foldl
      (fun returns trade =>
        if trade.Size > 0 then returns ++ [(fun x : ℚ => x) (trade.RealizedPnL / trade.Size)]
        else returns)
      acc =
    acc ++ (trades.filter (fun trade => trade.Size > 0)).map Trade.perTradeReturn := by
  induction trades generalizing acc with
  | nil => simp
  | cons t ts ih =>
    rw [List.foldl_cons, ih]
    by_cases h : t.Size > 0
    · simp [h, Trade.perTradeReturn]
    · simp [h]

theorem sharpeReturns_eq (trades : List Trade) :
    copyEngine.calculateSharpeRatio.returns (fun x => x) trades =
      (trades.filter (fun trade => trade.Size > 0)).map Trade.perTradeReturn := by
  unfold copyEngine.calculateSharpeRatio.returns
  rw [sharpeReturns_foldl]
  simp

theorem foldl_add_eq_sum (xs : List ℚ) (init : ℚ) :
    xs.foldl (fun acc r => acc + r) init = init + xs.sum := by
  induction xs generalizing init with
  | nil => simp
  | cons x xs ih => rw [List.foldl_cons, ih, List.sum_cons, add_assoc]

theorem foldl_sq_dev_eq_sum (xs : List ℚ) (m init : ℚ) :
    xs.foldl (fun acc r => acc + (r - m) * (r - m)) init =
      init + (xs.map (fun x => (x - m) ^ 2)).sum := by
  induction xs generalizing init with
  | nil => simp
  | cons x xs ih =>
    rw [List.foldl_cons, ih, List.map_cons, List.sum_cons, add_assoc, sq]

theorem riskStep_eq (a b : ℚ) (p : Position) :
    copyEngine.calculateRiskMetrics.step (a, b) p = (a + p.value, b + p.value) := by
  unfold copyEngine.calculateRiskMetrics.step Position.value
  cases p.CurrentPrice <;> simp

theorem riskStep_foldl (positions : List Position) (a b : ℚ) :
    positions.foldl copyEngine.calculateRiskMetrics.step (a, b) =
      (a + totalValueOf positions, b + totalValueOf positions) := by
  induction positions generalizing a b with
  | nil => simp [totalValueOf]
  | cons p ps ih =>
    rw [List.foldl_cons, riskStep_eq, ih]
    simp [totalValueOf, add_assoc]

theorem varFold_eq (positions : List Position) (a : ℚ) :
    positions.foldl
      (fun totalValue position =>
        match position.CurrentPrice with
        | some price => totalValue + position.Size * price
        | none => totalValue) a = a + totalValueOf positions := by
  induction positions generalizing a with
  | nil => simp [totalValueOf]
  | cons p ps ih =>
    rw [List.foldl_cons, ih]
    cases hp : p.CurrentPrice with
    | none => simp [totalValueOf, Position.value, hp]
    | some price => simp [totalValueOf, Position.value, hp, add_assoc]

theorem calculateVaR_eq (positions : List Position) :
    copyEngine.calculateVaR positions = totalValueOf positions * (2 / 100) := by
  unfold copyEngine.calculateVaR
  by_cases h : positions.length = 0
  · rw [if_pos h]
    have : positions = [] := List.length_eq_zero.mp h
    subst this
    simp [totalValueOf]
  · rw [if_neg h]
    simp only [varFold_eq, zero_add]

theorem mapAdd_keys_mem (m : List (String × ℚ)) (k : String) (v : ℚ) (k2 : String) :
    k2 ∈ (mapAdd m k v).map Prod.fst ↔ k2 ∈ m.map Prod.fst ∨ k2 = k := by
  induction m with
  | nil => simp [mapAdd]
  | cons e rest ih =>
    obtain ⟨k1, x⟩ := e
    unfold mapAdd
    by_cases h : k1 = k
    · rw [if_pos h]
      simp only [List.map_cons, List.mem_cons]
      constructor
      · intro hk; exact Or.inl hk
      · rintro (hk | hk)
        · exact hk
        · exact Or.inl (hk.trans h.symm)
    · rw [if_neg h]
      simp only [List.map_cons, List.mem_cons, ih]
      tauto

theorem mapAdd_nodup (m : List (String × ℚ)) (k : String) (v : ℚ)
    (hm : (m.map Prod.fst).Nodup) : ((mapAdd m k v).map Prod.fst).Nodup := by
  induction m with
  | nil => simp [mapAdd]
  | cons e rest ih =>
    obtain ⟨k1, x⟩ := e
    rw [List.map_cons, List.nodup_cons] at hm
    unfold mapAdd
    by_cases h : k1 = k
    · rw [if_pos h, List.map_cons, List.nodup_cons]
      exact hm
    · rw [if_neg h, List.map_cons, List.nodup_cons]
      refine ⟨?_, ih hm.2⟩
      intro hmem
      rcases (mapAdd_keys_mem rest k v k1).mp hmem with h1 | h1
      · exact hm.1 h1
      · exact h h1

theorem mapGet_mapAdd (m : List (String × ℚ)) (k : String) (v : ℚ) (k2 : String) :
    mapGet (mapAdd m k v) k2 = mapGet m k2 + (if k2 = k then v else 0) := by
  induction m with
  | nil =>
    by_cases h : k2 = k
    · simp [mapAdd, mapGet, h]
    · have h2 : ¬ k = k2 := fun e => h e.symm
      simp [mapAdd, mapGet, h, h2]
  | cons e rest ih =>
    obtain ⟨k1, x⟩ := e
    unfold mapAdd
    by_cases h : k1 = k
    · rw [if_pos h]
      subst h
      by_cases h2 : k1 = k2
      · subst h2
        simp [mapGet]
      · have h3 : ¬ k2 = k1 := fun e => h2 e.symm
        simp [mapGet, h2, h3]
    · rw [if_neg h]
      by_cases h2 : k1 = k2
      · subst h2
        simp [mapGet, h]
      · simp only [mapGet, if_neg h2, ih]

theorem mapAdd_sum (m : List (String × ℚ)) (k : String) (v : ℚ) :
    ((mapAdd m k v).map Prod.snd).sum = (m.map Prod.snd).sum + v := by
  induction m with
  | nil => simp [mapAdd]
  | cons e rest ih =>
    obtain ⟨k1, x⟩ := e
    unfold mapAdd
    by_cases h : k1 = k
    · rw [if_pos h]
      simp only [List.map_cons, List.sum_cons]
      ring
    · rw [if_neg h]
      simp only [List.map_cons, List.sum_cons, ih]
      ring

theorem mapGet_of_not_mem (m : List (String × ℚ)) (k : String)
    (h : k ∉ m.map Prod.fst) : mapGet m k = 0 := by
  induction m with
  | nil => rfl
  | cons e rest ih =>
    obtain ⟨k1, x⟩ := e
    simp only [List.map_cons, List.mem_cons, not_or] at h
    have h1 : ¬ k1 = k := fun e => h.1 e.symm
    simp only [mapGet, if_neg h1]
    exact ih h.2

theorem mapGet_of_mem (m : List (String × ℚ)) (k : String) (x : ℚ)
    (hm : (m.map Prod.fst).Nodup) (h : (k, x) ∈ m) : mapGet m k = x := by
  induction m with
  | nil => cases h
  | cons e rest ih =>
    obtain ⟨k1, x1⟩ := e
    rw [List.map_cons, List.nodup_cons] at hm
    rcases List.mem_cons.mp h with h1 | h1
    · cases h1
      simp [mapGet]
    · have hk : k ∈ rest.map Prod.fst := List.mem_map.mpr ⟨(k, x), h1, rfl⟩
      have hne : ¬ k1 = k := fun e => hm.1 (e ▸ hk)
      simp only [mapGet, if_neg hne]
      exact ih hm.2 h1

theorem totalValueOf_cons (p : Position) (ps : List Position) :
    totalValueOf (p :: ps) = p.value + totalValueOf ps := by
  simp [totalValueOf]

theorem symbolTotal_cons (p : Position) (ps : List Position) (k : String) :
    symbolTotal (p :: ps) k = (if p.TokenSymbol = k then p.value else 0) + symbolTotal ps k := by
  unfold symbolTotal
  by_cases h : p.TokenSymbol = k
  · simp [List.filter_cons, h, totalValueOf_cons]
  · simp [List.filter_cons, h]

theorem concentrationStep_priced (a : ℚ) (m : List (String × ℚ)) (p : Position) (price : ℚ)
    (hp : p.CurrentPrice = some price) :
    copyEngine.calculateConcentrationRisk.step (a, m) p =
      (a + p.value, mapAdd m p.TokenSymbol p.value) := by
  simp [copyEngine.calculateConcentrationRisk.step, Position.value, hp]

theorem concentrationStep_unpriced (a : ℚ) (m : List (String × ℚ)) (p : Position)
    (hp : p.CurrentPrice = none) :
    copyEngine.calculateConcentrationRisk.step (a, m) p = (a, m) ∧ p.value = 0 := by
  simp [copyEngine.calculateConcentrationRisk.step, Position.value, hp]

theorem concentrationFold_total (ps : List Position) (a : ℚ) (m : List (String × ℚ)) :
    (ps.foldl copyEngine.calculateConcentrationRisk.step (a, m)).1 = a + totalValueOf ps := by
  induction ps generalizing a m with
  | nil => simp [totalValueOf]
  | cons p ps ih =>
    rw [List.foldl_cons, totalValueOf_cons]
    cases hp : p.CurrentPrice with
    | none =>
      obtain ⟨h1, h2⟩ := concentrationStep_unpriced a m p hp
      rw [h1, ih, h2, zero_add]
    | some price =>
      rw [concentrationStep_priced a m p price hp, ih, add_assoc]

theorem concentrationFold_sum (ps : List Position) (a : ℚ) (m : List (String × ℚ)) :
    ((ps.foldl copyEngine.calculateConcentrationRisk.step (a, m)).2.map Prod.snd).sum =
      (m.map Prod.snd).sum + totalValueOf ps := by
  induction ps generalizing a m with
  | nil => simp [totalValueOf]
  | cons p ps ih =>
    rw [List.foldl_cons, totalValueOf_cons]
    cases hp : p.CurrentPrice with
    | none =>
      obtain ⟨h1, h2⟩ := concentrationStep_unpriced a m p hp
      rw [h1, ih, h2, zero_add]
    | some price =>
      rw [concentrationStep_priced a m p price hp, ih, mapAdd_sum, add_assoc]

theorem concentrationFold_nodup (ps : List Position) (a : ℚ) (m : List (String × ℚ))
    (hm : (m.map Prod.fst).Nodup) :
    ((ps.foldl copyEngine.calculateConcentrationRisk.step (a, m)).2.map Prod.fst).Nodup := by
  induction ps generalizing a m with
  | nil => exact hm
  | cons p ps ih =>
    rw [List.foldl_cons]
    cases hp : p.CurrentPrice with
    | none =>
      rw [(concentrationStep_unpriced a m p hp).1]
      exact ih a m hm
    | some price =>
      rw [concentrationStep_priced a m p price hp]
      exact ih _ _ (mapAdd_nodup m _ _ hm)

theorem concentrationFold_get (ps : List Position) (a : ℚ) (m : List (String × ℚ))
    (k : String) :
    mapGet (ps.foldl copyEngine.calculateConcentrationRisk.step (a, m)).2 k =
      mapGet m k + symbolTotal ps k := by
  induction ps generalizing a m with
  | nil => simp [symbolTotal, totalValueOf]
  | cons p ps ih =>
    rw [List.foldl_cons, symbolTotal_cons]
    cases hp : p.CurrentPrice with
    | none =>
      obtain ⟨h1, h2⟩ := concentrationStep_unpriced a m p hp
      rw [h1, ih, h2]
      simp
    | some price =>
      rw [concentrationStep_priced a m p price hp, ih, mapGet_mapAdd]
      by_cases h : k = p.TokenSymbol
      · rw [if_pos h, if_pos h.symm, add_assoc]
      · rw [if_neg h, if_neg (fun e => h e.symm), add_assoc]

theorem concentrationFold_keys (ps : List Position) (a : ℚ) (m : List (String × ℚ))
    (k : String)
    (hk : k ∈ (ps.foldl copyEngine.calculateConcentrationRisk.step (a, m)).2.map Prod.fst) :
    k ∈ m.map Prod.fst ∨ ∃ p ∈ ps, p.TokenSymbol = k := by
  induction ps generalizing a m with
  | nil => exact Or.inl hk
  | cons p ps ih =>
    rw [List.foldl_cons] at hk
    cases hp : p.CurrentPrice with
    | none =>
      rw [(concentrationStep_unpriced a m p hp).1] at hk
      rcases ih a m hk with h | ⟨q, hq, hqk⟩
      · exact Or.inl h
      · exact Or.inr ⟨q, List.mem_cons_of_mem _ hq, hqk⟩
    | some price =>
      rw [concentrationStep_priced a m p price hp] at hk
      rcases ih _ _ hk with h | ⟨q, hq, hqk⟩
      · rcases (mapAdd_keys_mem m _ _ k).mp h with h1 | h1
        · exact Or.inl h1
        · exact Or.inr ⟨p, List.mem_cons_self _ _, h1.symm⟩
      · exact Or.inr ⟨q, List.mem_cons_of_mem _ hq, hqk⟩

theorem hhiFold_eq_sum (m : List (String × ℚ)) (total init : ℚ) :
    m.foldl (fun hhi entry => hhi + entry.2 / total * (entry.2 / total)) init =
      init + (m.map (fun entry => (entry.2 / total) ^ 2)).sum := by
  induction m generalizing init with
  | nil => simp
  | cons e rest ih =>
    rw [List.foldl_cons, ih, List.map_cons, List.sum_cons, add_assoc, sq]

theorem sum_map_const_of_forall {α : Type} (l : List α) (f : α → ℚ) (c : ℚ)
    (h : ∀ e ∈ l, f e = c) : (l.map f).sum = (l.length : ℚ) * c := by
  induction l with
  | nil => simp
  | cons e rest ih =>
    rw [List.map_cons, List.sum_cons, h e (List.mem_cons_self _ _),
      ih (fun x hx => h x (List.mem_cons_of_mem _ hx)), List.length_cons]
    push_cast
    ring

theorem concentrationRisk_equal_shares (positions : List Position) (syms : List String)
    (v : ℚ) (hnd : syms.Nodup) (hsym : ∀ p ∈ positions, p.TokenSymbol ∈ syms)
    (heq : ∀ s ∈ syms, symbolTotal positions s = v) (hv : v ≠ 0) :
    copyEngine.calculateConcentrationRisk positions = 1 / (syms.length : ℚ) := by
  rcases hst : positions.foldl copyEngine.calculateConcentrationRisk.step (0, []) with
    ⟨total, M⟩
  have htotal : total = totalValueOf positions := by
    have h := concentrationFold_total positions 0 []
    rw [hst, zero_add] at h
    exact h
  have hsum : (M.map Prod.snd).sum = totalValueOf positions := by
    have h := concentrationFold_sum positions 0 []
    rw [hst] at h
    simpa using h
  have hnodup : (M.map Prod.fst).Nodup := by
    have h := concentrationFold_nodup positions 0 [] (by simp)
    rw [hst] at h
    exact h
  have hget : ∀ k, mapGet M k = symbolTotal positions k := by
    intro k
    have h := concentrationFold_get positions 0 [] k
    rw [hst] at h
    simpa [mapGet] using h
  have hkeys : ∀ k ∈ M.map Prod.fst, k ∈ syms := by
    intro k hk
    have h := concentrationFold_keys positions 0 [] k (by rw [hst]; exact hk)
    rcases h with h | ⟨p, hp, hpk⟩
    · simp at h
    · exact hpk ▸ hsym p hp
  have hentries : ∀ e ∈ M, e.2 = v := by
    intro e he
    have hk : e.1 ∈ M.map Prod.fst := List.mem_map.mpr ⟨e, he, rfl⟩
    have h1 := mapGet_of_mem M e.1 e.2 hnodup he
    rw [← h1, hget, heq _ (hkeys _ hk)]
  have hsub : ∀ s ∈ syms, s ∈ M.map Prod.fst := by
    intro s hs
    by_contra hcon
    have h0 := mapGet_of_not_mem M s hcon
    rw [hget, heq s hs] at h0
    exact hv h0
  have hlen : M.length = syms.length := by
    have hperm : (M.map Prod.fst).Perm syms :=
      (List.perm_ext_iff_of_nodup hnodup hnd).mpr (fun k => ⟨hkeys k, hsub k⟩)
    rw [← hperm.length_eq, List.length_map]
  have htv : total = (M.length : ℚ) * v := by
    rw [htotal, ← hsum]
    exact sum_map_const_of_forall M Prod.snd v hentries
  unfold copyEngine.calculateConcentrationRisk
  rw [hst]
  dsimp only
  by_cases hpos : positions.length = 0
  · rw [if_pos hpos]
    have hM : (M.length : ℚ) * v = 0 := by
      rw [← htv, htotal, List.length_eq_zero.mp hpos]
      rfl
    rcases mul_eq_zero.mp hM with h | h
    · rw [← hlen, h]; simp
    · exact absurd h hv
  · rw [if_neg hpos]
    by_cases ht : total = 0
    · rw [if_pos ht]
      have hM : (M.length : ℚ) * v = 0 := by rw [← htv]; exact ht
      rcases mul_eq_zero.mp hM with h | h
      · rw [← hlen, h]; simp
      · exact absurd h hv
    · rw [if_neg ht, hhiFold_eq_sum, zero_add,
        sum_map_const_of_forall M (fun entry => (entry.2 / total) ^ 2) ((v / total) ^ 2)
          (fun e he => by simp only [hentries e he]),
        ← hlen]
      have hM : (M.length : ℚ) ≠ 0 := by
        intro h
        apply ht
        rw [htv, h, zero_mul]
      rw [htv]
      field_simp
      ring

/-! ## The claims, continued -/

set_option maxRecDepth 100000 in
/-- C11: with two relationships on the leader that both pass admission, when the write
of the first derived trade fails, processTrade does not return: the task panics in
CreateCopyExecution and no execution is persisted (the claim asks for two, one of them
failed). With no failing call the same input yields two completed executions. -/
theorem processTrade_dies_when_a_trade_write_fails :
    tradeS1.TraderID = some "L1" ∧
    (postgresql.GetCopyRelationshipsByTrader (failAtEnv 5) worldTwoRelationships "L1").1 =
      .ok [relS1, relS1b] ∧
    (copyEngine.shouldExecuteCopy (failAtEnv 5) worldTwoRelationships relS1 tradeS1).1 =
      .ok true ∧
    (copyEngine.shouldExecuteCopy (failAtEnv 5) worldTwoRelationships relS1b tradeS1).1 =
      .ok true ∧
    (copyEngine.processTrade NewCopyEngine (failAtEnv 5) worldTwoRelationships
      tradeS1).isReturned = false ∧
    (copyEngine.processTrade NewCopyEngine (failAtEnv 5) worldTwoRelationships
      tradeS1).world.copy_executions = [] ∧
    (copyEngine.processTrade NewCopyEngine calmEnv worldTwoRelationships tradeS1).value? =
      some none ∧
    (copyEngine.processTrade NewCopyEngine calmEnv worldTwoRelationships
      tradeS1).world.copy_executions.map (fun row => (row.relationship_id, row.status)) =
      [("R1", .StatusCompleted), ("R2", .StatusCompleted)] := by
  decide

/-- C12: every execution that processRelationship passes to CreateCopyExecution has
status completed or failed; a completed one carries a trade and a failed one carries an
error message. -/
theorem processRelationship_hands_over_terminal_executions (ce : copyEngine) (env : Env)
    (w : World) (relationship : CopyRelationship) (trade : Trade) :
    ∃ cs : List Call,
      (copyEngine.processRelationship ce env w relationship trade).world.calls = w.calls ++ cs ∧
      ∀ execution, Call.CreateCopyExecution execution ∈ cs →
        (execution.Status = .StatusCompleted ∨ execution.Status = .StatusFailed) ∧
        (execution.Status = .StatusCompleted → execution.Trade ≠ none) ∧
        (execution.Status = .StatusFailed → execution.ErrorMessage ≠ none) := by
  suffices h : CallsExtend (fun c => ∀ e, c = Call.CreateCopyExecution e →
      e.WellFormedForCreate) w
      (copyEngine.processRelationship ce env w relationship trade).world by
    obtain ⟨cs, hcs, hp⟩ := h
    exact ⟨cs, hcs, fun e he => hp _ he e rfl⟩
  have hother : ∀ c : Call, (∀ e, c ≠ Call.CreateCopyExecution e) →
      ∀ e, c = Call.CreateCopyExecution e → e.WellFormedForCreate :=
    fun c hc e he => absurd he (hc e)
  unfold copyEngine.processRelationship
  have h1 := callsExtend_mono
    (fun c hc => hother c (riskMetricsCall_not_create c hc))
    (shouldExecuteCopy_callsExtend env w relationship trade)
  split
  · rename_i heq; rw [heq] at h1; exact h1
  · rename_i heq; rw [heq] at h1; exact h1
  · rename_i w1 heq; rw [heq] at h1
    split
    rename_i signalID w2 hu1
    have h12 := callsExtend_trans h1
      (callsExtend_of_calls_eq _ w1 w2 (newUUID_frame env w1 signalID w2 hu1).1)
    conv => zeta
    split
    · exact h12
    · split
      · exact h12
      · exact h12
      · split
        · exact h12
        · rename_i positionSize hsz
          split
          rename_i executionID w3 hu2
          have h13 := callsExtend_trans h12
            (callsExtend_of_calls_eq _ w2 w3 (newUUID_frame env w2 executionID w3 hu2).1)
          conv => zeta
          have hs4 := setCopySignal_frame env w3
            { ID := signalID, Relationship := relationship, OriginalTrade := trade,
              SignalType := copyEngine.determineSignalType trade, Parameters := [] }
          split
          rename_i serr w4 hs
          rw [hs] at hs4
          have h14 := callsExtend_trans h13
            (callsExtend_step _ w3 _ (hother _ (fun e he => by cases he)) w4 hs4.1)
          obtain ⟨w5, hw5, hres⟩ := executeCopyTrade_result env w4
            { ID := executionID, SignalID := signalID, Relationship := relationship,
              Trade := none, Status := .StatusPending, ErrorMessage := none,
              Parameters := [("calculated_size", positionSize), ("original_size", trade.Size),
                ("allocation_pct", relationship.AllocationPercent)] } trade positionSize
          have h15 : CallsExtend (fun c => ∀ e, c = Call.CreateCopyExecution e →
              e.WellFormedForCreate) w w5 := by
            refine callsExtend_trans h14 ⟨_, hw5, ?_⟩
            intro c hc e he
            subst he
            simp at hc
          split
          rename_i err execution2 w5b hex
          conv => zeta
          rw [outcome_world_discard]
          rcases hres with hok | ⟨msg, hfail⟩
          · have hex2 := hok.symm.trans hex
            simp only [Prod.mk.injEq] at hex2
            obtain ⟨rfl, rfl, rfl⟩ := hex2
            refine callsExtend_trans h15 (callsExtend_step _ w5 _ ?_ _
              (createCopyExecution_calls env w5 _))
            intro e he
            cases he
            unfold CopyExecution.WellFormedForCreate
            dsimp only
            simp
          · have hex2 := hfail.symm.trans hex
            simp only [Prod.mk.injEq] at hex2
            obtain ⟨rfl, rfl, rfl⟩ := hex2
            refine callsExtend_trans h15 (callsExtend_step _ w5 _ ?_ _
              (createCopyExecution_calls env w5 _))
            intro e he
            cases he
            unfold CopyExecution.WellFormedForCreate
            dsimp only
            simp

/-- C13: the derived trade executeCopyTrade hands to CreateTrade has `is_copy_trade =
true`, `copy_relationship_id` equal to the relationship's id and `user_id` equal to the
relationship's `follower_id`; on a successful write it is the trade attached to the
execution and stored. -/
theorem executeCopyTrade_marks_copy_trade (env : Env) (w : World) (execution : CopyExecution)
    (T : Trade) (c : ℚ) :
    ∃ t : Trade,
      (copyEngine.executeCopyTrade env w execution T c).2.2.calls =
        w.calls ++ [Call.UpdateCopyExecution { execution with Status := .StatusExecuting },
          Call.CreateTrade t] ∧
      t.IsCopyTrade = true ∧
      t.CopyRelationshipID = some execution.Relationship.ID ∧
      t.UserID = some execution.Relationship.FollowerID ∧
      ((copyEngine.executeCopyTrade env w execution T c).1 = none →
        (copyEngine.executeCopyTrade env w execution T c).2.1.Trade = some t ∧
        t ∈ (copyEngine.executeCopyTrade env w execution T c).2.2.trades) := by
  refine ⟨copyEngine.executeCopyTrade.copyTrade (env.uuid w.uuids)
    { execution with Status := .StatusExecuting } T c, ?_, rfl, rfl, rfl, ?_⟩
  · unfold copyEngine.executeCopyTrade postgresql.UpdateCopyExecution postgresql.CreateTrade
      roundTrip newUUID
    dsimp only
    split_ifs <;> simp
  · unfold copyEngine.executeCopyTrade postgresql.UpdateCopyExecution postgresql.CreateTrade
      roundTrip newUUID
    dsimp only
    split_ifs <;> simp

/-- C14: determineSignalType returns modify_size when `position_id` is non-null,
otherwise open_position when the side is buy, otherwise close_position; it never returns
stop_loss or take_profit. -/
theorem determineSignalType_rule (trade : Trade) :
    (trade.PositionID ≠ none →
      copyEngine.determineSignalType trade = .SignalModifySize) ∧
    (trade.PositionID = none → trade.Side = .TradeBuy →
      copyEngine.determineSignalType trade = .SignalOpenPosition) ∧
    (trade.PositionID = none → trade.Side ≠ .TradeBuy →
      copyEngine.determineSignalType trade = .SignalClosePosition) ∧
    copyEngine.determineSignalType trade ≠ .SignalStopLoss ∧
    copyEngine.determineSignalType trade ≠ .SignalTakeProfit := by
  unfold copyEngine.determineSignalType
  refine ⟨fun h => by rw [if_pos h], fun h hb => by rw [if_neg (not_not.mpr h), if_pos hb],
    fun h hb => by rw [if_neg (not_not.mpr h), if_neg hb], ?_, ?_⟩ <;>
  · split_ifs <;> simp

set_option maxRecDepth 100000 in
/-- C15, as stated, fails: with `max_allocation = 0`, `allocation_percent = 25`,
`min_allocation = 30` and a leader trade of size 100 the proportional value is 25, but
the fixed sizer returns 30. -/
theorem fixed_sizer_raises_to_min :
    relMinThirty.MaxAllocation = 0 ∧
    tradeS1.Size * relMinThirty.AllocationPercent / 100 = 25 ∧
    FixedStrategy.CalculatePositionSize (signalFor relMinThirty) tradeS1 = .ok 30 := by
  with_unfolding_all decide

/-- C15, amended: FixedStrategy.CalculatePositionSize returns the larger of
`min_allocation` and the base size, the base size being `max_allocation` when nonzero and
the proportional value `original.size × allocation_percent / 100` otherwise;
FixedStrategy.ShouldExecute returns true exactly when `original.size ≥ min_allocation`. -/
theorem fixed_sizer_and_gate (signal : CopySignal) (originalTrade : Trade) :
    FixedStrategy.CalculatePositionSize signal originalTrade =
      .ok (max
        (if signal.Relationship.MaxAllocation ≠ 0 then signal.Relationship.MaxAllocation
          else originalTrade.Size * signal.Relationship.AllocationPercent / 100)
        signal.Relationship.MinAllocation) ∧
    ∃ b : Bool, FixedStrategy.ShouldExecute signal originalTrade = .ok b ∧
      (b = true ↔ originalTrade.Size ≥ signal.Relationship.MinAllocation) := by
  constructor
  · unfold FixedStrategy.CalculatePositionSize
    simp only [mul_div_assoc]
    congr 1
    by_cases h0 : signal.Relationship.MaxAllocation = 0
    · rw [if_pos h0, if_neg (not_not.mpr h0)]
      by_cases h1 : originalTrade.Size * (signal.Relationship.AllocationPercent / 100) <
          signal.Relationship.MinAllocation
      · rw [if_pos h1, max_eq_right h1.le]
      · rw [if_neg h1, max_eq_left (not_lt.mp h1)]
    · rw [if_neg h0, if_pos h0]
      by_cases h1 : signal.Relationship.MaxAllocation < signal.Relationship.MinAllocation
      · rw [if_pos h1, max_eq_right h1.le]
      · rw [if_neg h1, max_eq_left (not_lt.mp h1)]
  · exact ⟨_, rfl, by simp⟩

set_option maxRecDepth 100000 in
/-- C16, as stated, fails: on the realized PnLs `[+10, -4, -3, +8, -6]` calculateMaxDrawdown
does not return 9. -/
theorem maxDrawdown_S6_ne_nine : copyEngine.calculateMaxDrawdown tradesS6 ≠ 9 := by
  with_unfolding_all decide

set_option maxRecDepth 100000 in
/-- C16, amended: on the realized PnLs `[+10, -4, -3, +8, -6]`, size 1 each,
calculateMaxDrawdown returns 7 (peak 10 after the first trade, running PnL 3 after the
third). -/
theorem maxDrawdown_S6_eq_seven : copyEngine.calculateMaxDrawdown tradesS6 = 7 := by
  with_unfolding_all decide

set_option maxRecDepth 100000 in
/-- Both hand-over paths occur: in scenario S1 a completed execution with a trade is handed
over; when the trade write fails, a failed execution with an error message and no trade
is handed over. -/
theorem handover_paths_example :
    (copyEngine.processRelationship NewCopyEngine calmEnv emptyWorld relS1
      tradeS1).world.calls.filterMap
        (fun c => match c with
          | .CreateCopyExecution e => some (e.Status, e.Trade.isSome, e.ErrorMessage.isSome)
          | _ => none) = [(.StatusCompleted, true, false)] ∧
    (copyEngine.processRelationship NewCopyEngine (failAtEnv 4) emptyWorld relS1
      tradeS1).world.calls.filterMap
        (fun c => match c with
          | .CreateCopyExecution e => some (e.Status, e.Trade.isSome, e.ErrorMessage.isSome)
          | _ => none) = [(.StatusFailed, false, true)] := by
  decide

/-! ## Helper lemmas: the Sharpe ratio -/

/-- Without rounding, calculateSharpeRatio is the mean of the per-trade returns over the
square root of their population variance, and 0 when there are fewer than two returns or
the variance is zero. -/
theorem calculateSharpeRatio_exact (sqrt : ℚ → ℚ) (ts : List Trade) :
    copyEngine.calculateSharpeRatio (fun x => x) sqrt ts =
      (if ((ts.filter (fun trade => trade.Size > 0)).map Trade.perTradeReturn).length < 2
        then 0
       else if populationVariance
          ((ts.filter (fun trade => trade.Size > 0)).map Trade.perTradeReturn) = 0 then 0
       else meanOf ((ts.filter (fun trade => trade.Size > 0)).map Trade.perTradeReturn) /
          sqrt (populationVariance
            ((ts.filter (fun trade => trade.Size > 0)).map Trade.perTradeReturn))) := by
  unfold copyEngine.calculateSharpeRatio copyEngine.calculateSharpeRatio.mean
    copyEngine.calculateSharpeRatio.variance
  rw [sharpeReturns_eq]
  generalize hr : (ts.filter (fun trade => trade.Size > 0)).map Trade.perTradeReturn = r
  have hlen : r.length ≤ ts.length := by
    rw [← hr, List.length_map]
    exact List.length_filter_le _ _
  by_cases h1 : ts.length < 2
  · have h2 : r.length < 2 := lt_of_le_of_lt hlen h1
    rw [if_pos h1, if_pos h2]
  · rw [if_neg h1]
    by_cases h2 : r.length < 2
    · rw [if_pos h2, if_pos h2]
    · rw [if_neg h2, if_neg h2]
      simp only [foldl_add_eq_sum, foldl_sq_dev_eq_sum, zero_add]
      rfl

set_option maxRecDepth 100000 in
theorem sharpeMean_tenth :
    copyEngine.calculateSharpeRatio.mean roundToFloat64
        (copyEngine.calculateSharpeRatio.returns roundToFloat64 tradesTenth) =
      7205759403792795 / 2 ^ 56 := by
  apply Rat.ext
  · with_unfolding_all decide
  · with_unfolding_all decide

set_option maxRecDepth 100000 in
theorem sharpeVariance_tenth :
    copyEngine.calculateSharpeRatio.variance roundToFloat64
        (copyEngine.calculateSharpeRatio.returns roundToFloat64 tradesTenth)
        (7205759403792795 / 2 ^ 56) =
      1 / 2 ^ 112 := by
  apply Rat.ext
  · with_unfolding_all decide
  · with_unfolding_all decide

set_option maxRecDepth 100000 in
theorem sharpeQuotient_tenth :
    roundToFloat64 (7205759403792795 / 2 ^ 56 / (1 / 2 ^ 56)) = 7205759403792795 := by
  apply Rat.ext
  · with_unfolding_all decide
  · with_unfolding_all decide

set_option maxRecDepth 100000 in
theorem sharpeMean_S6 :
    copyEngine.calculateSharpeRatio.mean roundToFloat64
        (copyEngine.calculateSharpeRatio.returns roundToFloat64 tradesS6) = 1 := by
  apply Rat.ext
  · with_unfolding_all decide
  · with_unfolding_all decide

set_option maxRecDepth 100000 in
theorem sharpeVariance_S6 :
    copyEngine.calculateSharpeRatio.variance roundToFloat64
        (copyEngine.calculateSharpeRatio.returns roundToFloat64 tradesS6) 1 = 44 := by
  apply Rat.ext
  · with_unfolding_all decide
  · with_unfolding_all decide

set_option maxRecDepth 100000 in
/-- C17 (divergence): in `float64` arithmetic, on three trades of size 1 with realized PnL
0.1 each (three equal returns, population variance zero), the computed mean is
0.10000000000000002, the computed variance is `2 ^ -112`, not 0, the guard `variance ==
0` is passed and calculateSharpeRatio returns 7205759403792795 (about 7.2e15) instead of
0, for every `sqrt` that is right on `2 ^ -112`. Without rounding the function is
`mean(r) / sqrt(variance(r))` over the per-trade returns `r`, and 0 for fewer than two
returns or zero variance; on the PnLs `[10, -4, -3, 8, -6]`, size 1 each, the `float64`
result is the rounded `1 / sqrt 44`. -/
theorem calculateSharpeRatio_constant_returns (sqrt : ℚ → ℚ)
    (hsqrt : sqrt (1 / 2 ^ 112) = 1 / 2 ^ 56) :
    populationVariance (tradesTenth.map Trade.perTradeReturn) = 0 ∧
    copyEngine.calculateSharpeRatio roundToFloat64 sqrt tradesTenth = 7205759403792795 ∧
    (∀ trades : List Trade,
      copyEngine.calculateSharpeRatio (fun x => x) sqrt trades =
        (if ((trades.filter (fun trade => trade.Size > 0)).map
            Trade.perTradeReturn).length < 2 then 0
         else if populationVariance
            ((trades.filter (fun trade => trade.Size > 0)).map Trade.perTradeReturn) = 0
           then 0
         else meanOf
            ((trades.filter (fun trade => trade.Size > 0)).map Trade.perTradeReturn) /
            sqrt (populationVariance
              ((trades.filter (fun trade => trade.Size > 0)).map Trade.perTradeReturn)))) ∧
    copyEngine.calculateSharpeRatio roundToFloat64 sqrt tradesS6 =
      roundToFloat64 (1 / sqrt 44) := by
  refine ⟨?_, ?_, calculateSharpeRatio_exact sqrt, ?_⟩
  · norm_num [populationVariance, meanOf, tradesTenth, tradeWithPnL, Trade.perTradeReturn]
    ring
  · unfold copyEngine.calculateSharpeRatio
    rw [if_neg (by decide), if_neg (by decide)]
    simp only [sharpeMean_tenth, sharpeVariance_tenth, hsqrt]
    rw [if_neg (by norm_num), sharpeQuotient_tenth]
  · unfold copyEngine.calculateSharpeRatio
    rw [if_neg (by decide), if_neg (by decide)]
    simp only [sharpeMean_S6, sharpeVariance_S6]
    rw [if_neg (by norm_num)]

set_option maxRecDepth 100000 in
/-- Witness for C17: 0.1 rounds to the `float64` used in the three trades, and the
result with a square root function that is right on `2 ^ -112`. -/
theorem calculateSharpeRatio_constant_returns_witness :
    roundToFloat64 (1 / 10) = float64Tenth ∧
    sqrtOnExample (1 / 2 ^ 112) = 1 / 2 ^ 56 ∧
    populationVariance (tradesTenth.map Trade.perTradeReturn) = 0 ∧
    copyEngine.calculateSharpeRatio roundToFloat64 sqrtOnExample tradesTenth =
      7205759403792795 :=
  ⟨Rat.ext (by with_unfolding_all decide) (by with_unfolding_all decide), if_pos rfl,
    (calculateSharpeRatio_constant_returns sqrtOnExample (if_pos rfl)).1,
    (calculateSharpeRatio_constant_returns sqrtOnExample (if_pos rfl)).2.1⟩

set_option maxRecDepth 100000 in
/-- C18, as stated, fails: a non-empty list of positions on one symbol, none of which has
a current price, has concentration risk 0, not 1. -/
theorem concentrationRisk_unpriced_single_symbol :
    [positionOf "ETH" 2 none] ≠ [] ∧
    (∀ p ∈ [positionOf "ETH" 2 none], p.TokenSymbol = "ETH") ∧
    copyEngine.calculateConcentrationRisk [positionOf "ETH" 2 none] = 0 := by
  with_unfolding_all decide

/-- C18, amended: for every non-empty list of positions all on one symbol whose total
value is nonzero, calculateConcentrationRisk returns 1; for every list of positions
spread over `N` symbols whose totals are all equal and nonzero, it returns `1 / N`. -/
theorem concentrationRisk_one_symbol_and_equal_shares (positions : List Position) :
    (∀ symbol : String, positions ≠ [] → (∀ p ∈ positions, p.TokenSymbol = symbol) →
      totalValueOf positions ≠ 0 →
      copyEngine.calculateConcentrationRisk positions = 1) ∧
    (∀ (symbols : List String) (v : ℚ), symbols.Nodup →
      (∀ p ∈ positions, p.TokenSymbol ∈ symbols) →
      (∀ s ∈ symbols, symbolTotal positions s = v) → v ≠ 0 →
      copyEngine.calculateConcentrationRisk positions = 1 / (symbols.length : ℚ)) := by
  refine ⟨?_, fun symbols v hnd hsym heq hv =>
    concentrationRisk_equal_shares positions symbols v hnd hsym heq hv⟩
  intro symbol _ hall htotal
  have h := concentrationRisk_equal_shares positions [symbol] (totalValueOf positions)
    (List.nodup_singleton _) (fun p hp => List.mem_singleton.mpr (hall p hp))
    (fun s hs => by
      rw [List.mem_singleton.mp hs]
      unfold symbolTotal
      congr 1
      apply List.filter_eq_self.mpr
      intro p hp
      simpa using hall p hp)
    htotal
  rw [h]
  simp

set_option maxRecDepth 100000 in
/-- Witness for C18 (amended): two ETH positions worth 20 and 5 give 1; an ETH position
worth 20 and a BTC position worth 20 give 1/2. -/
theorem concentrationRisk_one_symbol_and_equal_shares_witness :
    ([positionOf "ETH" 2 (some 10), positionOf "ETH" 1 (some 5)] ≠ [] ∧
      (∀ p ∈ [positionOf "ETH" 2 (some 10), positionOf "ETH" 1 (some 5)],
        p.TokenSymbol = "ETH") ∧
      totalValueOf [positionOf "ETH" 2 (some 10), positionOf "ETH" 1 (some 5)] ≠ 0 ∧
      copyEngine.calculateConcentrationRisk
        [positionOf "ETH" 2 (some 10), positionOf "ETH" 1 (some 5)] = 1) ∧
    (["ETH", "BTC"].Nodup ∧
      (∀ p ∈ [positionOf "ETH" 2 (some 10), positionOf "BTC" 1 (some 20)],
        p.TokenSymbol ∈ ["ETH", "BTC"]) ∧
      (∀ s ∈ ["ETH", "BTC"],
        symbolTotal [positionOf "ETH" 2 (some 10), positionOf "BTC" 1 (some 20)] s = 20) ∧
      (20 : ℚ) ≠ 0 ∧
      copyEngine.calculateConcentrationRisk
        [positionOf "ETH" 2 (some 10), positionOf "BTC" 1 (some 20)] =
          1 / ((["ETH", "BTC"] : List String).length : ℚ)) :=
  ⟨⟨by decide, by decide, by with_unfolding_all decide,
      (concentrationRisk_one_symbol_and_equal_shares
        [positionOf "ETH" 2 (some 10), positionOf "ETH" 1 (some 5)]).1 "ETH"
        (by decide) (by decide) (by with_unfolding_all decide)⟩,
    ⟨by decide, by decide, by with_unfolding_all decide, by decide,
      (concentrationRisk_one_symbol_and_equal_shares
        [positionOf "ETH" 2 (some 10), positionOf "BTC" 1 (some 20)]).2 ["ETH", "BTC"] 20
        (by decide) (by decide) (by with_unfolding_all decide) (by decide)⟩⟩

/-- The fields of the record calculateRiskMetrics returns when the fetch of the
follower's positions succeeds. -/
theorem calculateRiskMetrics_fields (env : Env) (w w2 : World)
    (relationship : CopyRelationship) (positions : List Position)
    (hfetch : postgresql.GetFollowerPositions env w relationship.FollowerID =
      (.ok positions, w2)) :
    ∃ m : RiskMetrics,
      copyEngine.calculateRiskMetrics env w relationship = (.ok m, w2) ∧
      m.CurrentExposure = totalValueOf positions ∧
      m.MaxExposure = (if relationship.MaxAllocation ≠ 0 then relationship.MaxAllocation
        else (1 / 10) * totalValueOf positions) ∧
      m.LeverageRatio = (if totalValueOf positions > 0 then
        m.CurrentExposure / totalValueOf positions else 0) ∧
      m.VaR = (2 / 100) * totalValueOf positions ∧
      m.LiquidityRisk = 1 / 10 := by
  unfold copyEngine.calculateRiskMetrics
  rw [hfetch]
  simp only [riskStep_foldl, zero_add, calculateVaR_eq]
  refine ⟨_, rfl, rfl, ?_, rfl, ?_, rfl⟩
  · by_cases h : relationship.MaxAllocation = 0
    · simp [h, mul_comm]
    · simp [h]
  · simp [mul_comm]

/-- C19: for every relationship and list of the follower's open positions (as fetched,
their total value `Σ size × current_price` not negative: sizes are positive and prices
are not negative), calculateRiskMetrics returns `current_exposure = Σ size ×
current_price` over the positions, `max_exposure = max_allocation` when it is nonzero and
`0.10 × total` otherwise, `leverage_ratio = current_exposure / total` (0 when the total is
0), `VaR = 0.02 × total` and `liquidity_risk = 0.1`. -/
theorem calculateRiskMetrics_values (env : Env) (w w2 : World)
    (relationship : CopyRelationship) (positions : List Position)
    (hfetch : postgresql.GetFollowerPositions env w relationship.FollowerID =
      (.ok positions, w2))
    (htotal : 0 ≤ totalValueOf positions) :
    ∃ m : RiskMetrics,
      copyEngine.calculateRiskMetrics env w relationship = (.ok m, w2) ∧
      m.CurrentExposure = totalValueOf positions ∧
      m.MaxExposure = (if relationship.MaxAllocation ≠ 0 then relationship.MaxAllocation
        else (1 / 10) * totalValueOf positions) ∧
      m.LeverageRatio = (if totalValueOf positions = 0 then 0
        else m.CurrentExposure / totalValueOf positions) ∧
      m.VaR = (2 / 100) * totalValueOf positions ∧
      m.LiquidityRisk = 1 / 10 := by
  obtain ⟨m, hm, hcur, hmaxe, hlev, hvar, hliq⟩ :=
    calculateRiskMetrics_fields env w w2 relationship positions hfetch
  refine ⟨m, hm, hcur, hmaxe, ?_, hvar, hliq⟩
  rw [hlev]
  by_cases h0 : totalValueOf positions = 0
  · rw [if_pos h0, if_neg (by rw [h0]; exact lt_irrefl _)]
  · rw [if_neg h0, if_pos (lt_of_le_of_ne htotal (Ne.symm h0))]

set_option maxRecDepth 100000 in
/-- Witness for C19: follower F1 holding an ETH position worth 20 and a BTC position worth
20, relationship R1 without a maximum: exposure 40, maximum exposure 4, leverage ratio
1. -/
theorem calculateRiskMetrics_values_witness :
    postgresql.GetFollowerPositions calmEnv worldTwoPositions relS1.FollowerID =
      (.ok [positionOf "ETH" 2 (some 10), positionOf "BTC" 1 (some 20)],
        { worldTwoPositions with calls := [Call.GetFollowerPositions "F1"] }) ∧
    totalValueOf [positionOf "ETH" 2 (some 10), positionOf "BTC" 1 (some 20)] = 40 ∧
    ∃ m : RiskMetrics,
      copyEngine.calculateRiskMetrics calmEnv worldTwoPositions relS1 =
        (.ok m, { worldTwoPositions with calls := [Call.GetFollowerPositions "F1"] }) ∧
      m.CurrentExposure =
        totalValueOf [positionOf "ETH" 2 (some 10), positionOf "BTC" 1 (some 20)] ∧
      m.MaxExposure = (if relS1.MaxAllocation ≠ 0 then relS1.MaxAllocation
        else (1 / 10) *
          totalValueOf [positionOf "ETH" 2 (some 10), positionOf "BTC" 1 (some 20)]) ∧
      m.LeverageRatio =
        (if totalValueOf [positionOf "ETH" 2 (some 10), positionOf "BTC" 1 (some 20)] = 0
          then 0
          else m.CurrentExposure /
            totalValueOf [positionOf "ETH" 2 (some 10), positionOf "BTC" 1 (some 20)]) ∧
      m.VaR = (2 / 100) *
        totalValueOf [positionOf "ETH" 2 (some 10), positionOf "BTC" 1 (some 20)] ∧
      m.LiquidityRisk = 1 / 10 :=
  ⟨by decide, by with_unfolding_all decide,
    calculateRiskMetrics_values calmEnv worldTwoPositions
      { worldTwoPositions with calls := [Call.GetFollowerPositions "F1"] } relS1
      [positionOf "ETH" 2 (some 10), positionOf "BTC" 1 (some 20)] (by decide)
      (by with_unfolding_all decide)⟩

/-- C20: for GetPerformanceMetrics and GetRiskMetrics alike: a successful cache read is
returned after that one call, the persistent store not being consulted; when the cache
read fails and the persistent-store read succeeds, the stored value is returned without
error, whatever the outcome of the cache write that follows; an error is returned only
when both reads fail. -/
theorem getMetrics_cache_aside (env : Env) (w : World) (id : String) :
    ((∀ m w1, redisClient.GetPerformanceMetrics env w id = (.ok m, w1) →
        copyEngine.GetPerformanceMetrics env w id = (.ok m, w1) ∧
        w1.calls = w.calls ++ [Call.RedisGetPerformanceMetrics id]) ∧
      (∀ e w1 m w2, redisClient.GetPerformanceMetrics env w id = (.error e, w1) →
        postgresql.GetPerformanceMetrics env w1 id = (.ok m, w2) →
        copyEngine.GetPerformanceMetrics env w id =
          (.ok m, (redisClient.SetPerformanceMetrics env w2 id m).2)) ∧
      (∀ e, (copyEngine.GetPerformanceMetrics env w id).1 = .error e →
        (∃ e1, (redisClient.GetPerformanceMetrics env w id).1 = .error e1) ∧
        ∃ e2, (postgresql.GetPerformanceMetrics env
          (redisClient.GetPerformanceMetrics env w id).2 id).1 = .error e2)) ∧
    ((∀ m w1, redisClient.GetRiskMetrics env w id = (.ok m, w1) →
        copyEngine.GetRiskMetrics env w id = (.ok m, w1) ∧
        w1.calls = w.calls ++ [Call.RedisGetRiskMetrics id]) ∧
      (∀ e w1 m w2, redisClient.GetRiskMetrics env w id = (.error e, w1) →
        postgresql.GetRiskMetrics env w1 id = (.ok m, w2) →
        copyEngine.GetRiskMetrics env w id =
          (.ok m, (redisClient.SetRiskMetrics env w2 id m).2)) ∧
      (∀ e, (copyEngine.GetRiskMetrics env w id).1 = .error e →
        (∃ e1, (redisClient.GetRiskMetrics env w id).1 = .error e1) ∧
        ∃ e2, (postgresql.GetRiskMetrics env
          (redisClient.GetRiskMetrics env w id).2 id).1 = .error e2)) := by
  refine ⟨⟨?_, ?_, ?_⟩, ⟨?_, ?_, ?_⟩⟩
  · intro m w1 h
    refine ⟨by unfold copyEngine.GetPerformanceMetrics; rw [h], ?_⟩
    have hc := redisGetPerformanceMetrics_calls env w id
    rw [h] at hc
    exact hc
  · intro e w1 m w2 h1 h2
    unfold copyEngine.GetPerformanceMetrics
    rw [h1]
    dsimp only
    rw [h2]
  · intro e h
    unfold copyEngine.GetPerformanceMetrics at h
    rcases h1 : redisClient.GetPerformanceMetrics env w id with ⟨r1, w1⟩
    rw [h1] at h
    cases r1 with
    | ok m => simp at h
    | error e1 =>
      refine ⟨⟨e1, rfl⟩, ?_⟩
      dsimp only at h ⊢
      rcases h2 : postgresql.GetPerformanceMetrics env w1 id with ⟨r2, w2⟩
      rw [h2] at h
      cases r2 with
      | ok m => simp at h
      | error e2 => exact ⟨e2, rfl⟩
  · intro m w1 h
    refine ⟨by unfold copyEngine.GetRiskMetrics; rw [h], ?_⟩
    have hc := redisGetRiskMetrics_calls env w id
    rw [h] at hc
    exact hc
  · intro e w1 m w2 h1 h2
    unfold copyEngine.GetRiskMetrics
    rw [h1]
    dsimp only
    rw [h2]
  · intro e h
    unfold copyEngine.GetRiskMetrics at h
    rcases h1 : redisClient.GetRiskMetrics env w id with ⟨r1, w1⟩
    rw [h1] at h
    cases r1 with
    | ok m => simp at h
    | error e1 =>
      refine ⟨⟨e1, rfl⟩, ?_⟩
      dsimp only at h ⊢
      rcases h2 : postgresql.GetRiskMetrics env w1 id with ⟨r2, w2⟩
      rw [h2] at h
      cases r2 with
      | ok m => simp at h
      | error e2 => exact ⟨e2, rfl⟩

set_option maxRecDepth 100000 in
/-- Witness for C20: metrics of R1 present in the persistent store only, the cache write
(third call) failing: both getters still return the stored record. -/
theorem getMetrics_cache_aside_witness :
    (copyEngine.GetPerformanceMetrics (failAtEnv 2) worldMetricsStored "R1").1 =
      .ok performanceMetricsStored ∧
    (copyEngine.GetRiskMetrics (failAtEnv 2) worldMetricsStored "R1").1 =
      .ok riskMetricsStored ∧
    (redisClient.SetPerformanceMetrics (failAtEnv 2)
      { worldMetricsStored with
        calls := [Call.RedisGetPerformanceMetrics "R1", Call.PgGetPerformanceMetrics "R1"] }
      "R1" performanceMetricsStored).1 ≠ none :=
  ⟨congrArg Prod.fst
      ((getMetrics_cache_aside (failAtEnv 2) worldMetricsStored "R1").1.2.1
        "performance metrics not found for relationship: R1"
        { worldMetricsStored with calls := [Call.RedisGetPerformanceMetrics "R1"] }
        performanceMetricsStored
        { worldMetricsStored with
          calls := [Call.RedisGetPerformanceMetrics "R1", Call.PgGetPerformanceMetrics "R1"] }
        (by decide) (by decide)),
    congrArg Prod.fst
      ((getMetrics_cache_aside (failAtEnv 2) worldMetricsStored "R1").2.2.1
        "risk metrics not found for relationship: R1"
        { worldMetricsStored with calls := [Call.RedisGetRiskMetrics "R1"] }
        riskMetricsStored
        { worldMetricsStored with
          calls := [Call.RedisGetRiskMetrics "R1", Call.PgGetRiskMetrics "R1"] }
        (by decide) (by decide)),
    by decide⟩

/-! ## Helper lemmas: admission and the proportional sizer -/

/-- The size checks of shouldExecuteCopy hold for every trade it admits. -/
theorem shouldExecuteCopy_true_size_checks (env : Env) (w : World)
    (relationship : CopyRelationship) (trade : Trade)
    (h : (copyEngine.shouldExecuteCopy env w relationship trade).1 = .ok true) :
    ¬ trade.Size < relationship.MinAllocation ∧
    ¬ (relationship.MaxAllocation > 0 ∧ trade.Size > relationship.MaxAllocation) := by
  unfold copyEngine.shouldExecuteCopy at h
  by_cases hA : relationship.IsActive = true
  · by_cases hmin : trade.Size < relationship.MinAllocation
    · simp [hA, hmin] at h
    · by_cases hmax : relationship.MaxAllocation > 0 ∧
          trade.Size > relationship.MaxAllocation
      · simp [hA, hmin, hmax] at h
      · exact ⟨hmin, hmax⟩
  · simp [hA] at h

/-- The proportional sizer on a trade that passes the two size checks. -/
theorem proportional_size_checked (signal : CopySignal) (trade : Trade)
    (_hpct0 : 0 ≤ signal.Relationship.AllocationPercent)
    (hpct1 : signal.Relationship.AllocationPercent ≤ 100)
    (hsize : trade.Size > 0)
    (hmin : ¬ trade.Size < signal.Relationship.MinAllocation)
    (hmax : ¬ (signal.Relationship.MaxAllocation > 0 ∧
      trade.Size > signal.Relationship.MaxAllocation)) :
    ∃ s, ProportionalStrategy.CalculatePositionSize signal trade = .ok s ∧
      s = max (trade.Size * signal.Relationship.AllocationPercent / 100)
        signal.Relationship.MinAllocation ∧
      signal.Relationship.MinAllocation ≤ s ∧ s ≤ trade.Size := by
  have hx : trade.Size * (signal.Relationship.AllocationPercent / 100) ≤ trade.Size := by
    have : signal.Relationship.AllocationPercent / 100 ≤ 1 := by
      rw [div_le_one (by norm_num)]
      exact hpct1
    calc trade.Size * (signal.Relationship.AllocationPercent / 100)
        ≤ trade.Size * 1 := mul_le_mul_of_nonneg_left this hsize.le
      _ = trade.Size := mul_one _
  have hmin2 : signal.Relationship.MinAllocation ≤ trade.Size := not_lt.mp hmin
  have hy : max (trade.Size * (signal.Relationship.AllocationPercent / 100))
      signal.Relationship.MinAllocation ≤ trade.Size := max_le hx hmin2
  refine ⟨max (trade.Size * signal.Relationship.AllocationPercent / 100)
    signal.Relationship.MinAllocation, ?_, rfl, le_max_right _ _, ?_⟩
  · unfold ProportionalStrategy.CalculatePositionSize
    simp only [mul_div_assoc]
    congr 1
    have hstep : (if trade.Size * (signal.Relationship.AllocationPercent / 100) <
        signal.Relationship.MinAllocation then signal.Relationship.MinAllocation
        else trade.Size * (signal.Relationship.AllocationPercent / 100)) =
        max (trade.Size * (signal.Relationship.AllocationPercent / 100))
          signal.Relationship.MinAllocation := by
      split_ifs with h1
      · rw [max_eq_right h1.le]
      · rw [max_eq_left (not_lt.mp h1)]
    rw [hstep]
    apply if_neg
    rintro ⟨hpos, hgt⟩
    exact hmax ⟨hpos, lt_of_lt_of_le hgt hy⟩
  · rw [mul_div_assoc]
    exact hy


/-! ## The claims, continued: lifecycle, configuration, derived properties -/

/-- C21: Start on a copy engine that is already running returns the error "copy engine
is already running" and leaves every control field as it was: still running, the same
number of workers, the same context, its cancellation state untouched. -/
theorem start_when_running_is_rejected (st : copyEngineState) (h : st.running = true) :
    copyEngine.Start st = .returned (some "copy engine is already running") st := by
  unfold copyEngine.Start
  rw [if_pos h]

set_option maxRecDepth 100000 in
/-- Witness for C21: a second Start on the engine started once. -/
theorem start_when_running_is_rejected_witness :
    startedState.running = true ∧
    copyEngine.Start startedState =
      .returned (some "copy engine is already running") startedState :=
  ⟨by decide, start_when_running_is_rejected startedState (by decide)⟩

/-- C22 (divergence): when the workers of a running copy engine do not finish before the
30-second timer, copyEngine.Stop still returns no error (the engine is marked not
running, the context cancelled, the channel closed); indeed no call of copyEngine.Stop
returns an error. Engine.Stop of engine.go, in the same situation, returns the error of
its context. -/
theorem copyEngine_stop_swallows_timeout (st : copyEngineState) (ctxErr : Option String) (est : EngineState) :
    (st.running = true → st.tradeChanClosed = false →
      copyEngine.Stop false st =
        .returned none { st with cancelled := true, tradeChanClosed := true, running := false }) ∧
    (∀ workersFinish err st2, copyEngine.Stop workersFinish st ≠ .returned (some err) st2) ∧
    (est.stopChanClosed = false → est.commandChanClosed = false →
      ∃ est2, Engine.Stop ctxErr false est = .returned ctxErr est2) := by
  refine ⟨?_, ?_, ?_⟩
  · intro hr hc
    obtain ⟨running, tradeChan, closed, ctx, cancelled, workers⟩ := st
    simp only at hr hc
    subst hr
    subst hc
    rfl
  · intro workersFinish err st2
    obtain ⟨running, tradeChan, closed, ctx, cancelled, workers⟩ := st
    cases running <;> cases closed <;> cases workersFinish <;>
      simp [copyEngine.Stop]
  · intro h1 h2
    obtain ⟨stopClosed, commandClosed, strategies, active, workers⟩ := est
    simp only at h1 h2
    subst h1
    subst h2
    exact ⟨_, rfl⟩

set_option maxRecDepth 100000 in
/-- Example for C22: the engine started once, its workers not finishing in time. -/
theorem copyEngine_stop_swallows_timeout_witness :
    copyEngine.Stop false startedState =
      .returned none
        { startedState with cancelled := true, tradeChanClosed := true, running := false } :=
  (copyEngine_stop_swallows_timeout startedState none engineStarted).1 (by decide) (by decide)

/-- C23 (divergence): with `MAX_LEVERAGE` parsed as NaN and the other settings valid,
both comparisons of the leverage guard are false and Config.validate returns no error,
although the leverage is not in the range `0 < max_leverage ≤ 100`. For every leverage
other than NaN, Config.validate returns no error if and only if the API key is
non-empty, the secret key is non-empty, `max_concurrency > 0` and
`0 < max_leverage ≤ 100`. -/
theorem validate_accepts_nan_leverage (c : Config) :
    (c.Risk.MaxLeverage = .nan → c.Hyperliquid.APIKey ≠ "" →
      c.Hyperliquid.SecretKey ≠ "" → c.Engine.MaxConcurrency > 0 →
      c.validate = none ∧ ¬ c.Risk.MaxLeverage.inLeverageRange) ∧
    (c.Risk.MaxLeverage ≠ .nan →
      (c.validate = none ↔
        c.Hyperliquid.APIKey ≠ "" ∧ c.Hyperliquid.SecretKey ≠ "" ∧
        c.Engine.MaxConcurrency > 0 ∧ c.Risk.MaxLeverage.inLeverageRange)) := by
  constructor
  · intro hnan h1 h2 h3
    unfold Config.validate
    rw [if_neg h1, if_neg h2, if_neg (not_le.mpr h3), hnan]
    exact ⟨rfl, fun h => h⟩
  · intro hnan
    unfold Config.validate
    by_cases h1 : c.Hyperliquid.APIKey = ""
    · simp [h1]
    · by_cases h2 : c.Hyperliquid.SecretKey = ""
      · simp [h1, h2]
      · by_cases h3 : c.Engine.MaxConcurrency ≤ 0
        · simp [h1, h2, h3]
        · rw [if_neg h1, if_neg h2, if_neg h3]
          have h3b : c.Engine.MaxConcurrency > 0 := not_le.mp h3
          cases hl : c.Risk.MaxLeverage with
          | nan => exact absurd hl hnan
          | posInf =>
            simp [Float64.le, Float64.gt, Float64.inLeverageRange]
          | negInf =>
            simp [Float64.le, Float64.gt, Float64.inLeverageRange]
          | finite value =>
            by_cases hv0 : value ≤ 0
            · simp [Float64.le, Float64.gt, Float64.inLeverageRange, hv0]
            · by_cases hv1 : value > 100
              · simp [Float64.le, Float64.gt, Float64.inLeverageRange, hv0, hv1]
              · simp only [Float64.le, Float64.gt, Float64.inLeverageRange]
                simp [hv0, hv1, h1, h2, h3b, not_le.mp hv0, not_lt.mp hv1]

set_option maxRecDepth 100000 in
/-- Witness for C23: the configuration loaded with `MAX_LEVERAGE=NaN`, which the parser
accepts, passes validation; with leverage 5 it passes as well, with leverage 0 or 101 it
is refused. -/
theorem validate_accepts_nan_leverage_witness :
    getEnvFloatOrDefault (fun key => if key = "MAX_LEVERAGE" then "NaN" else "")
      (fun text => if text = "NaN" then some Float64.nan else none)
      "MAX_LEVERAGE" (.finite 5) = configNaNLeverage.Risk.MaxLeverage ∧
    configValid.validate = none ∧
    ({ configValid with Risk := { configValid.Risk with MaxLeverage := .finite 0 } } :
      Config).validate = some "MAX_LEVERAGE must be between 0 and 100" ∧
    ({ configValid with Risk := { configValid.Risk with MaxLeverage := .finite 101 } } :
      Config).validate = some "MAX_LEVERAGE must be between 0 and 100" ∧
    configNaNLeverage.validate = none ∧
    ¬ configNaNLeverage.Risk.MaxLeverage.inLeverageRange :=
  ⟨by decide, by decide, by decide, by decide,
    (validate_accepts_nan_leverage configNaNLeverage).1 (by decide) (by decide) (by decide)
      (by decide)⟩

/-- C25: for a relationship with `0 ≤ allocation_percent ≤ 100` and a leader trade with
`size > 0`: if the trade passes the two size checks of shouldExecuteCopy, and so in
particular if shouldExecuteCopy admits it, the proportional sizer returns
`max (size × allocation_percent / 100) min_allocation`, which lies between
`min_allocation` and `trade.size`; the `max_allocation` clamp is not applied. -/
theorem proportional_admitted_size_unclamped (signal : CopySignal) (trade : Trade)
    (hpct0 : 0 ≤ signal.Relationship.AllocationPercent)
    (hpct1 : signal.Relationship.AllocationPercent ≤ 100)
    (hsize : trade.Size > 0) :
    (¬ trade.Size < signal.Relationship.MinAllocation →
      ¬ (signal.Relationship.MaxAllocation > 0 ∧
        trade.Size > signal.Relationship.MaxAllocation) →
      ∃ s, ProportionalStrategy.CalculatePositionSize signal trade = .ok s ∧
        s = max (trade.Size * signal.Relationship.AllocationPercent / 100)
          signal.Relationship.MinAllocation ∧
        signal.Relationship.MinAllocation ≤ s ∧ s ≤ trade.Size) ∧
    (∀ env w, (copyEngine.shouldExecuteCopy env w signal.Relationship trade).1 = .ok true →
      ∃ s, ProportionalStrategy.CalculatePositionSize signal trade = .ok s ∧
        s = max (trade.Size * signal.Relationship.AllocationPercent / 100)
          signal.Relationship.MinAllocation ∧
        signal.Relationship.MinAllocation ≤ s ∧ s ≤ trade.Size) := by
  refine ⟨fun hmin hmax =>
    proportional_size_checked signal trade hpct0 hpct1 hsize hmin hmax, ?_⟩
  intro env w hadm
  have hc := shouldExecuteCopy_true_size_checks env w signal.Relationship trade hadm
  exact proportional_size_checked signal trade hpct0 hpct1 hsize hc.1 hc.2

set_option maxRecDepth 100000 in
/-- Witness for C25: a relationship with `max_allocation = 200 > 0`, `min_allocation = 30`
and allocation 25 percent, and the leader trade of size 100, admitted with both stores
empty: the sizer returns 30 (25 raised to the minimum), between 30 and 100, and the
maximum of 200 does not change it. -/
theorem proportional_admitted_size_unclamped_witness :
    (signalFor relBounded).Relationship.MaxAllocation > 0 ∧
    (copyEngine.shouldExecuteCopy calmEnv emptyWorld (signalFor relBounded).Relationship
      tradeS1).1 = .ok true ∧
    ProportionalStrategy.CalculatePositionSize (signalFor relBounded) tradeS1 = .ok 30 ∧
    ∃ s, ProportionalStrategy.CalculatePositionSize (signalFor relBounded) tradeS1 = .ok s ∧
      s = max (tradeS1.Size * (signalFor relBounded).Relationship.AllocationPercent / 100)
        (signalFor relBounded).Relationship.MinAllocation ∧
      (signalFor relBounded).Relationship.MinAllocation ≤ s ∧ s ≤ tradeS1.Size :=
  ⟨by decide, by decide, by with_unfolding_all decide,
    (proportional_admitted_size_unclamped (signalFor relBounded) tradeS1
      (by decide) (by decide) (by decide)).2 calmEnv emptyWorld (by decide)⟩

set_option maxRecDepth 100000 in
/-- C27 (divergence): NewCopyEngine makes the ingress channel once, Stop closes it and
Start does not make a new one. After Start, Stop, Start the engine is running with its
ingress channel closed, and a ProcessTraderTrade call whose send case fires panics with
"send on closed channel"; on a freshly started engine the same call enqueues the trade. -/
theorem restart_leaves_ingress_closed :
    copyEngine.calls NewCopyEngine.state [.Start, .Stop true, .Start] =
      .returned none
        { running := true, tradeChan := [], tradeChanClosed := true, ctx := 2,
          cancelled := false, workers := 2 } ∧
    copyEngine.calls NewCopyEngine.state
        [.Start, .Stop true, .Start, .ProcessTraderTrade .send tradeS1] =
      .panicked "send on closed channel"
        { running := true, tradeChan := [], tradeChanClosed := true, ctx := 2,
          cancelled := false, workers := 2 } ∧
    (copyEngine.calls NewCopyEngine.state
        [.Start, .ProcessTraderTrade .send tradeS1]).state.tradeChan.map (fun t => t.ID) =
      ["T1"] := by
  decide

/-! ## Helper lemmas: the drawdown loop -/

theorem ite_gt_eq_max (a b : ℚ) : (if a > b then a else b) = max b a := by
  split_ifs with h
  · exact (max_eq_right h.le).symm
  · exact (max_eq_left (not_lt.mp h)).symm

theorem maxDrawdownStep_eq (pk md r : ℚ) (t : Trade) :
    copyEngine.calculateMaxDrawdown.step (pk, md, r) t =
      (max pk (r + t.RealizedPnL),
        max md (max pk (r + t.RealizedPnL) - (r + t.RealizedPnL)),
        r + t.RealizedPnL) := by
  unfold copyEngine.calculateMaxDrawdown.step
  simp only [ite_gt_eq_max]

theorem runningSum_append_lt (pnls : List ℚ) (p : ℚ) (j : ℕ) (hj : j < pnls.length) :
    runningSum (pnls ++ [p]) j = runningSum pnls j := by
  unfold runningSum
  rw [List.take_append_of_le_length (Nat.succ_le_of_lt hj)]

theorem runningSum_append_length (pnls : List ℚ) (p : ℚ) :
    runningSum (pnls ++ [p]) pnls.length = pnls.sum + p := by
  unfold runningSum
  rw [List.take_of_length_le (by simp), List.sum_append]
  simp

theorem peakUpTo_append_lt (pnls : List ℚ) (p : ℚ) (j : ℕ) (hj : j < pnls.length) :
    peakUpTo (pnls ++ [p]) j = peakUpTo pnls j := by
  unfold peakUpTo
  congr 1
  apply List.map_congr_left
  intro i hi
  rw [List.mem_range] at hi
  exact runningSum_append_lt pnls p i (by omega)

theorem drawdownAt_append_lt (pnls : List ℚ) (p : ℚ) (j : ℕ) (hj : j < pnls.length) :
    drawdownAt (pnls ++ [p]) j = drawdownAt pnls j := by
  unfold drawdownAt
  rw [peakUpTo_append_lt pnls p j hj, runningSum_append_lt pnls p j hj]

theorem peakUpTo_append_length (pnls : List ℚ) (p : ℚ) :
    peakUpTo (pnls ++ [p]) pnls.length =
      max (((List.range pnls.length).map (runningSum pnls)).foldl max 0) (pnls.sum + p) := by
  unfold peakUpTo
  rw [List.range_succ, List.map_append, List.foldl_append]
  simp only [List.map_cons, List.map_nil, List.foldl_cons, List.foldl_nil]
  rw [runningSum_append_length]
  congr 2
  apply List.map_congr_left
  intro i hi
  rw [List.mem_range] at hi
  exact runningSum_append_lt pnls p i hi

/-- The loop of calculateMaxDrawdown from `(0, 0, 0)`: the running PnL, the peak, and the
largest drawdown seen. -/
theorem maxDrawdownFold_spec (trades : List Trade) :
    (trades.foldl copyEngine.calculateMaxDrawdown.step (0, 0, 0)).2.2 =
      (trades.map (fun t => t.RealizedPnL)).sum ∧
    (trades.foldl copyEngine.calculateMaxDrawdown.step (0, 0, 0)).1 =
      ((List.range trades.length).map
        (runningSum (trades.map (fun t => t.RealizedPnL)))).foldl max 0 ∧
    (∀ j, j < trades.length →
      drawdownAt (trades.map (fun t => t.RealizedPnL)) j ≤
        (trades.foldl copyEngine.calculateMaxDrawdown.step (0, 0, 0)).2.1) ∧
    ((trades = [] ∧
        (trades.foldl copyEngine.calculateMaxDrawdown.step (0, 0, 0)).2.1 = 0) ∨
      ∃ j, j < trades.length ∧
        (trades.foldl copyEngine.calculateMaxDrawdown.step (0, 0, 0)).2.1 =
          drawdownAt (trades.map (fun t => t.RealizedPnL)) j) := by
  induction trades using List.reverseRecOn with
  | nil => simp
  | append_singleton xs t ih =>
    obtain ⟨hrun, hpk, hle, hex⟩ := ih
    rcases hF : xs.foldl copyEngine.calculateMaxDrawdown.step (0, 0, 0) with ⟨pk, md, r⟩
    rw [hF] at hrun hpk hle hex
    simp only at hrun hpk hle hex
    have hlen : (xs.map (fun t => t.RealizedPnL)).length = xs.length := List.length_map _ _
    have hd : drawdownAt (xs.map (fun t => t.RealizedPnL) ++ [t.RealizedPnL]) xs.length =
        max pk (r + t.RealizedPnL) - (r + t.RealizedPnL) := by
      unfold drawdownAt
      have h1 := peakUpTo_append_length (xs.map (fun t => t.RealizedPnL)) t.RealizedPnL
      have h2 := runningSum_append_length (xs.map (fun t => t.RealizedPnL)) t.RealizedPnL
      rw [hlen] at h1 h2
      rw [h1, h2, ← hpk, ← hrun]
    rw [List.foldl_append, hF]
    simp only [List.foldl_cons, List.foldl_nil, maxDrawdownStep_eq, List.map_append,
      List.map_cons, List.map_nil, List.sum_append, List.sum_cons, List.sum_nil, add_zero,
      List.length_append, List.length_singleton]
    refine ⟨by rw [hrun], ?_, ?_, ?_⟩
    · rw [List.range_succ, List.map_append, List.foldl_append]
      simp only [List.map_cons, List.map_nil, List.foldl_cons, List.foldl_nil]
      have h2 := runningSum_append_length (xs.map (fun t => t.RealizedPnL)) t.RealizedPnL
      rw [hlen] at h2
      rw [h2, ← hrun]
      congr 1
      rw [hpk]
      congr 1
      apply List.map_congr_left
      intro i hi
      rw [List.mem_range] at hi
      exact (runningSum_append_lt _ _ i (by rw [hlen]; exact hi)).symm
    · intro j hj
      rcases Nat.lt_succ_iff_lt_or_eq.mp hj with h | h
      · rw [drawdownAt_append_lt _ _ j (by rw [hlen]; exact h)]
        exact le_trans (hle j h) (le_max_left _ _)
      · subst h
        rw [hd]
        exact le_max_right _ _
    · right
      rcases le_total md (max pk (r + t.RealizedPnL) - (r + t.RealizedPnL)) with h | h
      · exact ⟨xs.length, Nat.lt_succ_self _, by rw [hd, max_eq_right h]⟩
      · rcases hex with ⟨hnil, hmd⟩ | ⟨j, hj, hmd⟩
        · refine ⟨xs.length, Nat.lt_succ_self _, ?_⟩
          rw [hd]
          apply le_antisymm
          · apply max_le
            · rw [hmd]
              exact sub_nonneg.mpr (le_max_right _ _)
            · exact le_rfl
          · exact le_max_right _ _
        · refine ⟨j, Nat.lt_succ_of_lt hj, ?_⟩
          rw [drawdownAt_append_lt _ _ j (by rw [hlen]; exact hj), max_eq_left h, hmd]

/-- With no losing trade the loop keeps the peak at the running PnL and the drawdown
at zero. -/
theorem maxDrawdownFold_no_loss (trades : List Trade)
    (h : ∀ t ∈ trades, 0 ≤ t.RealizedPnL) (pk : ℚ) :
    trades.foldl copyEngine.calculateMaxDrawdown.step (pk, 0, pk) =
      (pk + (trades.map (fun t => t.RealizedPnL)).sum, 0,
        pk + (trades.map (fun t => t.RealizedPnL)).sum) := by
  induction trades generalizing pk with
  | nil => simp
  | cons t ts ih =>
    have ht : 0 ≤ t.RealizedPnL := h t (List.mem_cons_self _ _)
    rw [List.foldl_cons, maxDrawdownStep_eq]
    have h1 : max pk (pk + t.RealizedPnL) = pk + t.RealizedPnL :=
      max_eq_right (le_add_of_nonneg_right ht)
    rw [h1, sub_self, max_self, ih (fun u hu => h u (List.mem_cons_of_mem _ hu))]
    simp only [List.map_cons, List.sum_cons, add_assoc]

/-- The largest drawdown kept by the loop never decreases. -/
theorem maxDrawdownFold_md_le (trades : List Trade) (pk md r : ℚ) :
    md ≤ (trades.foldl copyEngine.calculateMaxDrawdown.step (pk, md, r)).2.1 := by
  induction trades generalizing pk md r with
  | nil => simp
  | cons t ts ih =>
    rw [List.foldl_cons, maxDrawdownStep_eq]
    exact le_trans (le_max_left _ _) (ih _ _ _)

/-- C24: with `p_0 .. p_{n-1}` the realized PnLs of the trades and `P_j` their running
sums, calculateMaxDrawdown returns the largest of the drawdowns
`max(0, max_{i ≤ j} P_i) − P_j`: every drawdown is at most the result and, for a
non-empty list, the result is one of them. It returns 0 for the empty list, is never
negative, and is 0 whenever every realized PnL is non-negative. -/
theorem calculateMaxDrawdown_is_largest_drawdown (trades : List Trade) :
    copyEngine.calculateMaxDrawdown [] = 0 ∧
    (∀ j, j < trades.length →
      drawdownAt (trades.map (fun t => t.RealizedPnL)) j ≤
        copyEngine.calculateMaxDrawdown trades) ∧
    (trades ≠ [] → ∃ j, j < trades.length ∧
      copyEngine.calculateMaxDrawdown trades =
        drawdownAt (trades.map (fun t => t.RealizedPnL)) j) ∧
    0 ≤ copyEngine.calculateMaxDrawdown trades ∧
    ((∀ t ∈ trades, 0 ≤ t.RealizedPnL) → copyEngine.calculateMaxDrawdown trades = 0) := by
  obtain ⟨_, _, hle, hex⟩ := maxDrawdownFold_spec trades
  refine ⟨by simp [copyEngine.calculateMaxDrawdown], ?_, ?_, ?_, ?_⟩
  · intro j hj
    have hne : ¬ trades.length = 0 := by omega
    unfold copyEngine.calculateMaxDrawdown
    rw [if_neg hne]
    exact hle j hj
  · intro hne
    have hlen : ¬ trades.length = 0 := fun h => hne (List.length_eq_zero.mp h)
    unfold copyEngine.calculateMaxDrawdown
    rw [if_neg hlen]
    rcases hex with ⟨hnil, _⟩ | h
    · exact absurd hnil hne
    · exact h
  · unfold copyEngine.calculateMaxDrawdown
    split_ifs
    · exact le_rfl
    · exact maxDrawdownFold_md_le trades 0 0 0
  · intro hall
    unfold copyEngine.calculateMaxDrawdown
    split_ifs
    · rfl
    · rw [maxDrawdownFold_no_loss trades hall 0]

set_option maxRecDepth 100000 in
/-- Example for C24: on the realized PnLs +10, −4, −3, +8, −6 the drawdowns are
0, 4, 7, 0, 6 and the result is the third of them. -/
theorem calculateMaxDrawdown_is_largest_drawdown_witness :
    (List.range 5).map (drawdownAt (tradesS6.map (fun t => t.RealizedPnL))) =
      [0, 4, 7, 0, 6] ∧
    drawdownAt (tradesS6.map (fun t => t.RealizedPnL)) 2 ≤
      copyEngine.calculateMaxDrawdown tradesS6 ∧
    ∃ j, j < tradesS6.length ∧
      copyEngine.calculateMaxDrawdown tradesS6 =
        drawdownAt (tradesS6.map (fun t => t.RealizedPnL)) j :=
  ⟨by with_unfolding_all decide,
    (calculateMaxDrawdown_is_largest_drawdown tradesS6).2.1 2 (by decide),
    (calculateMaxDrawdown_is_largest_drawdown tradesS6).2.2.1 (by decide)⟩


/-- C26: for a relationship with `max_allocation = 0` whose follower's positions are
fetched and have a positive total value `Σ size × current_price`, calculateRiskMetrics
returns metrics with `current_exposure > max_exposure` (the total against a tenth of
it); whenever GetRiskMetrics yields those metrics for the relationship, shouldExecuteCopy
denies the leader trade, whatever the trade. -/
theorem zero_max_allocation_metrics_deny (env : Env) (w w2 : World)
    (relationship : CopyRelationship) (positions : List Position)
    (hmax : relationship.MaxAllocation = 0)
    (hfetch : postgresql.GetFollowerPositions env w relationship.FollowerID =
      (.ok positions, w2))
    (hpos : 0 < totalValueOf positions) :
    ∃ m : RiskMetrics,
      copyEngine.calculateRiskMetrics env w relationship = (.ok m, w2) ∧
      m.CurrentExposure = totalValueOf positions ∧
      m.MaxExposure = totalValueOf positions * (1 / 10) ∧
      m.CurrentExposure > m.MaxExposure ∧
      ∀ (env2 : Env) (w3 w4 : World) (trade : Trade),
        copyEngine.GetRiskMetrics env2 w3 relationship.ID = (.ok m, w4) →
        (copyEngine.shouldExecuteCopy env2 w3 relationship trade).1 = .ok false := by
  unfold copyEngine.calculateRiskMetrics
  rw [hfetch]
  simp only [riskStep_foldl, zero_add, hmax, if_true]
  have hgt : totalValueOf positions > totalValueOf positions * (1 / 10) := by linarith
  refine ⟨_, rfl, rfl, rfl, hgt, ?_⟩
  intro env2 w3 w4 trade hg
  unfold copyEngine.shouldExecuteCopy
  split_ifs
  · rfl
  · rfl
  · rfl
  · rw [hg]
    simp only
    rw [if_pos hgt]

set_option maxRecDepth 100000 in
/-- Witness for C26: follower F1 holding an ETH position worth 20 and a BTC position worth
20, relationship R1 (no maximum). -/
theorem zero_max_allocation_metrics_deny_witness :
    relS1.MaxAllocation = 0 ∧
    0 < totalValueOf [positionOf "ETH" 2 (some 10), positionOf "BTC" 1 (some 20)] ∧
    ∃ m : RiskMetrics,
      copyEngine.calculateRiskMetrics calmEnv worldTwoPositions relS1 =
        (.ok m, { worldTwoPositions with calls := [Call.GetFollowerPositions "F1"] }) ∧
      m.CurrentExposure =
        totalValueOf [positionOf "ETH" 2 (some 10), positionOf "BTC" 1 (some 20)] ∧
      m.MaxExposure =
        totalValueOf [positionOf "ETH" 2 (some 10), positionOf "BTC" 1 (some 20)] * (1 / 10) ∧
      m.CurrentExposure > m.MaxExposure ∧
      ∀ (env2 : Env) (w3 w4 : World) (trade : Trade),
        copyEngine.GetRiskMetrics env2 w3 relS1.ID = (.ok m, w4) →
        (copyEngine.shouldExecuteCopy env2 w3 relS1 trade).1 = .ok false :=
  ⟨by decide, by with_unfolding_all decide,
    zero_max_allocation_metrics_deny calmEnv worldTwoPositions
      { worldTwoPositions with calls := [Call.GetFollowerPositions "F1"] } relS1
      [positionOf "ETH" 2 (some 10), positionOf "BTC" 1 (some 20)]
      (by decide) (by decide) (by with_unfolding_all decide)⟩


/-- C28 (divergence): for an admitted pair (admission leaves the world `w1`, having made
only risk-metrics reads), the store calls of processRelationship with the engine's
registry are, in order: SetCopySignal, UpdateCopyExecution, CreateTrade,
CreateCopyExecution. The UpdateCopyExecution call (status executing) carries the id of
the execution that CreateCopyExecution inserts two calls later, so the update comes
before the create of the same id and no create precedes it. -/
theorem processRelationship_updates_before_create (env : Env) (w w1 : World)
    (relationship : CopyRelationship) (trade : Trade)
    (hadm : copyEngine.shouldExecuteCopy env w relationship trade = (.ok true, w1)) :
    ∃ (pre : List Call) (signal : CopySignal) (e1 : CopyExecution) (t : Trade)
        (e3 : CopyExecution),
      (copyEngine.processRelationship NewCopyEngine env w relationship trade).world.calls =
        w.calls ++ pre ++
          [Call.SetCopySignal signal, Call.UpdateCopyExecution e1, Call.CreateTrade t,
            Call.CreateCopyExecution e3] ∧
      (∀ c ∈ pre, c.isRiskMetricsCall = true) ∧
      e1.ID = e3.ID ∧ e1.Status = .StatusExecuting := by
  have hpre := shouldExecuteCopy_callsExtend env w relationship trade
  rw [hadm] at hpre
  obtain ⟨pre, hprecalls, hpreP⟩ := hpre
  simp only at hprecalls
  unfold copyEngine.processRelationship
  split
  · rename_i heq; rw [hadm] at heq; cases heq
  · rename_i heq; rw [hadm] at heq; cases heq
  · rename_i w1b heq
    rw [hadm] at heq
    cases heq
    split
    rename_i signalID w2 hu1
    conv => zeta
    have hw2 := newUUID_frame env w1 signalID w2 hu1
    split
    · rename_i hst; rw [newCopyEngine_strategy_proportional] at hst; cases hst
    · rename_i strategy hst
      rw [newCopyEngine_strategy_proportional] at hst
      cases hst
      split
      · rename_i hse; simp [NewProportionalStrategy, ProportionalStrategy.ShouldExecute] at hse
      · rename_i hse; simp [NewProportionalStrategy, ProportionalStrategy.ShouldExecute] at hse
      · split
        · rename_i hsz
          simp [NewProportionalStrategy, ProportionalStrategy.CalculatePositionSize] at hsz
        · rename_i positionSize hsz
          split
          rename_i executionID w3 hu2
          have hw3 := newUUID_frame env w2 executionID w3 hu2
          conv => zeta
          split
          rename_i serr w4 hs
          have hw4 := setCopySignal_frame env w3
            { ID := signalID, Relationship := relationship, OriginalTrade := trade,
              SignalType := copyEngine.determineSignalType trade, Parameters := [] }
          rw [hs] at hw4
          obtain ⟨w5, hw5, hres⟩ := executeCopyTrade_result env w4
            { ID := executionID, SignalID := signalID, Relationship := relationship,
              Trade := none, Status := .StatusPending, ErrorMessage := none,
              Parameters := [("calculated_size", positionSize), ("original_size", trade.Size),
                ("allocation_pct", relationship.AllocationPercent)] } trade positionSize
          have hcalls : w5.calls = w.calls ++ pre ++
              [Call.SetCopySignal
                  { ID := signalID, Relationship := relationship, OriginalTrade := trade,
                    SignalType := copyEngine.determineSignalType trade, Parameters := [] },
                Call.UpdateCopyExecution
                  { ID := executionID, SignalID := signalID, Relationship := relationship,
                    Trade := none, Status := .StatusExecuting, ErrorMessage := none,
                    Parameters := [("calculated_size", positionSize),
                      ("original_size", trade.Size),
                      ("allocation_pct", relationship.AllocationPercent)] },
                Call.CreateTrade (copyEngine.executeCopyTrade.copyTrade (env.uuid w4.uuids)
                  { ID := executionID, SignalID := signalID, Relationship := relationship,
                    Trade := none, Status := .StatusExecuting, ErrorMessage := none,
                    Parameters := [("calculated_size", positionSize),
                      ("original_size", trade.Size),
                      ("allocation_pct", relationship.AllocationPercent)] }
                  trade positionSize)] := by
            rw [hw5, hw4.1, hw3.1, hw2.1, hprecalls]
            simp
          split
          rename_i err execution2 w5b hex
          conv => zeta
          rw [outcome_world_discard]
          rcases hres with hok | ⟨msg, hfail⟩
          · have hex2 := hok.symm.trans hex
            simp only [Prod.mk.injEq] at hex2
            obtain ⟨rfl, rfl, rfl⟩ := hex2
            rw [createCopyExecution_calls, hcalls]
            exact ⟨pre, _, _, _, _, List.append_assoc _ _ _, hpreP, rfl, rfl⟩
          · have hex2 := hfail.symm.trans hex
            simp only [Prod.mk.injEq] at hex2
            obtain ⟨rfl, rfl, rfl⟩ := hex2
            rw [createCopyExecution_calls, hcalls]
            exact ⟨pre, _, _, _, _, List.append_assoc _ _ _, hpreP, rfl, rfl⟩

set_option maxRecDepth 100000 in
/-- Witness for C28: scenario S1 with both stores empty and no failing call. -/
theorem processRelationship_updates_before_create_witness :
    copyEngine.shouldExecuteCopy calmEnv emptyWorld relS1 tradeS1 =
      (.ok true, { emptyWorld with
        calls := [Call.RedisGetRiskMetrics "R1", Call.PgGetRiskMetrics "R1"] }) ∧
    ∃ (pre : List Call) (signal : CopySignal) (e1 : CopyExecution) (t : Trade)
        (e3 : CopyExecution),
      (copyEngine.processRelationship NewCopyEngine calmEnv emptyWorld relS1
          tradeS1).world.calls =
        emptyWorld.calls ++ pre ++
          [Call.SetCopySignal signal, Call.UpdateCopyExecution e1, Call.CreateTrade t,
            Call.CreateCopyExecution e3] ∧
      (∀ c ∈ pre, c.isRiskMetricsCall = true) ∧
      e1.ID = e3.ID ∧ e1.Status = .StatusExecuting :=
  ⟨by decide,
    processRelationship_updates_before_create calmEnv emptyWorld
      { emptyWorld with calls := [Call.RedisGetRiskMetrics "R1", Call.PgGetRiskMetrics "R1"] }
      relS1 tradeS1 (by decide)⟩


/-! ## Helper lemmas: the performance loop -/

theorem performanceStep_eq (T : ℚ) (W L : ℤ) (ws ls : List ℚ) (t : Trade) :
    copyEngine.calculatePerformanceMetrics.step (T, W, L, ws, ls) t =
      (if t.RealizedPnL > 0 then
        (T + t.RealizedPnL, W + 1, L, ws ++ [t.RealizedPnL], ls)
      else if t.RealizedPnL < 0 then
        (T + t.RealizedPnL, W, L + 1, ws, ls ++ [|t.RealizedPnL|])
      else
        (T + t.RealizedPnL, W, L, ws, ls)) :=
  rfl

/-- One pass of the loop body of calculatePerformanceMetrics keeps three balances: total
PnL against the sums of the win and loss sizes, and each counter against the length of
its list; the two lists together grow by at most one entry. -/
theorem performanceStep_balance (s : ℚ × ℤ × ℤ × List ℚ × List ℚ) (t : Trade) :
    (copyEngine.calculatePerformanceMetrics.step s t).1
        - (copyEngine.calculatePerformanceMetrics.step s t).2.2.2.1.sum
        + (copyEngine.calculatePerformanceMetrics.step s t).2.2.2.2.sum =
      s.1 - s.2.2.2.1.sum + s.2.2.2.2.sum ∧
    (copyEngine.calculatePerformanceMetrics.step s t).2.1
        - ((copyEngine.calculatePerformanceMetrics.step s t).2.2.2.1.length : ℤ) =
      s.2.1 - (s.2.2.2.1.length : ℤ) ∧
    (copyEngine.calculatePerformanceMetrics.step s t).2.2.1
        - ((copyEngine.calculatePerformanceMetrics.step s t).2.2.2.2.length : ℤ) =
      s.2.2.1 - (s.2.2.2.2.length : ℤ) ∧
    (copyEngine.calculatePerformanceMetrics.step s t).2.2.2.1.length
        + (copyEngine.calculatePerformanceMetrics.step s t).2.2.2.2.length ≤
      s.2.2.2.1.length + s.2.2.2.2.length + 1 := by
  obtain ⟨T, W, L, ws, ls⟩ := s
  rw [performanceStep_eq]
  by_cases h1 : t.RealizedPnL > 0
  · rw [if_pos h1]
    refine ⟨?_, ?_, rfl, ?_⟩
    · show T + t.RealizedPnL - (ws ++ [t.RealizedPnL]).sum + ls.sum = T - ws.sum + ls.sum
      rw [List.sum_append, List.sum_singleton]
      ring
    · show W + 1 - ((ws ++ [t.RealizedPnL]).length : ℤ) = W - (ws.length : ℤ)
      rw [List.length_append, List.length_singleton]
      push_cast
      ring
    · show (ws ++ [t.RealizedPnL]).length + ls.length ≤ ws.length + ls.length + 1
      rw [List.length_append, List.length_singleton]
      omega
  · by_cases h2 : t.RealizedPnL < 0
    · rw [if_neg h1, if_pos h2]
      refine ⟨?_, rfl, ?_, ?_⟩
      · show T + t.RealizedPnL - ws.sum + (ls ++ [|t.RealizedPnL|]).sum =
          T - ws.sum + ls.sum
        rw [List.sum_append, List.sum_singleton, abs_of_neg h2]
        ring
      · show L + 1 - ((ls ++ [|t.RealizedPnL|]).length : ℤ) = L - (ls.length : ℤ)
        rw [List.length_append, List.length_singleton]
        push_cast
        ring
      · show ws.length + (ls ++ [|t.RealizedPnL|]).length ≤ ws.length + ls.length + 1
        rw [List.length_append, List.length_singleton]
        omega
    · have h0 : t.RealizedPnL = 0 := le_antisymm (not_lt.mp h1) (not_lt.mp h2)
      rw [if_neg h1, if_neg h2]
      refine ⟨?_, rfl, rfl, Nat.le_succ _⟩
      show T + t.RealizedPnL - ws.sum + ls.sum = T - ws.sum + ls.sum
      rw [h0, add_zero]

/-- The balances of the loop of calculatePerformanceMetrics over a whole trade list. -/
theorem performanceFold_balance (trades : List Trade) (s : ℚ × ℤ × ℤ × List ℚ × List ℚ) :
    (trades.foldl copyEngine.calculatePerformanceMetrics.step s).1
        - (trades.foldl copyEngine.calculatePerformanceMetrics.step s).2.2.2.1.sum
        + (trades.foldl copyEngine.calculatePerformanceMetrics.step s).2.2.2.2.sum =
      s.1 - s.2.2.2.1.sum + s.2.2.2.2.sum ∧
    (trades.foldl copyEngine.calculatePerformanceMetrics.step s).2.1
        - ((trades.foldl copyEngine.calculatePerformanceMetrics.step s).2.2.2.1.length : ℤ) =
      s.2.1 - (s.2.2.2.1.length : ℤ) ∧
    (trades.foldl copyEngine.calculatePerformanceMetrics.step s).2.2.1
        - ((trades.foldl copyEngine.calculatePerformanceMetrics.step s).2.2.2.2.length : ℤ) =
      s.2.2.1 - (s.2.2.2.2.length : ℤ) ∧
    (trades.foldl copyEngine.calculatePerformanceMetrics.step s).2.2.2.1.length
        + (trades.foldl copyEngine.calculatePerformanceMetrics.step s).2.2.2.2.length ≤
      s.2.2.2.1.length + s.2.2.2.2.length + trades.length := by
  induction trades generalizing s with
  | nil => simp
  | cons t ts ih =>
    obtain ⟨a1, a2, a3, a4⟩ := performanceStep_balance s t
    obtain ⟨b1, b2, b3, b4⟩ := ih (copyEngine.calculatePerformanceMetrics.step s t)
    rw [List.foldl_cons, List.length_cons]
    exact ⟨b1.trans a1, b2.trans a2, b3.trans a3, by omega⟩

/-- A count times the average of that many numbers is their sum. -/
theorem count_mul_average (xs : List ℚ) :
    (xs.length : ℚ) *
        (if xs.length > 0 then xs.foldl (fun a x => a + x) 0 / (xs.length : ℚ) else 0) =
      xs.sum := by
  by_cases h : xs.length > 0
  · rw [if_pos h, foldl_add_eq_sum, zero_add]
    have hne : (xs.length : ℚ) ≠ 0 := by
      exact_mod_cast (Nat.pos_iff_ne_zero.mp h)
    field_simp
  · rw [if_neg h]
    have hnil : xs = [] := List.length_eq_zero.mp (by omega)
    subst hnil
    simp

/-- C29: for a non-empty trade list the record returned by calculatePerformanceMetrics
satisfies `total_pnl = winning_trades × avg_win_size − losing_trades × avg_loss_size`,
`winning_trades + losing_trades ≤ total_trades`, `total_trades` is the length of the
list, and `win_rate = winning_trades / total_trades` lies between 0 and 1. -/
theorem performanceMetrics_identities (fl : ℚ → ℚ) (sqrt : ℚ → ℚ)
    (relationshipID : String) (trades : List Trade) (hne : trades ≠ []) :
    ∃ m : PerformanceMetrics,
      copyEngine.calculatePerformanceMetrics fl sqrt relationshipID trades = m ∧
      m.TotalPnL =
        (m.WinningTrades : ℚ) * m.AvgWinSize - (m.LosingTrades : ℚ) * m.AvgLossSize ∧
      m.WinningTrades + m.LosingTrades ≤ m.TotalTrades ∧
      m.TotalTrades = (trades.length : ℤ) ∧
      m.WinRate = (m.WinningTrades : ℚ) / (m.TotalTrades : ℚ) ∧
      0 ≤ m.WinRate ∧ m.WinRate ≤ 1 := by
  have hlen : ¬ trades.length = 0 := fun h => hne (List.length_eq_zero.mp h)
  have hpos : trades.length > 0 := Nat.pos_of_ne_zero hlen
  obtain ⟨b1, b2, b3, b4⟩ := performanceFold_balance trades (0, 0, 0, [], [])
  unfold copyEngine.calculatePerformanceMetrics
  rw [if_neg hlen]
  rcases hF : trades.foldl copyEngine.calculatePerformanceMetrics.step (0, 0, 0, [], [])
    with ⟨T, W, L, ws, ls⟩
  rw [hF] at b1 b2 b3 b4
  simp only [List.sum_nil, List.length_nil, sub_zero, add_zero, zero_add,
    Nat.cast_zero] at b1 b2 b3 b4
  have hW : W = (ws.length : ℤ) := by linarith
  have hL : L = (ls.length : ℤ) := by linarith
  have hT : T = ws.sum - ls.sum := by linarith
  have hWq : (W : ℚ) = (ws.length : ℚ) := by rw [hW]; norm_cast
  have hLq : (L : ℚ) = (ls.length : ℚ) := by rw [hL]; norm_cast
  have hnq : (0 : ℚ) < (trades.length : ℚ) := by exact_mod_cast hpos
  refine ⟨_, rfl, ?_, ?_, rfl, ?_, ?_, ?_⟩
  · show T = (W : ℚ) * _ - (L : ℚ) * _
    rw [hWq, hLq, count_mul_average, count_mul_average, hT]
  · show W + L ≤ (trades.length : ℤ)
    rw [hW, hL]
    exact_mod_cast b4
  · show (if trades.length > 0 then (W : ℚ) / (trades.length : ℚ) else 0) =
      (W : ℚ) / (((trades.length : ℤ)) : ℚ)
    rw [if_pos hpos]
    norm_cast
  · show 0 ≤ (if trades.length > 0 then (W : ℚ) / (trades.length : ℚ) else 0)
    rw [if_pos hpos, hWq]
    positivity
  · show (if trades.length > 0 then (W : ℚ) / (trades.length : ℚ) else 0) ≤ 1
    rw [if_pos hpos, hWq, div_le_one hnq]
    have : ws.length ≤ trades.length := by omega
    exact_mod_cast this

set_option maxRecDepth 100000 in
/-- Witness for C29: the five trades with realized PnLs +10, −4, −3, +8, −6. -/
theorem performanceMetrics_identities_witness :
    tradesS6 ≠ [] ∧
    ∃ m : PerformanceMetrics,
      copyEngine.calculatePerformanceMetrics roundToFloat64 (fun x => x) "R1" tradesS6 = m ∧
      m.TotalPnL =
        (m.WinningTrades : ℚ) * m.AvgWinSize - (m.LosingTrades : ℚ) * m.AvgLossSize ∧
      m.WinningTrades + m.LosingTrades ≤ m.TotalTrades ∧
      m.TotalTrades = (tradesS6.length : ℤ) ∧
      m.WinRate = (m.WinningTrades : ℚ) / (m.TotalTrades : ℚ) ∧
      0 ≤ m.WinRate ∧ m.WinRate ≤ 1 :=
  ⟨by decide,
    performanceMetrics_identities roundToFloat64 (fun x => x) "R1" tradesS6 (by decide)⟩


/-! ## Helper lemmas: bounds on a sum of squares -/

theorem sum_sq_le_sq_sum {α : Type} (l : List α) (f : α → ℚ) (h : ∀ a ∈ l, 0 ≤ f a) :
    (l.map (fun a => f a ^ 2)).sum ≤ (l.map f).sum ^ 2 ∧ 0 ≤ (l.map f).sum := by
  induction l with
  | nil => simp
  | cons a rest ih =>
    obtain ⟨h1, h2⟩ := ih (fun x hx => h x (List.mem_cons_of_mem _ hx))
    have ha : 0 ≤ f a := h a (List.mem_cons_self _ _)
    simp only [List.map_cons, List.sum_cons]
    constructor
    · nlinarith [mul_nonneg ha h2]
    · linarith

theorem sq_sum_le_length_mul_sum_sq {α : Type} (l : List α) (f : α → ℚ) :
    (l.map f).sum ^ 2 ≤ (l.length : ℚ) * (l.map (fun a => f a ^ 2)).sum := by
  induction l with
  | nil => simp
  | cons a rest ih =>
    simp only [List.map_cons, List.sum_cons, List.length_cons]
    push_cast
    have hn : (0 : ℚ) ≤ (rest.length : ℚ) := Nat.cast_nonneg _
    have hq : 0 ≤ (rest.map (fun a => f a ^ 2)).sum :=
      List.sum_nonneg (fun x hx => by
        obtain ⟨b, _, rfl⟩ := List.mem_map.mp hx
        exact sq_nonneg _)
    rcases Nat.eq_zero_or_pos rest.length with h0 | hpos
    · have hnil : rest = [] := List.length_eq_zero.mp h0
      subst hnil
      simp
    · have hnpos : (0 : ℚ) < (rest.length : ℚ) := by exact_mod_cast hpos
      have key : (rest.length : ℚ) * (2 * f a * (rest.map f).sum) ≤
          (rest.length : ℚ) * ((rest.length : ℚ) * f a ^ 2 +
            (rest.map (fun a => f a ^ 2)).sum) := by
        nlinarith [sq_nonneg ((rest.length : ℚ) * f a - (rest.map f).sum)]
      have key2 := le_of_mul_le_mul_left key hnpos
      nlinarith

theorem sum_map_div (l : List (String × ℚ)) (total : ℚ) :
    (l.map (fun e => e.2 / total)).sum = (l.map Prod.snd).sum / total := by
  induction l with
  | nil => simp
  | cons e rest ih => simp only [List.map_cons, List.sum_cons, ih, add_div]

theorem symbolTotal_nonneg (positions : List Position) (h : ∀ p ∈ positions, 0 ≤ p.value)
    (k : String) : 0 ≤ symbolTotal positions k := by
  unfold symbolTotal totalValueOf
  apply List.sum_nonneg
  intro x hx
  obtain ⟨p, hp, rfl⟩ := List.mem_map.mp hx
  exact h p (List.mem_of_mem_filter hp)

/-- C30: for positions whose values `size × current_price` are all non-negative with a
positive total, calculateConcentrationRisk returns a value `h` with `1/N ≤ h ≤ 1`, `N`
being the number of distinct symbols of the positions; when the total value is zero
(the empty list, or no position with a current price, among others) it returns 0. -/
theorem concentrationRisk_bounds (positions : List Position) :
    ((∀ p ∈ positions, 0 ≤ p.value) → 0 < totalValueOf positions →
      1 / ((positions.map (fun p => p.TokenSymbol)).dedup.length : ℚ) ≤
          copyEngine.calculateConcentrationRisk positions ∧
        copyEngine.calculateConcentrationRisk positions ≤ 1) ∧
    (totalValueOf positions = 0 → copyEngine.calculateConcentrationRisk positions = 0) := by
  rcases hst : positions.foldl copyEngine.calculateConcentrationRisk.step (0, []) with
    ⟨total, M⟩
  have htotal : total = totalValueOf positions := by
    have h := concentrationFold_total positions 0 []
    rw [hst, zero_add] at h
    exact h
  constructor
  · intro hval hpos
    have hsum : (M.map Prod.snd).sum = totalValueOf positions := by
      have h := concentrationFold_sum positions 0 []
      rw [hst] at h
      simpa using h
    have hnodup : (M.map Prod.fst).Nodup := by
      have h := concentrationFold_nodup positions 0 [] (by simp)
      rw [hst] at h
      exact h
    have hget : ∀ k, mapGet M k = symbolTotal positions k := by
      intro k
      have h := concentrationFold_get positions 0 [] k
      rw [hst] at h
      simpa [mapGet] using h
    have hkeys : ∀ k ∈ M.map Prod.fst,
        k ∈ (positions.map (fun p => p.TokenSymbol)).dedup := by
      intro k hk
      have h := concentrationFold_keys positions 0 [] k (by rw [hst]; exact hk)
      rcases h with h | ⟨p, hp, hpk⟩
      · simp at h
      · exact List.mem_dedup.mpr (List.mem_map.mpr ⟨p, hp, hpk⟩)
    have hentries : ∀ e ∈ M, 0 ≤ e.2 := by
      intro e he
      have h1 := mapGet_of_mem M e.1 e.2 hnodup he
      rw [← h1, hget]
      exact symbolTotal_nonneg positions hval _
    have htpos : 0 < total := by rw [htotal]; exact hpos
    have hshares : ∀ e ∈ M, 0 ≤ e.2 / total :=
      fun e he => div_nonneg (hentries e he) htpos.le
    have hone : (M.map (fun e => e.2 / total)).sum = 1 := by
      rw [sum_map_div, hsum, ← htotal]
      exact div_self htpos.ne.symm
    have hupper := (sum_sq_le_sq_sum M (fun e => e.2 / total) hshares).1
    have hlower := sq_sum_le_length_mul_sum_sq M (fun e => e.2 / total)
    rw [hone] at hupper hlower
    have hlen : M.length ≤ (positions.map (fun p => p.TokenSymbol)).dedup.length := by
      have h := (List.subperm_of_subset hnodup hkeys).length_le
      rwa [List.length_map] at h
    have hne : ¬ positions.length = 0 := by
      intro h0
      rw [List.length_eq_zero.mp h0] at hpos
      exact lt_irrefl _ hpos
    have hvalue : copyEngine.calculateConcentrationRisk positions =
        (M.map (fun e => (e.2 / total) ^ 2)).sum := by
      unfold copyEngine.calculateConcentrationRisk
      rw [hst]
      dsimp only
      rw [if_neg hne, if_neg htpos.ne.symm, hhiFold_eq_sum, zero_add]
    rw [hvalue]
    have hMpos : (0 : ℚ) < (M.length : ℚ) := by
      rcases Nat.eq_zero_or_pos M.length with h0 | hp
      · rw [h0] at hlower
        norm_num at hlower
      · exact_mod_cast hp
    have hNq : (M.length : ℚ) ≤
        ((positions.map (fun p => p.TokenSymbol)).dedup.length : ℚ) := by
      exact_mod_cast hlen
    refine ⟨?_, by simpa using hupper⟩
    calc 1 / ((positions.map (fun p => p.TokenSymbol)).dedup.length : ℚ)
        ≤ 1 / (M.length : ℚ) := one_div_le_one_div_of_le hMpos hNq
      _ ≤ (M.map (fun e => (e.2 / total) ^ 2)).sum := by
        rw [div_le_iff₀ hMpos]
        rw [mul_comm]
        simpa using hlower
  · intro hzero
    unfold copyEngine.calculateConcentrationRisk
    rw [hst]
    dsimp only
    split_ifs with h1 h2
    · rfl
    · rfl
    · exact absurd (htotal.trans hzero) h2

set_option maxRecDepth 100000 in
/-- Witness for C30: an ETH position worth 20 and a BTC position worth 20, two symbols. -/
theorem concentrationRisk_bounds_witness :
    (∀ p ∈ [positionOf "ETH" 2 (some 10), positionOf "BTC" 1 (some 20)], 0 ≤ p.value) ∧
    0 < totalValueOf [positionOf "ETH" 2 (some 10), positionOf "BTC" 1 (some 20)] ∧
    ([positionOf "ETH" 2 (some 10), positionOf "BTC" 1 (some 20)].map
      (fun p => p.TokenSymbol)).dedup.length = 2 ∧
    1 / (([positionOf "ETH" 2 (some 10), positionOf "BTC" 1 (some 20)].map
        (fun p => p.TokenSymbol)).dedup.length : ℚ) ≤
      copyEngine.calculateConcentrationRisk
        [positionOf "ETH" 2 (some 10), positionOf "BTC" 1 (some 20)] ∧
    copyEngine.calculateConcentrationRisk
      [positionOf "ETH" 2 (some 10), positionOf "BTC" 1 (some 20)] ≤ 1 :=
  ⟨by with_unfolding_all decide, by with_unfolding_all decide, by decide,
    (concentrationRisk_bounds
      [positionOf "ETH" 2 (some 10), positionOf "BTC" 1 (some 20)]).1
      (by with_unfolding_all decide) (by with_unfolding_all decide)⟩

end CopyEngine
